import Mathlib

/-!
# Security event processor: batch rewriting and OpenReports expansion

A shallow embedding of `processor.go` (package `securityevent`) and
`internal/openreports/processor.go` (package `openreports`).

Conventions of the embedding

* Go strings are Lean strings; `len(key) > 4 && key[:4] == "k8s."` is read on
  the character list, which is the same test because the four bytes are ASCII.
* `pcommon.Map` is the ordered key/value list it is stored as: `Get` returns the
  first entry with the key, `Put*` overwrites that entry or appends.
* Behaviour of imported libraries (JSON decoding, UUID generation, time and
  float formatting, base64, JSON encoding of nested values) is taken as the
  fields of `Lib`; the program is embedded for every such library.
* `uuid.New()` is a stream `Lib.uuid : Nat → String`; the number of identifiers
  drawn so far is threaded through the program as explicit state.
* Counters are natural numbers: a batch holds fewer than `2^63` records.
-/

set_option linter.dupNamespace false

namespace SecurityEvent

/-! ## Data model (pdata) -/

/-- IEEE-754 binary64 number, kept as its 64-bit pattern. -/
structure Float64 where
  bits : Nat
deriving DecidableEq, Repr

/-- Tagged attribute value (`pcommon.Value`). -/
inductive Value where
  | empty : Value
  | str (s : String) : Value
  | int (i : Int) : Value
  | double (d : Float64) : Value
  | bool (b : Bool) : Value
  | bytes (b : List Nat) : Value
  | slice (xs : List Value) : Value
  | map (kvs : List (String × Value)) : Value

/-- Attribute map (`pcommon.Map`): key/value entries in storage order. -/
abbrev Map := List (String × Value)

/-- Decoded JSON value (`interface{}` produced by `encoding/json`). -/
inductive JsonAny where
  | null : JsonAny
  | bool (b : Bool) : JsonAny
  | num (d : Float64) : JsonAny
  | str (s : String) : JsonAny
  | arr (xs : List JsonAny) : JsonAny
  | obj (kvs : List (String × JsonAny)) : JsonAny

/-- Timestamp of a result (`openreports.Timestamp`), two `int64` fields. -/
structure Timestamp where
  Seconds : Int
  Nanos : Int

/-- One entry of the results array (`openreports.Result`). -/
structure Result where
  Source : String
  Timestamp : Timestamp
  Message : String
  Policy : String
  Properties : List (String × JsonAny)
  Result : String
  Rule : String
  Scored : Bool
  Severity : String
  Category : String

/-- Behaviour of the imported libraries the program calls. -/
structure Lib where
  /-- Rendering of a double by `Value.AsString`. -/
  formatFloat : Float64 → String
  /-- Rendering of bytes by `Value.AsString` (standard base64). -/
  encodeBase64 : List Nat → String
  /-- Rendering of a nested map by `Value.AsString` (JSON encoding). -/
  marshalMap : List (String × Value) → String
  /-- Rendering of a list by `Value.AsString` (JSON encoding). -/
  marshalSlice : List Value → String
  /-- Decoding with `json.Unmarshal` into `[]string`; `none` is a non-nil error. -/
  unmarshalStrings : String → Option (List String)
  /-- Decoding with `json.Unmarshal` into `Result`; `none` is a non-nil error. -/
  unmarshalResult : String → Option Result
  /-- Decoding with `json.Unmarshal` into `map[string]interface{}`. -/
  unmarshalObject : String → Option (List (String × JsonAny))
  /-- The string of the n-th identifier drawn from `uuid.New()`. -/
  uuid : Nat → String
  /-- Rendering `time.Unix(sec, nsec).Format(time.RFC3339Nano)`. -/
  formatRFC3339Nano : Int → Int → String

/-- Lookup of the first entry with the key (`Map.Get`). -/
def Map.Get : Map → String → Option Value
  | [], _ => none
  | (k, v) :: rest, key => if k = key then some v else Map.Get rest key

/-- Overwrite the first entry with the key, or append a new entry (`Map.Put*`). -/
def Map.Put : Map → String → Value → Map
  | [], key, v => [(key, v)]
  | (k, w) :: rest, key, v =>
    if k = key then (k, v) :: rest else (k, w) :: Map.Put rest key v

/-- The guarded write `if c { m.Put(key, v) }`. -/
def Map.PutIf (c : Prop) [Decidable c] (m : Map) (key : String) (v : Value) : Map :=
  if c then Map.Put m key v else m

/-- String form of a value (`Value.AsString`). -/
def Value.AsString (lib : Lib) : Value → String
  | .empty => ""
  | .str s => s
  | .bool b => if b then "true" else "false"
  | .double d => lib.formatFloat d
  | .int i => toString i
  | .map kvs => lib.marshalMap kvs
  | .bytes b => lib.encodeBase64 b
  | .slice xs => lib.marshalSlice xs

/-- Log record (`plog.LogRecord`). -/
structure LogRecord where
  timestamp : Nat
  observedTimestamp : Nat
  severityNumber : Int
  severityText : String
  traceID : List Nat
  spanID : List Nat
  flags : Nat
  body : Value
  attributes : Map

/-- The empty record (`plog.NewLogRecord`). -/
def NewLogRecord : LogRecord :=
  { timestamp := 0, observedTimestamp := 0, severityNumber := 0, severityText := "",
    traceID := List.replicate 16 0, spanID := List.replicate 8 0, flags := 0,
    body := Value.empty, attributes := [] }

/-- Resource of a resource group (`pcommon.Resource`). -/
structure Resource where
  attributes : Map

/-- Scope group (`plog.ScopeLogs`). -/
structure ScopeLogs where
  scopeName : String
  scopeVersion : String
  scopeAttributes : Map
  schemaUrl : String
  logRecords : List LogRecord

/-- Resource group (`plog.ResourceLogs`). -/
structure ResourceLogs where
  resource : Resource
  schemaUrl : String
  scopeLogs : List ScopeLogs

/-- Batch (`plog.Logs`). -/
structure Logs where
  resourceLogs : List ResourceLogs

/-! ## `internal/openreports/config.go` and `internal/openreports/processor.go` -/

namespace openreports

/-- Configuration of the OpenReports processor (`openreports.Config`). -/
structure Config where
  Enabled : Bool
  StatusFilter : List String

/-- The `metadata map[string]interface{}` argument; every value stored by the
program is a string, and `%v` renders a string as itself. -/
abbrev Metadata := List (String × String)

/-- Go map lookup `metadata[key]` with its presence flag. -/
def Metadata.lookup : Metadata → String → Option String
  | [], _ => none
  | (k, v) :: rest, key => if k = key then some v else Metadata.lookup rest key

/-- Safe read of a metadata string (`getString`). -/
def getString (metadata : Metadata) (key : String) : String :=
  match Metadata.lookup metadata key with
  | some val => val
  | none => ""

/-- Severity to risk level (`mapSeverityToRiskLevel`). -/
def mapSeverityToRiskLevel (severity : String) : String :=
  if severity = "critical" then "CRITICAL"
  else if severity = "high" then "HIGH"
  else if severity = "medium" then "MEDIUM"
  else if severity = "low" then "LOW"
  else "MEDIUM"

/-- The double nearest to 10.0. -/
def f64_10_0 : Float64 := ⟨0x4024000000000000⟩
/-- The double nearest to 8.9. -/
def f64_8_9 : Float64 := ⟨0x4021CCCCCCCCCCCD⟩
/-- The double nearest to 6.9. -/
def f64_6_9 : Float64 := ⟨0x401B99999999999A⟩
/-- The double nearest to 3.9. -/
def f64_3_9 : Float64 := ⟨0x400F333333333333⟩
/-- The double 0.0. -/
def f64_0_0 : Float64 := ⟨0⟩

/-- Risk level to score (`calculateRiskScore`). -/
def calculateRiskScore (riskLevel : String) : Float64 :=
  if riskLevel = "CRITICAL" then f64_10_0
  else if riskLevel = "HIGH" then f64_8_9
  else if riskLevel = "MEDIUM" then f64_6_9
  else if riskLevel = "LOW" then f64_3_9
  else f64_0_0

/-- Result status to compliance status (`mapResultToComplianceStatus`). -/
def mapResultToComplianceStatus (result : String) : String :=
  if result = "pass" then "PASSED"
  else if result = "fail" then "FAILED"
  else if result = "error" then "MANUAL"
  else if result = "skip" then "NOT_RELEVANT"
  else "MANUAL"

/-- Resolved workload (`workloadInfo`); `namespace_` is the field `namespace`. -/
structure workloadInfo where
  name : String
  kind : String
  namespace_ : String
  uid : String
deriving DecidableEq, Repr

/-- Membership in the workload kinds (`isWorkloadKind`). -/
def isWorkloadKind (kind : String) : Bool :=
  decide (kind ∈ ["Deployment", "StatefulSet", "DaemonSet", "Job", "CronJob", "ReplicaSet"])

/-- Loop of `splitPodName` over the characters, with `parts` and `current`. -/
def splitPodNameLoop : List Char → List String → String → List String × String
  | [], parts, current => (parts, current)
  | char :: rest, parts, current =>
    if char = '-' then
      if current ≠ "" then splitPodNameLoop rest (parts ++ [current]) ""
      else splitPodNameLoop rest parts current
    else splitPodNameLoop rest parts (current.push char)

/-- Hyphen-separated components of a pod name (`splitPodName`). -/
def splitPodName (podName : String) : List String :=
  let r := splitPodNameLoop podName.data [] ""
  if r.2 ≠ "" then r.1 ++ [r.2] else r.1

/-- The type assertion `v.(string)` on an optional decoded JSON value. -/
def jsonAsString : Option JsonAny → Option String
  | some (JsonAny.str s) => some s
  | _ => none

/-- Lookup `ownerRef[key]` in a decoded JSON object. -/
def jsonLookup : List (String × JsonAny) → String → Option JsonAny
  | [], _ => none
  | (k, v) :: rest, key => if k = key then some v else jsonLookup rest key

/-- The owner-reference strings read from the attribute value. -/
def ownerRefStrings (lib : Lib) (ownerRefsVal : Value) : List String :=
  match ownerRefsVal with
  | Value.slice xs => xs.map (Value.AsString lib)
  | Value.str s =>
    match lib.unmarshalStrings s with
    | some jsonArray => jsonArray
    | none => [s]
  | _ => []

/-- Loop of `extractWorkloadInfo` over the owner references: the first entry
with a workload kind sets kind, name and uid and ends the loop. -/
def scanOwnerRefs (lib : Lib) : List String → workloadInfo → workloadInfo
  | [], info => info
  | ownerRefStr :: rest, info =>
    match lib.unmarshalObject ownerRefStr with
    | some ownerRef =>
      match jsonAsString (jsonLookup ownerRef "kind") with
      | some kind =>
        if isWorkloadKind kind then
          let info1 := { info with kind := kind }
          let info2 :=
            match jsonAsString (jsonLookup ownerRef "name") with
            | some name => { info1 with name := name }
            | none => info1
          match jsonAsString (jsonLookup ownerRef "uid") with
          | some uid => { info2 with uid := uid }
          | none => info2
        else scanOwnerRefs lib rest info
      | none => scanOwnerRefs lib rest info
    | none => scanOwnerRefs lib rest info

/-- Loop of `extractWorkloadInfo` joining `parts[0 .. len-3]` with hyphens;
`i` is the index of the head of the remaining parts. -/
def joinWorkloadName : List String → Nat → String → String
  | [], _, workloadName => workloadName
  | part :: rest, i, workloadName =>
    joinWorkloadName rest (i + 1)
      ((if i > 0 then workloadName ++ "-" else workloadName) ++ part)

/-- Workload resolution (`extractWorkloadInfo`). -/
def extractWorkloadInfo (lib : Lib) (attrs : Map) (podName : String) (namespace_ : String) :
    workloadInfo :=
  let info : workloadInfo := { name := "", kind := "", namespace_ := namespace_, uid := "" }
  let info :=
    match Map.Get attrs "metadata.ownerReferences" with
    | some ownerRefsVal => scanOwnerRefs lib (ownerRefStrings lib ownerRefsVal) info
    | none => info
  if info.name = "" ∧ podName ≠ "" then
    let parts := splitPodName podName
    if parts.length ≥ 2 then
      let workloadName := joinWorkloadName (parts.take (parts.length - 2)) 0 ""
      if workloadName ≠ "" then
        { info with name := workloadName, kind := if info.kind = "" then "Deployment" else info.kind }
      else info
    else info
  else info

/-- The test `len(key) > 4 && key[:4] == "k8s."` of `copyK8sFields`. -/
def isK8sKey (key : String) : Bool :=
  match key.data with
  | 'k' :: '8' :: 's' :: '.' :: _ :: _ => true
  | _ => false

/-- Copy of one value into the target map (`copyValue`); a value of type
bytes or empty matches no case of the switch. -/
def copyValue (target : Map) (key : String) (value : Value) : Map :=
  match value with
  | Value.str s => Map.Put target key (Value.str s)
  | Value.int i => Map.Put target key (Value.int i)
  | Value.double d => Map.Put target key (Value.double d)
  | Value.bool b => Map.Put target key (Value.bool b)
  | Value.slice xs => Map.Put target key (Value.slice xs)
  | Value.map kvs => Map.Put target key (Value.map kvs)
  | Value.bytes _ => target
  | Value.empty => target

/-- The `Range` loop of `copyK8sFields` over the original attributes. -/
def copyK8sRange (targetAttrs : Map) (originalAttrs : Map) : Map :=
  originalAttrs.foldl
    (fun target kv => if isK8sKey kv.1 then copyValue target kv.1 kv.2 else target)
    targetAttrs

/-- The guarded statement `if x, ok := metadata[key]; ok { t = body x t }`. -/
def ifPresent (metadata : Metadata) (key : String) (t : Map) (body : String → Map → Map) : Map :=
  match Metadata.lookup metadata key with
  | some x => body x t
  | none => t

/-- The kind-specific name written by the workload overlay of `copyK8sFields`. -/
def putKindSpecificName (t : Map) (workloadKind workloadName : String) : Map :=
  if workloadKind = "Deployment" then
    Map.Put t "k8s.deployment.name" (Value.str workloadName)
  else if workloadKind = "StatefulSet" then
    Map.Put t "k8s.statefulset.name" (Value.str workloadName)
  else if workloadKind = "DaemonSet" then
    Map.Put t "k8s.daemonset.name" (Value.str workloadName)
  else t

/-- Copy of the `k8s.*` attributes and the overlay (`copyK8sFields`). -/
def copyK8sFields (targetAttrs : Map) (originalAttrs : Map) (metadata : Metadata) : Map :=
  let t := copyK8sRange targetAttrs originalAttrs
  let t := ifPresent metadata "scope.name" t (fun scopeName t =>
    Map.Put t "k8s.pod.name" (Value.str scopeName))
  let t := ifPresent metadata "scope.namespace" t (fun scopeNamespace t =>
    Map.Put t "k8s.namespace.name" (Value.str scopeNamespace))
  let t := ifPresent metadata "scope.kind" t (fun kindStr t =>
    Map.PutIf (kindStr = "Pod")
      (Map.Put t "k8s.resource.kind" (Value.str kindStr))
      "k8s.pod.name" (Value.str (getString metadata "scope.name")))
  let t := ifPresent metadata "scope.uid" t (fun scopeUID t =>
    Map.Put t "k8s.resource.uid" (Value.str scopeUID))
  let t := ifPresent metadata "workload.name" t (fun workloadName t =>
    if workloadName ≠ "" then
      let workloadKind := getString metadata "workload.kind"
      let t1 := putKindSpecificName t workloadKind workloadName
      Map.Put (Map.Put t1 "k8s.workload.name" (Value.str workloadName))
        "k8s.workload.kind" (Value.str workloadKind)
    else t)
  let t := ifPresent metadata "workload.namespace" t (fun workloadNamespace t =>
    Map.PutIf (workloadNamespace ≠ "") t "k8s.workload.namespace" (Value.str workloadNamespace))
  ifPresent metadata "workload.uid" t (fun workloadUID t =>
    Map.PutIf (workloadUID ≠ "") t "k8s.workload.uid" (Value.str workloadUID))

/-- The status-keyed description of `transformToSecurityEvent`. -/
def eventDescription (status : String) (scopeName : String) (rule : String) : String :=
  if status = "fail" then "Policy violation on " ++ scopeName ++ " for rule " ++ rule
  else if status = "pass" then "Policy check passed on " ++ scopeName ++ " for rule " ++ rule
  else if status = "error" then "Policy check error on " ++ scopeName ++ " for rule " ++ rule
  else if status = "skip" then "Policy check skipped on " ++ scopeName ++ " for rule " ++ rule
  else "Policy evaluation on " ++ scopeName ++ " for rule " ++ rule

/-- The timestamp `pcommon.NewTimestampFromTime(time.Unix(sec, nsec))`: the
`int64` nanosecond count, wrapped, read as `uint64`. -/
def timestampFromUnix (sec : Int) (nsec : Int) : Nat :=
  ((sec * 1000000000 + nsec) % (2 ^ 64 : Int)).toNat

/-- The attributes written by `transformToSecurityEvent` before the `k8s.*`
copy, starting from `attrs`; `n` identifiers were drawn before. -/
def securityEventAttrs (lib : Lib) (attrs : Map) (result : Result) (metadata : Metadata)
    (n : Nat) : Map :=
  let eventID := lib.uuid n
  let attrs := Map.Put attrs "event.id" (Value.str eventID)
  let attrs := Map.Put attrs "event.version" (Value.str "1.309")
  let attrs := Map.Put attrs "event.category" (Value.str "COMPLIANCE")
  let attrs := Map.Put attrs "event.name" (Value.str "Compliance finding event")
  let attrs := Map.Put attrs "event.type" (Value.str "COMPLIANCE_FINDING")
  let scopeName := getString metadata "scope.name"
  let rule := if result.Rule = "" then "unknown" else result.Rule
  let attrs := Map.Put attrs "event.description"
    (Value.str (eventDescription result.Result scopeName rule))
  let attrs := Map.Put attrs "product.name" (Value.str "")
  let attrs := Map.Put attrs "product.vendor" (Value.str "")
  let scopeKind := getString metadata "scope.kind"
  let attrs := Map.PutIf (scopeKind = "Pod") attrs "smartscape.type" (Value.str "K8S_POD")
  let riskLevel := mapSeverityToRiskLevel result.Severity
  let attrs := Map.Put attrs "dt.security.risk.level" (Value.str riskLevel)
  let riskScore := calculateRiskScore riskLevel
  let attrs := Map.Put attrs "dt.security.risk.score" (Value.double riskScore)
  let scopeUID := getString metadata "scope.uid"
  let attrs := Map.PutIf (scopeUID ≠ "") attrs "object.id" (Value.str scopeUID)
  let attrs := Map.PutIf (scopeKind ≠ "") attrs "object.type" (Value.str scopeKind)
  let attrs := Map.Put attrs "finding.description" (Value.str result.Message)
  let findingID := lib.uuid (n + 1)
  let attrs := Map.Put attrs "finding.id" (Value.str findingID)
  let attrs := Map.PutIf (result.Severity ≠ "") attrs
    "finding.severity" (Value.str result.Severity)
  let attrs := Map.PutIf (result.Timestamp.Seconds > 0) attrs "finding.time.created"
    (Value.str (lib.formatRFC3339Nano result.Timestamp.Seconds result.Timestamp.Nanos))
  let findingTitle := if result.Rule ≠ "" then result.Policy ++ " - " ++ result.Rule
    else result.Policy
  let attrs := Map.Put attrs "finding.title" (Value.str findingTitle)
  let attrs := Map.PutIf (result.Policy ≠ "") attrs "finding.type" (Value.str result.Policy)
  let attrs := Map.Put attrs "finding.url" (Value.str "")
  let attrs := Map.PutIf (result.Rule ≠ "") attrs "compliance.control" (Value.str result.Rule)
  let attrs := Map.PutIf (result.Policy ≠ "") attrs
    "compliance.requirements" (Value.str result.Policy)
  let attrs := Map.PutIf (result.Category ≠ "") attrs
    "compliance.standards" (Value.str result.Category)
  let complianceStatus := mapResultToComplianceStatus result.Result
  Map.Put attrs "compliance.status" (Value.str complianceStatus)

/-- Transformation of one result into a security event
(`transformToSecurityEvent`): the record after the call and the number of
identifiers drawn. -/
def transformToSecurityEvent (lib : Lib) (logRecord : LogRecord) (result : Result)
    (metadata : Metadata) (originalAttrs : Map) (n : Nat) : LogRecord × Nat :=
  let attrs := securityEventAttrs lib logRecord.attributes result metadata n
  let attrs := copyK8sFields attrs originalAttrs metadata
  ({ logRecord with
     timestamp :=
       if result.Timestamp.Seconds > 0 then
         timestampFromUnix result.Timestamp.Seconds result.Timestamp.Nanos
       else logRecord.timestamp,
     attributes := attrs,
     body := Value.str result.Message }, n + 2)

/-- Loop of `isStatusAllowed` over the filter list. -/
def statusInFilter (status : String) : List String → Bool
  | [] => false
  | allowedStatus :: rest => if status = allowedStatus then true else statusInFilter status rest

/-- Status filter (`Processor.isStatusAllowed`). -/
def isStatusAllowed (config : Config) (status : String) : Bool :=
  if config.StatusFilter.length = 0 then true
  else statusInFilter status config.StatusFilter

/-- Read of an optional attribute as a string, empty when absent. -/
def attrString (lib : Lib) (attrs : Map) (key : String) : String :=
  match Map.Get attrs key with
  | some v => v.AsString lib
  | none => ""

/-- The new record of the results loop: `plog.NewLogRecord()` with the basic
fields copied from the original. -/
def newRecordFrom (logRecord : LogRecord) : LogRecord :=
  { NewLogRecord with
    timestamp := logRecord.timestamp,
    observedTimestamp := logRecord.observedTimestamp,
    severityNumber := logRecord.severityNumber,
    severityText := logRecord.severityText,
    traceID := logRecord.traceID,
    spanID := logRecord.spanID,
    flags := logRecord.flags }

/-- The metadata map literal that `ProcessLogRecord` passes to
`transformToSecurityEvent`. -/
def metadataOf (lib : Lib) (attrs : Map) : Metadata :=
  let metadataNameStr := attrString lib attrs "metadata.name"
  let scopeNameStr := attrString lib attrs "scope.name"
  let scopeKindStr := attrString lib attrs "scope.kind"
  let metadataNamespaceStr := attrString lib attrs "metadata.namespace"
  let scopeNamespaceStr := attrString lib attrs "scope.namespace"
  let scopeUIDStr := attrString lib attrs "scope.uid"
  let scopeAPIVersionStr := attrString lib attrs "scope.apiVersion"
  let info := extractWorkloadInfo lib attrs scopeNameStr scopeNamespaceStr
  [("metadata.name", metadataNameStr),
   ("metadata.namespace", metadataNamespaceStr),
   ("scope.name", scopeNameStr),
   ("scope.namespace", scopeNamespaceStr),
   ("scope.kind", scopeKindStr),
   ("scope.uid", scopeUIDStr),
   ("scope.apiVersion", scopeAPIVersionStr),
   ("workload.name", info.name),
   ("workload.kind", info.kind),
   ("workload.namespace", info.namespace_),
   ("workload.uid", info.uid)]

/-- The results loop of `ProcessLogRecord`: `newRecords` so far and the number
of identifiers drawn. -/
def processResults (lib : Lib) (config : Config) (logRecord : LogRecord)
    (metadata : Metadata) (attrs : Map) :
    List String → List LogRecord → Nat → List LogRecord × Nat
  | [], newRecords, n => (newRecords, n)
  | resultJSONStr :: rest, newRecords, n =>
    match lib.unmarshalResult resultJSONStr with
    | none => processResults lib config logRecord metadata attrs rest newRecords n
    | some result =>
      if config.StatusFilter.length > 0 ∧ isStatusAllowed config result.Result = false then
        processResults lib config logRecord metadata attrs rest newRecords n
      else
        let newRecord := newRecordFrom logRecord
        let r := transformToSecurityEvent lib newRecord result metadata attrs n
        processResults lib config logRecord metadata attrs rest (newRecords ++ [r.1]) r.2

/-- The raw result strings read from the `results` attribute; `none` when the
value is neither a list nor a string. -/
def resultsArrayOf (lib : Lib) (resultsVal : Value) : Option (List String) :=
  match resultsVal with
  | Value.slice xs => some (xs.map (Value.AsString lib))
  | Value.str resultStr =>
    match lib.unmarshalStrings resultStr with
    | some jsonArray => some jsonArray
    | none => some [resultStr]
  | _ => none

/-- Expansion of one record (`Processor.ProcessLogRecord`): the returned
records and error, and the number of identifiers drawn. -/
def ProcessLogRecord (lib : Lib) (config : Config) (logRecord : LogRecord)
    (_resource : Resource) (_scopeLogs : ScopeLogs) (n : Nat) :
    Except String (List LogRecord) × Nat :=
  let attrs := logRecord.attributes
  match Map.Get attrs "kind" with
  | none => (Except.ok [], n)
  | some kindVal =>
    if kindVal.AsString lib ≠ "Report" then (Except.ok [], n)
    else
      match Map.Get attrs "apiVersion" with
      | none => (Except.ok [], n)
      | some apiVersionVal =>
        if apiVersionVal.AsString lib ≠ "openreports.io/v1alpha1" then (Except.ok [], n)
        else
          match Map.Get attrs "results" with
          | none => (Except.ok [], n)
          | some resultsVal =>
            match resultsArrayOf lib resultsVal with
            | none => (Except.ok [], n)
            | some resultsArray =>
              if resultsArray.length = 0 then (Except.ok [], n)
              else
                let metadata := metadataOf lib attrs
                let r := processResults lib config logRecord metadata attrs resultsArray [] n
                (Except.ok r.1, r.2)

end openreports

/-! ## `processor.go` -/

/-- Detector (`isOpenReportsLog`). -/
def isOpenReportsLog (lib : Lib) (logRecord : LogRecord) : Bool :=
  match Map.Get logRecord.attributes "kind" with
  | none => false
  | some kindVal =>
    if kindVal.AsString lib ≠ "Report" then false
    else
      match Map.Get logRecord.attributes "apiVersion" with
      | none => false
      | some apiVersionVal =>
        if apiVersionVal.AsString lib ≠ "openreports.io/v1alpha1" then false
        else true

/-- Per-record transformation as `processLogs` sees it: the records and error
returned by `openReports.ProcessLogRecord`, with the identifier state. -/
abbrev Transform (σ : Type) :=
  LogRecord → Resource → ScopeLogs → σ → Except String (List LogRecord) × σ

/-- Entry of the replacement list of `processLogs`. -/
structure replacement where
  index : Nat
  newRecords : List LogRecord

/-- The local counters of `processLogs` and the additions to the
`processingErrors` metric. -/
structure Counts where
  incomingCount : Nat
  outgoingCount : Nat
  droppedCount : Nat
  processingErrors : Nat
deriving DecidableEq, Repr

/-- State of the first pass over one scope. -/
structure FirstPass (σ : Type) where
  replacements : List replacement
  replacementIndices : List Nat
  counts : Counts
  rand : σ

/-- Body of the first loop of `processLogs` for the record at index `k`. -/
def firstPassStep {σ : Type} (lib : Lib) (openReports : Option (Transform σ))
    (resource : Resource) (scopeLog : ScopeLogs) (k : Nat) (logRecord : LogRecord)
    (st : FirstPass σ) : FirstPass σ :=
  let st := { st with counts := { st.counts with incomingCount := st.counts.incomingCount + 1 } }
  match openReports with
  | some proc =>
    if !isOpenReportsLog lib logRecord then
      { st with counts := { st.counts with outgoingCount := st.counts.outgoingCount + 1 } }
    else
      match proc logRecord resource scopeLog st.rand with
      | (Except.error _, rand) =>
        { st with
          counts := { st.counts with
                      processingErrors := st.counts.processingErrors + 1,
                      droppedCount := st.counts.droppedCount + 1 },
          rand := rand }
      | (Except.ok newRecords, rand) =>
        if newRecords.length > 0 then
          { st with
            replacements := st.replacements ++ [{ index := k, newRecords := newRecords }],
            replacementIndices := k :: st.replacementIndices,
            rand := rand }
        else
          { st with
            counts := { st.counts with outgoingCount := st.counts.outgoingCount + 1 },
            rand := rand }
  | none =>
    { st with counts := { st.counts with outgoingCount := st.counts.outgoingCount + 1 } }

/-- First loop of `processLogs` over the records from index `k` on. -/
def firstPass {σ : Type} (lib : Lib) (openReports : Option (Transform σ))
    (resource : Resource) (scopeLog : ScopeLogs) :
    List LogRecord → Nat → FirstPass σ → FirstPass σ
  | [], _, st => st
  | logRecord :: rest, k, st =>
    firstPass lib openReports resource scopeLog rest (k + 1)
      (firstPassStep lib openReports resource scopeLog k logRecord st)

/-- State of the second pass over one scope. -/
structure SecondPass where
  newLogRecords : List LogRecord
  replacementIndex : Nat
  outgoingCount : Nat

/-- Inner loop of the second pass: append each new record and count it. -/
def insertNewRecords (newRecords : List LogRecord) (st : SecondPass) : SecondPass :=
  newRecords.foldl
    (fun acc newRecord =>
      { acc with
        newLogRecords := acc.newLogRecords ++ [newRecord],
        outgoingCount := acc.outgoingCount + 1 })
    st

/-- Body of the second loop of `processLogs` for the record at index `k`. -/
def secondPassStep (replacements : List replacement) (replacementIndices : List Nat)
    (k : Nat) (originalRecord : LogRecord) (st : SecondPass) : SecondPass :=
  match replacements.get? st.replacementIndex with
  | some rep =>
    if rep.index = k then
      let st1 := insertNewRecords rep.newRecords st
      { st1 with replacementIndex := st1.replacementIndex + 1 }
    else if !replacementIndices.contains k then
      { st with newLogRecords := st.newLogRecords ++ [originalRecord] }
    else st
  | none =>
    if !replacementIndices.contains k then
      { st with newLogRecords := st.newLogRecords ++ [originalRecord] }
    else st

/-- Second loop of `processLogs` over the records from index `k` on. -/
def secondPass (replacements : List replacement) (replacementIndices : List Nat) :
    List LogRecord → Nat → SecondPass → SecondPass
  | [], _, st => st
  | originalRecord :: rest, k, st =>
    secondPass replacements replacementIndices rest (k + 1)
      (secondPassStep replacements replacementIndices k originalRecord st)

/-- Body of the scope loop of `processLogs`: both passes over one scope. -/
def processScopeLogs {σ : Type} (lib : Lib) (openReports : Option (Transform σ))
    (resource : Resource) (scopeLog : ScopeLogs) (counts : Counts) (rand : σ) :
    ScopeLogs × Counts × σ :=
  let fp := firstPass lib openReports resource scopeLog scopeLog.logRecords 0
    { replacements := [], replacementIndices := [], counts := counts, rand := rand }
  if fp.replacements.length > 0 then
    let sp := secondPass fp.replacements fp.replacementIndices scopeLog.logRecords 0
      { newLogRecords := [], replacementIndex := 0, outgoingCount := fp.counts.outgoingCount }
    ({ scopeLog with logRecords := sp.newLogRecords },
     { fp.counts with outgoingCount := sp.outgoingCount }, fp.rand)
  else (scopeLog, fp.counts, fp.rand)

/-- Scope loop of `processLogs` inside one resource group. -/
def processScopeLogsList {σ : Type} (lib : Lib) (openReports : Option (Transform σ))
    (resource : Resource) : List ScopeLogs → Counts → σ → List ScopeLogs × Counts × σ
  | [], counts, rand => ([], counts, rand)
  | scopeLog :: rest, counts, rand =>
    let r1 := processScopeLogs lib openReports resource scopeLog counts rand
    let r2 := processScopeLogsList lib openReports resource rest r1.2.1 r1.2.2
    (r1.1 :: r2.1, r2.2.1, r2.2.2)

/-- Resource loop of `processLogs`. -/
def processResourceLogsList {σ : Type} (lib : Lib) (openReports : Option (Transform σ)) :
    List ResourceLogs → Counts → σ → List ResourceLogs × Counts × σ
  | [], counts, rand => ([], counts, rand)
  | resourceLog :: rest, counts, rand =>
    let r1 := processScopeLogsList lib openReports resourceLog.resource
      resourceLog.scopeLogs counts rand
    let r2 := processResourceLogsList lib openReports rest r1.2.1 r1.2.2
    ({ resourceLog with scopeLogs := r1.1 } :: r2.1, r2.2.1, r2.2.2)

/-- The batch rewriter (`securityEventProcessor.processLogs`): the rewritten
batch, the final counters, and the identifier state. -/
def processLogs {σ : Type} (lib : Lib) (openReports : Option (Transform σ))
    (ld : Logs) (rand : σ) : Logs × Counts × σ :=
  let r := processResourceLogsList lib openReports ld.resourceLogs
    { incomingCount := 0, outgoingCount := 0, droppedCount := 0, processingErrors := 0 } rand
  ({ resourceLogs := r.1 }, r.2.1, r.2.2)

/-! ## `config.go` and the processor as constructed -/

/-- Per-processor configuration (`ProcessorConfig`). -/
structure ProcessorConfig where
  OpenReports : openreports.Config

/-- Configuration of the security event processor (`Config`). -/
structure Config where
  Processors : ProcessorConfig

/-- The `openReports` field set by `newSecurityEventProcessor`: the OpenReports
processor when enabled, nil otherwise. -/
def newOpenReports (lib : Lib) (config : Config) : Option (Transform Nat) :=
  if config.Processors.OpenReports.Enabled then
    some (openreports.ProcessLogRecord lib config.Processors.OpenReports)
  else none

/-- The batch rewriter of a processor built by `newSecurityEventProcessor`. -/
def run (lib : Lib) (config : Config) (ld : Logs) (n : Nat) : Logs × Counts × Nat :=
  processLogs lib (newOpenReports lib config) ld n

/-! ## `Config.Validate` (`internal/openreports/config.go`, `config.go`) -/

/-- The lookup `validStatuses[status]` of `openreports.Config.Validate`. -/
def openreports.validStatuses (status : String) : Bool :=
  decide (status ∈ ["pass", "fail", "error", "skip"])

/-- The loop of `openreports.Config.Validate` over the status filter; the
result is the returned error, `ok` standing for nil. -/
def openreports.validateStatuses : List String → Except String Unit
  | [] => Except.ok ()
  | status :: rest =>
    if !openreports.validStatuses status then
      Except.error ("invalid status in status_filter: " ++ status ++
        ". Valid values are: pass, fail, error, skip")
    else openreports.validateStatuses rest

/-- Validation of the OpenReports configuration (`openreports.Config.Validate`). -/
def openreports.Config.Validate (cfg : openreports.Config) : Except String Unit :=
  openreports.validateStatuses cfg.StatusFilter

/-- Validation of the processor configuration (`Config.Validate`). -/
def Config.Validate (cfg : Config) : Except String Unit :=
  match cfg.Processors.OpenReports.Validate with
  | Except.error err => Except.error err
  | Except.ok _ => Except.ok ()

/-! ## Specification-side definitions -/

/-- None of the library renderings of a non-string value is the string `s`. -/
def RendersApart (lib : Lib) (s : String) : Prop :=
  (∀ d, lib.formatFloat d ≠ s) ∧ (∀ b, lib.encodeBase64 b ≠ s) ∧
  (∀ kvs, lib.marshalMap kvs ≠ s) ∧ (∀ xs, lib.marshalSlice xs ≠ s)

/-- The keys of the fixed event schema written by `transformToSecurityEvent`. -/
def schemaKeys : List String :=
  ["event.id", "event.version", "event.category", "event.name", "event.type",
   "event.description", "product.name", "product.vendor", "smartscape.type",
   "dt.security.risk.level", "dt.security.risk.score", "object.id", "object.type",
   "finding.description", "finding.id", "finding.severity", "finding.time.created",
   "finding.title", "finding.type", "finding.url", "compliance.control",
   "compliance.requirements", "compliance.standards", "compliance.status"]

/-- What becomes of one record in the first pass. -/
inductive Outcome where
  | passed : Outcome
  | failed : Outcome
  | expanded (newRecords : List LogRecord) : Outcome

/-- The record passes through and is counted as outgoing in the first pass. -/
def Outcome.isPassed : Outcome → Bool
  | Outcome.passed => true
  | _ => false

/-- The transformation of the record returned an error. -/
def Outcome.isFailed : Outcome → Bool
  | Outcome.failed => true
  | _ => false

/-- The record is marked for replacement. -/
def Outcome.isExpanded : Outcome → Bool
  | Outcome.expanded _ => true
  | _ => false

/-- Number of new records of an expansion, zero otherwise. -/
def Outcome.newCount : Outcome → Nat
  | Outcome.expanded newRecords => newRecords.length
  | _ => 0

/-- Outcome of one record and the identifier state after it: `expanded E` when
the detector accepts the record and the transformation returns the non-empty
list `E` without error, `failed` when it returns an error, `passed` otherwise. -/
def outcomeOf {σ : Type} (lib : Lib) (openReports : Option (Transform σ))
    (resource : Resource) (scopeLog : ScopeLogs) (r : LogRecord) (s : σ) : Outcome × σ :=
  match openReports with
  | some proc =>
    if isOpenReportsLog lib r then
      match proc r resource scopeLog s with
      | (Except.error _, s1) => (Outcome.failed, s1)
      | (Except.ok newRecords, s1) =>
        if newRecords.length > 0 then (Outcome.expanded newRecords, s1)
        else (Outcome.passed, s1)
    else (Outcome.passed, s)
  | none => (Outcome.passed, s)

/-- The records of a scope, in order, each with its outcome. -/
def scopeTrace {σ : Type} (lib : Lib) (openReports : Option (Transform σ))
    (resource : Resource) (scopeLog : ScopeLogs) : List LogRecord → σ → List (LogRecord × Outcome)
  | [], _ => []
  | r :: rest, s =>
    (r, (outcomeOf lib openReports resource scopeLog r s).1) ::
      scopeTrace lib openReports resource scopeLog rest
        (outcomeOf lib openReports resource scopeLog r s).2

/-- The identifier state after all records of a scope. -/
def scopeRand {σ : Type} (lib : Lib) (openReports : Option (Transform σ))
    (resource : Resource) (scopeLog : ScopeLogs) : List LogRecord → σ → σ
  | [], s => s
  | r :: rest, s =>
    scopeRand lib openReports resource scopeLog rest
      (outcomeOf lib openReports resource scopeLog r s).2

/-- The records that stand for one original in the output: its expansion when
it was expanded, the original itself otherwise. -/
def emit : LogRecord × Outcome → List LogRecord
  | (_, Outcome.expanded newRecords) => newRecords
  | (r, _) => [r]

/-- In-order concatenation of the groups of a trace. -/
def emitAll (t : List (LogRecord × Outcome)) : List LogRecord :=
  (t.map emit).flatten

/-- The replacement entries of a trace whose first record has index `k`. -/
def marks : Nat → List (LogRecord × Outcome) → List replacement
  | _, [] => []
  | k, (_, Outcome.expanded newRecords) :: t =>
    { index := k, newRecords := newRecords } :: marks (k + 1) t
  | k, (_, Outcome.passed) :: t => marks (k + 1) t
  | k, (_, Outcome.failed) :: t => marks (k + 1) t

/-- Number of records of a trace that passed through. -/
def passedCount (t : List (LogRecord × Outcome)) : Nat :=
  t.countP (fun e => e.2.isPassed)

/-- Number of records of a trace whose transformation returned an error. -/
def failedCount (t : List (LogRecord × Outcome)) : Nat :=
  t.countP (fun e => e.2.isFailed)

/-- Number of records of a trace that were never expanded. -/
def neverExpandedCount (t : List (LogRecord × Outcome)) : Nat :=
  t.countP (fun e => !e.2.isExpanded)

/-- Total number of new records over the expanded records of a trace. -/
def expandedTotal (t : List (LogRecord × Outcome)) : Nat :=
  (t.map (fun e => e.2.newCount)).sum

/-- The counters after a scope with trace `t`, from the counters `c` before. -/
def countsAfter (c : Counts) (t : List (LogRecord × Outcome)) : Counts :=
  { incomingCount := c.incomingCount + t.length,
    outgoingCount := c.outgoingCount + passedCount t + expandedTotal t,
    droppedCount := c.droppedCount + failedCount t,
    processingErrors := c.processingErrors + failedCount t }

/-- The raw result strings of a record: those read from its `results`
attribute, none when the attribute is absent or neither a list nor a string. -/
def rawResults (lib : Lib) (attrs : Map) : List String :=
  match Map.Get attrs "results" with
  | some resultsVal => (openreports.resultsArrayOf lib resultsVal).getD []
  | none => []

/-- The parsed and status-filtered results: the raw strings that decode, in
order, whose status the filter allows. -/
def selectedResults (lib : Lib) (config : openreports.Config) (raw : List String) : List Result :=
  (raw.filterMap lib.unmarshalResult).filter
    (fun result => openreports.isStatusAllowed config result.Result)

/-- One security event per result, in order; the first uses the identifiers
`n` and `n + 1`, the next `n + 2` and `n + 3`, and so on. -/
def eventsFor (lib : Lib) (logRecord : LogRecord) : List Result → Nat → List LogRecord
  | [], _ => []
  | result :: rest, n =>
    (openreports.transformToSecurityEvent lib (openreports.newRecordFrom logRecord) result
      (openreports.metadataOf lib logRecord.attributes) logRecord.attributes n).1 ::
      eventsFor lib logRecord rest (n + 2)

/-- The traces of the scopes of one resource group, one after the other. -/
def scopesTrace {σ : Type} (lib : Lib) (openReports : Option (Transform σ))
    (resource : Resource) : List ScopeLogs → σ → List (LogRecord × Outcome)
  | [], _ => []
  | sl :: rest, s =>
    scopeTrace lib openReports resource sl sl.logRecords s ++
      scopesTrace lib openReports resource rest
        (scopeRand lib openReports resource sl sl.logRecords s)

/-- The identifier state after the scopes of one resource group. -/
def scopesRand {σ : Type} (lib : Lib) (openReports : Option (Transform σ))
    (resource : Resource) : List ScopeLogs → σ → σ
  | [], s => s
  | sl :: rest, s =>
    scopesRand lib openReports resource rest
      (scopeRand lib openReports resource sl sl.logRecords s)

/-- The scopes of one resource group, each with its record sequence replaced
by the in-order concatenation of its groups. -/
def rewriteScopes {σ : Type} (lib : Lib) (openReports : Option (Transform σ))
    (resource : Resource) : List ScopeLogs → σ → List ScopeLogs
  | [], _ => []
  | sl :: rest, s =>
    { sl with logRecords := emitAll (scopeTrace lib openReports resource sl sl.logRecords s) } ::
      rewriteScopes lib openReports resource rest
        (scopeRand lib openReports resource sl sl.logRecords s)

/-- The trace of a whole batch: all records in batch order with their outcomes. -/
def resourcesTrace {σ : Type} (lib : Lib) (openReports : Option (Transform σ)) :
    List ResourceLogs → σ → List (LogRecord × Outcome)
  | [], _ => []
  | rl :: rest, s =>
    scopesTrace lib openReports rl.resource rl.scopeLogs s ++
      resourcesTrace lib openReports rest
        (scopesRand lib openReports rl.resource rl.scopeLogs s)

/-- The identifier state after a whole batch. -/
def resourcesRand {σ : Type} (lib : Lib) (openReports : Option (Transform σ)) :
    List ResourceLogs → σ → σ
  | [], s => s
  | rl :: rest, s =>
    resourcesRand lib openReports rest (scopesRand lib openReports rl.resource rl.scopeLogs s)

/-- The resource groups of a batch with every scope rewritten. -/
def rewriteResources {σ : Type} (lib : Lib) (openReports : Option (Transform σ)) :
    List ResourceLogs → σ → List ResourceLogs
  | [], _ => []
  | rl :: rest, s =>
    { rl with scopeLogs := rewriteScopes lib openReports rl.resource rl.scopeLogs s } ::
      rewriteResources lib openReports rest
        (scopesRand lib openReports rl.resource rl.scopeLogs s)

/-- Number of records in the scopes of one resource group. -/
def scopesRecordCount (sls : List ScopeLogs) : Nat :=
  (sls.map (fun sl => sl.logRecords.length)).sum

/-- Total number of records in a batch. -/
def totalRecords (ld : Logs) : Nat :=
  (ld.resourceLogs.map (fun rl => scopesRecordCount rl.scopeLogs)).sum

/-- The counters a batch starts with. -/
def zeroCounts : Counts :=
  { incomingCount := 0, outgoingCount := 0, droppedCount := 0, processingErrors := 0 }

/-- A small library instance used to evaluate the program on concrete inputs:
the results "fail" and "pass" decode to results with that status, "two" decodes
to the array of both, nothing else decodes. -/
def libDemo : Lib :=
  { formatFloat := fun _ => "0",
    encodeBase64 := fun _ => "",
    marshalMap := fun _ => "",
    marshalSlice := fun _ => "",
    unmarshalStrings := fun s => if s = "two" then some ["fail", "pass"] else none,
    unmarshalResult := fun s =>
      if s = "fail" ∨ s = "pass" then
        some { Source := "", Timestamp := { Seconds := 0, Nanos := 0 }, Message := "m",
               Policy := "p", Properties := [], Result := s, Rule := "r", Scored := false,
               Severity := "", Category := "" }
      else none,
    unmarshalObject := fun _ => none,
    uuid := fun n => toString n,
    formatRFC3339Nano := fun _ _ => "" }

/-- A record whose attributes mark it as an OpenReports report and whose
`results` attribute is `results`. -/
def reportRecord (results : Value) : LogRecord :=
  { NewLogRecord with
    attributes := [("kind", Value.str "Report"),
                   ("apiVersion", Value.str "openreports.io/v1alpha1"),
                   ("results", results)] }

/-- A record that is no report. -/
def podRecord : LogRecord :=
  { NewLogRecord with
    attributes := [("kind", Value.str "Pod"), ("apiVersion", Value.str "v1")] }

/-- A configuration with the OpenReports processor enabled and the status
filter `["fail"]`. -/
def demoConfig : Config :=
  { Processors := { OpenReports := { Enabled := true, StatusFilter := ["fail"] } } }

/-- A scope with a pod record, a report with a failing, a malformed and a
passing result, and a report whose only result passes. -/
def demoScope : ScopeLogs :=
  { scopeName := "", scopeVersion := "", scopeAttributes := [], schemaUrl := "",
    logRecords :=
      [podRecord,
       reportRecord (Value.slice [Value.str "fail", Value.str "bad", Value.str "pass"]),
       reportRecord (Value.slice [Value.str "pass"])] }

/-- A resource group holding `demoScope`. -/
def demoResourceLogs : ResourceLogs :=
  { resource := { attributes := [] }, schemaUrl := "", scopeLogs := [demoScope] }

/-- A batch with the one resource group `demoResourceLogs`. -/
def demoLogs : Logs :=
  { resourceLogs := [demoResourceLogs] }

/-- Whether the processor as constructed expands a record: it is enabled, the
detector accepts the record, and some result is selected. -/
def expands (lib : Lib) (config : Config) (r : LogRecord) : Bool :=
  decide (config.Processors.OpenReports.Enabled = true ∧ isOpenReportsLog lib r = true ∧
    (selectedResults lib config.Processors.OpenReports (rawResults lib r.attributes)).length ≠ 0)

/-- A transformation that returns an error for every record. -/
def failingTransform : Transform Nat :=
  fun _ _ _ n => (Except.error "transformation failed", n)

/-- A transformation that returns an error for the records with timestamp 1
and two new records for every other record. -/
def mixedTransform : Transform Nat :=
  fun r _ _ n =>
    if r.timestamp = 1 then (Except.error "transformation failed", n)
    else (Except.ok [podRecord, podRecord], n)

/-- A batch with one scope holding the records `rs`. -/
def singleScopeLogs (rs : List LogRecord) : Logs :=
  { resourceLogs :=
      [{ resource := { attributes := [] }, schemaUrl := "",
         scopeLogs := [{ scopeName := "", scopeVersion := "", scopeAttributes := [],
                         schemaUrl := "", logRecords := rs }] }] }

/-- A configuration of the OpenReports processor without status filter. -/
def openConfig : openreports.Config :=
  { Enabled := true, StatusFilter := [] }

/-- A report record without a `results` attribute. -/
def reportWithoutResults : LogRecord :=
  { NewLogRecord with
    attributes := [("kind", Value.str "Report"),
                   ("apiVersion", Value.str "openreports.io/v1alpha1")] }

/-- A result with the given status, severity and timestamp, all else empty. -/
def demoResult (status severity : String) (seconds nanos : Int) : Result :=
  { Source := "", Timestamp := { Seconds := seconds, Nanos := nanos }, Message := "",
    Policy := "", Properties := [], Result := status, Rule := "", Scored := false,
    Severity := severity, Category := "" }

/-- The decoded owner reference when the string decodes to an object whose
"kind" is a string naming a workload kind, nothing otherwise. -/
def workloadRef? (lib : Lib) (ownerRefStr : String) : Option (List (String × JsonAny)) :=
  match lib.unmarshalObject ownerRefStr with
  | some ownerRef =>
    match openreports.jsonAsString (openreports.jsonLookup ownerRef "kind") with
    | some kind => if openreports.isWorkloadKind kind then some ownerRef else none
    | none => none
  | none => none

/-- The first owner reference, in array order, that is a workload reference. -/
def firstWorkloadRef (lib : Lib) : List String → Option (List (String × JsonAny))
  | [] => none
  | ownerRefStr :: rest =>
    match workloadRef? lib ownerRefStr with
    | some ownerRef => some ownerRef
    | none => firstWorkloadRef lib rest

/-- The owner-reference strings of an attribute map, none when the attribute
"metadata.ownerReferences" is absent. -/
def ownerRefsOf (lib : Lib) (attrs : Map) : List String :=
  match Map.Get attrs "metadata.ownerReferences" with
  | some ownerRefsVal => openreports.ownerRefStrings lib ownerRefsVal
  | none => []

/-- The string field `key` of a decoded owner reference, empty when the field
is absent or not a string. -/
def refString (ownerRef : List (String × JsonAny)) (key : String) : String :=
  (openreports.jsonAsString (openreports.jsonLookup ownerRef key)).getD ""

/-- The name inferred from a pod name: its hyphen-separated tokens without the
trailing two, joined with hyphens. -/
def inferredName (podName : String) : String :=
  String.intercalate "-"
    ((openreports.splitPodName podName).take ((openreports.splitPodName podName).length - 2))

/-- A library instance that decodes three owner references: "pod" (kind Pod),
"deployment" (kind Deployment, name X, uid U) and "noname" (kind Deployment,
uid U, no name). -/
def libOwner : Lib :=
  { libDemo with
    unmarshalObject := fun s =>
      if s = "pod" then
        some [("kind", JsonAny.str "Pod"), ("name", JsonAny.str "X-89fd4b8f9-t9xlf"),
              ("uid", JsonAny.str "P")]
      else if s = "deployment" then
        some [("kind", JsonAny.str "Deployment"), ("name", JsonAny.str "X"),
              ("uid", JsonAny.str "U")]
      else if s = "noname" then
        some [("kind", JsonAny.str "Deployment"), ("uid", JsonAny.str "U")]
      else none }

/-- Attributes with the owner references "pod" and "deployment". -/
def ownerAttrs : Map :=
  [("metadata.ownerReferences", Value.slice [Value.str "pod", Value.str "deployment"])]

/-- Attributes with the owner references "pod" and "noname". -/
def ownerAttrsNoName : Map :=
  [("metadata.ownerReferences", Value.slice [Value.str "pod", Value.str "noname"])]

/-- The four statuses a status filter may hold. -/
def canonicalStatuses : List String := ["pass", "fail", "error", "skip"]

/-- A configuration with the OpenReports processor disabled. -/
def disabledConfig : Config :=
  { Processors := { OpenReports := { Enabled := false, StatusFilter := [] } } }

/-- Whether the key starts with the literal prefix "k8s.". -/
def startsWithK8s (key : String) : Bool :=
  match key.data with
  | 'k' :: '8' :: 's' :: '.' :: _ => true
  | _ => false

/-- The keys the overlay of `copyK8sFields` may write. -/
def overlayKeys : List String :=
  ["k8s.pod.name", "k8s.namespace.name", "k8s.resource.kind", "k8s.resource.uid",
   "k8s.deployment.name", "k8s.statefulset.name", "k8s.daemonset.name",
   "k8s.workload.name", "k8s.workload.kind", "k8s.workload.namespace", "k8s.workload.uid"]

/-- The kinds of value for which the switch of `copyValue` has a case. -/
def Value.isCopied : Value → Bool
  | Value.str _ => true
  | Value.int _ => true
  | Value.double _ => true
  | Value.bool _ => true
  | Value.slice _ => true
  | Value.map _ => true
  | Value.bytes _ => false
  | Value.empty => false

/-- The keys of an attribute map, in order. -/
def Map.keys (m : Map) : List String := m.map Prod.fst

/-- A report with the one result "fail" and the further attributes `extra`. -/
def reportWith (extra : Map) : LogRecord :=
  { NewLogRecord with
    attributes := [("kind", Value.str "Report"),
                   ("apiVersion", Value.str "openreports.io/v1alpha1"),
                   ("results", Value.slice [Value.str "fail"])] ++ extra }

/-- A report on the pod "web-1" whose own `k8s.*` attributes collide with the
overlay, and which carries a cluster name. -/
def scopedReport : LogRecord :=
  reportWith [("scope.name", Value.str "web-1"), ("scope.namespace", Value.str "ns"),
              ("scope.kind", Value.str "Pod"), ("scope.uid", Value.str "u-1"),
              ("k8s.pod.name", Value.str "other"), ("k8s.namespace.name", Value.str "other"),
              ("k8s.resource.kind", Value.str "other"), ("k8s.resource.uid", Value.str "other"),
              ("k8s.cluster.name", Value.str "c")]

/-- The result the library instance `libDemo` decodes from "fail". -/
def failResult : Result :=
  { Source := "", Timestamp := { Seconds := 0, Nanos := 0 }, Message := "m",
    Policy := "p", Properties := [], Result := "fail", Rule := "r", Scored := false,
    Severity := "", Category := "" }

/-- The workload `ProcessLogRecord` resolves for a record with the attributes
`attrs`: `extractWorkloadInfo` on the scope name and scope namespace. -/
def workloadOf (lib : Lib) (attrs : Map) : openreports.workloadInfo :=
  openreports.extractWorkloadInfo lib attrs (openreports.attrString lib attrs "scope.name")
    (openreports.attrString lib attrs "scope.namespace")

/-- A report on the pod "X-89fd4b8f9-t9xlf" owned by the deployment "X". -/
def ownedReport : LogRecord :=
  reportWith [("scope.name", Value.str "X-89fd4b8f9-t9xlf"),
              ("scope.namespace", Value.str "ns"),
              ("metadata.ownerReferences", Value.slice [Value.str "pod", Value.str "deployment"])]

/-- A report with a scope namespace and neither scope name nor owner. -/
def namespaceOnlyReport : LogRecord :=
  reportWith [("scope.namespace", Value.str "ns")]

/-- A scope group without its records: name, version, attributes, schema URL. -/
def ScopeLogs.frame (sl : ScopeLogs) : ScopeLogs :=
  { sl with logRecords := [] }

/-- A resource group with the records of its scope groups removed. -/
def ResourceLogs.frame (rl : ResourceLogs) : ResourceLogs :=
  { rl with scopeLogs := rl.scopeLogs.map ScopeLogs.frame }

/-- A batch with every record removed: the resource groups and scope groups,
in order, with their own data. -/
def Logs.frame (ld : Logs) : Logs :=
  { resourceLogs := ld.resourceLogs.map ResourceLogs.frame }

/-- A batch of two resource groups, the first with two scope groups; the scope
in the middle holds a report that is expanded into two events. -/
def groupedLogs : Logs :=
  { resourceLogs :=
      [{ resource := { attributes := [("service.name", Value.str "a")] }, schemaUrl := "u1",
         scopeLogs :=
           [{ scopeName := "s1", scopeVersion := "1", scopeAttributes := [], schemaUrl := "",
              logRecords := [podRecord] },
            { scopeName := "s2", scopeVersion := "2", scopeAttributes := [], schemaUrl := "",
              logRecords := [reportRecord (Value.slice [Value.str "fail", Value.str "fail"]),
                             podRecord] }] },
       { resource := { attributes := [("service.name", Value.str "b")] }, schemaUrl := "u2",
         scopeLogs :=
           [{ scopeName := "s3", scopeVersion := "3", scopeAttributes := [], schemaUrl := "",
              logRecords := [podRecord] }] }] }

/-- Whether `ProcessLogRecord` leaves at one of its two non-match returns: the
check of the `kind` attribute or the check of the `apiVersion` attribute. -/
def nonMatchReturn (lib : Lib) (logRecord : LogRecord) : Bool :=
  match Map.Get logRecord.attributes "kind" with
  | none => true
  | some kindVal =>
    if kindVal.AsString lib ≠ "Report" then true
    else
      match Map.Get logRecord.attributes "apiVersion" with
      | none => true
      | some apiVersionVal =>
        if apiVersionVal.AsString lib ≠ "openreports.io/v1alpha1" then true else false

/-- The part of `ProcessLogRecord` after the two detection checks. -/
def afterDetection (lib : Lib) (config : openreports.Config) (logRecord : LogRecord) (n : Nat) :
    Except String (List LogRecord) × Nat :=
  match Map.Get logRecord.attributes "results" with
  | none => (Except.ok [], n)
  | some resultsVal =>
    match openreports.resultsArrayOf lib resultsVal with
    | none => (Except.ok [], n)
    | some resultsArray =>
      if resultsArray.length = 0 then (Except.ok [], n)
      else
        let metadata := openreports.metadataOf lib logRecord.attributes
        let r := openreports.processResults lib config logRecord metadata logRecord.attributes
          resultsArray [] n
        (Except.ok r.1, r.2)

/-- A report record with kind "Report" and a wrong API version. -/
def wrongVersionRecord : LogRecord :=
  { NewLogRecord with
    attributes := [("kind", Value.str "Report"), ("apiVersion", Value.str "v1"),
                   ("results", Value.slice [Value.str "fail"])] }

/-- A configuration of the OpenReports processor with the filter ["fail"]. -/
def failOnlyConfig : openreports.Config :=
  { Enabled := true, StatusFilter := ["fail"] }

/-- A configuration of the OpenReports processor with the filter
["pass", "fail"]. -/
def passFailConfig : openreports.Config :=
  { Enabled := true, StatusFilter := ["pass", "fail"] }

/-- The pieces of a character sequence between its hyphens that are not empty,
in order: its maximal non-empty hyphen-free runs. -/
def hyphenFreeRuns (cs : List Char) : List (List Char) :=
  (cs.splitOn '-').filter (fun t => !t.isEmpty)

/-- The runs of `cur ++ cs` when `cur` holds no hyphen: the first piece of `cs`
is extended to the left by `cur`. -/
def runsAfter (cur cs : List Char) : List (List Char) :=
  ((cs.splitOn '-').modifyHead (fun t => cur ++ t)).filter (fun t => !t.isEmpty)

/-! ## Theorems -/

/-! ### Attribute maps -/

theorem Map.Get_Put_ne (m : Map) (k key : String) (v : Value) (h : k ≠ key) :
    Map.Get (Map.Put m k v) key = Map.Get m key := by
  induction m with
  | nil => simp [Map.Put, Map.Get, h]
  | cons e rest ih =>
    obtain ⟨k1, w⟩ := e
    by_cases hk : k1 = k
    · subst hk
      simp [Map.Put, Map.Get, h]
    · simp only [Map.Put, hk, if_false]
      by_cases hk1 : k1 = key
      · simp [Map.Get, hk1]
      · simp [Map.Get, hk1, ih]

theorem Map.Get_Put_self (m : Map) (k : String) (v : Value) :
    Map.Get (Map.Put m k v) k = some v := by
  induction m with
  | nil => simp [Map.Put, Map.Get]
  | cons e rest ih =>
    obtain ⟨k1, w⟩ := e
    by_cases hk : k1 = k
    · simp [Map.Put, Map.Get, hk]
    · simp [Map.Put, Map.Get, hk, ih]

theorem Map.Get_PutIf_ne (m : Map) (k key : String) (v : Value) (c : Prop) [Decidable c]
    (h : k ≠ key) : Map.Get (Map.PutIf c m k v) key = Map.Get m key := by
  unfold Map.PutIf
  split
  · exact Map.Get_Put_ne m k key v h
  · rfl

/-! ### Rendering of integers -/

theorem digitChar_isDigit (n : Nat) (h : n < 10) : (Nat.digitChar n).isDigit = true := by
  interval_cases n <;> decide

theorem toDigitsCore_isDigit (f : Nat) : ∀ (n : Nat) (acc : List Char),
    (∀ c ∈ acc, c.isDigit = true) → ∀ c ∈ Nat.toDigitsCore 10 f n acc, c.isDigit = true := by
  induction f with
  | zero => intro n acc h; simpa [Nat.toDigitsCore] using h
  | succ f ih =>
    intro n acc h
    have hcons : ∀ c ∈ Nat.digitChar (n % 10) :: acc, c.isDigit = true := by
      intro c hc
      rcases List.mem_cons.1 hc with rfl | hc
      · exact digitChar_isDigit _ (Nat.mod_lt _ (by decide))
      · exact h c hc
    simp only [Nat.toDigitsCore]
    split
    · exact hcons
    · exact ih _ _ hcons

theorem natRepr_isDigit (n : Nat) : ∀ c ∈ (Nat.repr n).data, c.isDigit = true := by
  unfold Nat.repr Nat.toDigits
  simp only [List.asString]
  exact toDigitsCore_isDigit _ _ _ (by simp)

theorem intToString_chars (i : Int) :
    ∀ c ∈ (toString i).data, c.isDigit = true ∨ c = '-' := by
  cases i with
  | ofNat m =>
    intro c hc
    exact Or.inl (natRepr_isDigit m c hc)
  | negSucc m =>
    intro c hc
    have hs : toString (Int.negSucc m) = "-" ++ Nat.repr (m + 1) := rfl
    rw [hs, String.data_append] at hc
    rcases List.mem_append.1 hc with h | h
    · right; simpa using h
    · exact Or.inl (natRepr_isDigit _ c h)

theorem intToString_ne_Report (i : Int) : toString i ≠ "Report" := by
  intro h
  have := intToString_chars i 'R' (by rw [h]; decide)
  revert this; decide

theorem intToString_ne_apiVersion (i : Int) : toString i ≠ "openreports.io/v1alpha1" := by
  intro h
  have := intToString_chars i 'o' (by rw [h]; decide)
  revert this; decide

/-- A value whose string form is "Report" is the string "Report". -/
theorem AsString_eq_Report (lib : Lib) (h : RendersApart lib "Report") (v : Value)
    (hv : v.AsString lib = "Report") : v = Value.str "Report" := by
  obtain ⟨h1, h2, h3, h4⟩ := h
  cases v with
  | empty => simp [Value.AsString] at hv
  | str s => simp only [Value.AsString] at hv; rw [hv]
  | int i => exact absurd hv (intToString_ne_Report i)
  | double d => exact absurd hv (h1 d)
  | bool b => cases b <;> simp [Value.AsString] at hv
  | bytes b => exact absurd hv (h2 b)
  | slice xs => exact absurd hv (h4 xs)
  | map kvs => exact absurd hv (h3 kvs)

/-- A value whose string form is the OpenReports API version is that string. -/
theorem AsString_eq_apiVersion (lib : Lib) (h : RendersApart lib "openreports.io/v1alpha1")
    (v : Value) (hv : v.AsString lib = "openreports.io/v1alpha1") :
    v = Value.str "openreports.io/v1alpha1" := by
  obtain ⟨h1, h2, h3, h4⟩ := h
  cases v with
  | empty => simp [Value.AsString] at hv
  | str s => simp only [Value.AsString] at hv; rw [hv]
  | int i => exact absurd hv (intToString_ne_apiVersion i)
  | double d => exact absurd hv (h1 d)
  | bool b => cases b <;> simp [Value.AsString] at hv
  | bytes b => exact absurd hv (h2 b)
  | slice xs => exact absurd hv (h4 xs)
  | map kvs => exact absurd hv (h3 kvs)

/-- The detector, read on the two lookups. -/
theorem isOpenReportsLog_iff_AsString (lib : Lib) (r : LogRecord) :
    isOpenReportsLog lib r = true ↔
      ∃ kv av, Map.Get r.attributes "kind" = some kv ∧ kv.AsString lib = "Report" ∧
        Map.Get r.attributes "apiVersion" = some av ∧
        av.AsString lib = "openreports.io/v1alpha1" := by
  unfold isOpenReportsLog
  cases hk : Map.Get r.attributes "kind" with
  | none => simp
  | some kv =>
    cases ha : Map.Get r.attributes "apiVersion" with
    | none => simp
    | some av =>
      by_cases h1 : kv.AsString lib = "Report"
      · by_cases h2 : av.AsString lib = "openreports.io/v1alpha1"
        · simp [h1, h2]
        · simp [h1, h2]
      · simp [h1]

/-- C7. Under a library whose renderings of doubles, bytes, lists and maps are
never one of the two marker strings, the detector accepts a record exactly when
its attribute "kind" is the string "Report" and its attribute "apiVersion" is
the string "openreports.io/v1alpha1"; a missing attribute, or one that is not a
string, is rejected, and the detector is a total function (no error). -/
theorem isOpenReportsLog_iff (lib : Lib) (r : LogRecord)
    (hk : RendersApart lib "Report") (ha : RendersApart lib "openreports.io/v1alpha1") :
    (isOpenReportsLog lib r = true ↔
      (Map.Get r.attributes "kind" = some (Value.str "Report") ∧
       Map.Get r.attributes "apiVersion" = some (Value.str "openreports.io/v1alpha1"))) ∧
    (Map.Get r.attributes "kind" = none → isOpenReportsLog lib r = false) ∧
    (Map.Get r.attributes "apiVersion" = none → isOpenReportsLog lib r = false) ∧
    (∀ v, Map.Get r.attributes "kind" = some v → (∀ s, v ≠ Value.str s) →
      isOpenReportsLog lib r = false) ∧
    (∀ v, Map.Get r.attributes "apiVersion" = some v → (∀ s, v ≠ Value.str s) →
      isOpenReportsLog lib r = false) := by
  have hiff : isOpenReportsLog lib r = true ↔
      (Map.Get r.attributes "kind" = some (Value.str "Report") ∧
       Map.Get r.attributes "apiVersion" = some (Value.str "openreports.io/v1alpha1")) := by
    rw [isOpenReportsLog_iff_AsString]
    constructor
    · rintro ⟨kv, av, h1, h2, h3, h4⟩
      rw [AsString_eq_Report lib hk kv h2] at h1
      rw [AsString_eq_apiVersion lib ha av h4] at h3
      exact ⟨h1, h3⟩
    · rintro ⟨h1, h3⟩
      exact ⟨_, _, h1, rfl, h3, rfl⟩
  refine ⟨hiff, ?_, ?_, ?_, ?_⟩
  · intro h
    cases hb : isOpenReportsLog lib r with
    | false => rfl
    | true => rw [(hiff.1 hb).1] at h; cases h
  · intro h
    cases hb : isOpenReportsLog lib r with
    | false => rfl
    | true => rw [(hiff.1 hb).2] at h; cases h
  · intro v hv hns
    cases hb : isOpenReportsLog lib r with
    | false => rfl
    | true =>
      rw [(hiff.1 hb).1] at hv
      exact absurd (Option.some.inj hv).symm (hns _)
  · intro v hv hns
    cases hb : isOpenReportsLog lib r with
    | false => rfl
    | true =>
      rw [(hiff.1 hb).2] at hv
      exact absurd (Option.some.inj hv).symm (hns _)

theorem libDemo_rendersApart_Report : RendersApart libDemo "Report" := by
  refine ⟨?_, ?_, ?_, ?_⟩ <;> intro _ <;> simp [libDemo]

theorem libDemo_rendersApart_apiVersion : RendersApart libDemo "openreports.io/v1alpha1" := by
  refine ⟨?_, ?_, ?_, ?_⟩ <;> intro _ <;> simp [libDemo]

/-- Witness for C7: the demo library satisfies the rendering hypotheses, and
the detector accepts a report record and rejects a pod record. -/
theorem isOpenReportsLog_iff_witness :
    RendersApart libDemo "Report" ∧ RendersApart libDemo "openreports.io/v1alpha1" ∧
    isOpenReportsLog libDemo (reportRecord (Value.slice [])) = true ∧
    isOpenReportsLog libDemo podRecord = false := by
  have h := isOpenReportsLog_iff libDemo (reportRecord (Value.slice []))
    libDemo_rendersApart_Report libDemo_rendersApart_apiVersion
  refine ⟨libDemo_rendersApart_Report, libDemo_rendersApart_apiVersion, ?_, ?_⟩
  · exact h.1.2 ⟨by simp [reportRecord, Map.Get], by simp [reportRecord, Map.Get]⟩
  · simp [isOpenReportsLog, podRecord, Map.Get, Value.AsString]

/-! ### Keys written by `transformToSecurityEvent` -/

open openreports in
theorem isK8sKey_ne (k key : String) (hk : isK8sKey k = true) (h : isK8sKey key = false) :
    k ≠ key := by
  rintro rfl
  rw [hk] at h
  cases h

open openreports in
theorem Get_copyValue_ne (t : Map) (k key : String) (v : Value) (h : k ≠ key) :
    Map.Get (copyValue t k v) key = Map.Get t key := by
  cases v <;> simp [copyValue, Map.Get_Put_ne _ _ _ _ h]

open openreports in
theorem Get_copyK8sRange (orig : Map) (key : String) (h : isK8sKey key = false) :
    ∀ t : Map, Map.Get (copyK8sRange t orig) key = Map.Get t key := by
  induction orig with
  | nil => intro t; rfl
  | cons e rest ih =>
    intro t
    have hstep : copyK8sRange t (e :: rest)
        = copyK8sRange (if isK8sKey e.1 then copyValue t e.1 e.2 else t) rest := rfl
    rw [hstep, ih]
    by_cases hk : isK8sKey e.1 = true
    · simp only [hk, if_true]
      exact Get_copyValue_ne t e.1 key e.2 (isK8sKey_ne _ _ hk h)
    · simp [hk]

open openreports in
theorem Get_ifPresent (metadata : Metadata) (k key : String) (t : Map)
    (body : String → Map → Map) (h : ∀ x u, Map.Get (body x u) key = Map.Get u key) :
    Map.Get (ifPresent metadata k t body) key = Map.Get t key := by
  unfold ifPresent
  split
  · exact h _ _
  · rfl

open openreports in
theorem Get_putKindSpecificName (t : Map) (wk wn key : String) (h : isK8sKey key = false) :
    Map.Get (putKindSpecificName t wk wn) key = Map.Get t key := by
  have ne : ∀ k : String, isK8sKey k = true → k ≠ key := fun k hk => isK8sKey_ne k key hk h
  unfold putKindSpecificName
  split
  · exact Map.Get_Put_ne _ _ _ _ (ne _ (by decide))
  · split
    · exact Map.Get_Put_ne _ _ _ _ (ne _ (by decide))
    · split
      · exact Map.Get_Put_ne _ _ _ _ (ne _ (by decide))
      · rfl

open openreports in
/-- The `k8s.*` copy and overlay leave every key outside `k8s.*` as it was. -/
theorem Get_copyK8sFields (t orig : Map) (metadata : Metadata) (key : String)
    (h : isK8sKey key = false) :
    Map.Get (copyK8sFields t orig metadata) key = Map.Get t key := by
  have ne : ∀ k : String, isK8sKey k = true → k ≠ key := fun k hk => isK8sKey_ne k key hk h
  have e1 := ne "k8s.pod.name" (by decide)
  have e2 := ne "k8s.namespace.name" (by decide)
  have e3 := ne "k8s.resource.kind" (by decide)
  have e4 := ne "k8s.resource.uid" (by decide)
  have e8 := ne "k8s.workload.name" (by decide)
  have e9 := ne "k8s.workload.kind" (by decide)
  have e10 := ne "k8s.workload.namespace" (by decide)
  have e11 := ne "k8s.workload.uid" (by decide)
  unfold copyK8sFields
  simp only []
  rw [Get_ifPresent, Get_ifPresent, Get_ifPresent, Get_ifPresent, Get_ifPresent, Get_ifPresent,
    Get_ifPresent, Get_copyK8sRange orig key h]
  · intro x u; exact Map.Get_Put_ne _ _ _ _ e1
  · intro x u; exact Map.Get_Put_ne _ _ _ _ e2
  · intro x u; rw [Map.Get_PutIf_ne _ _ _ _ _ e1, Map.Get_Put_ne _ _ _ _ e3]
  · intro x u; exact Map.Get_Put_ne _ _ _ _ e4
  · intro x u
    split
    · rw [Map.Get_Put_ne _ _ _ _ e9, Map.Get_Put_ne _ _ _ _ e8, Get_putKindSpecificName _ _ _ _ h]
    · rfl
  · intro x u; exact Map.Get_PutIf_ne _ _ _ _ _ e10
  · intro x u; exact Map.Get_PutIf_ne _ _ _ _ _ e11

open openreports in
/-- The schema writes leave every key outside the schema as it was. -/
theorem Get_securityEventAttrs (lib : Lib) (attrs : Map) (result : Result)
    (metadata : Metadata) (n : Nat) (key : String) (h : key ∉ schemaKeys) :
    Map.Get (securityEventAttrs lib attrs result metadata n) key = Map.Get attrs key := by
  simp only [schemaKeys, List.mem_cons, List.mem_singleton, not_or, List.not_mem_nil,
    not_false_eq_true, and_true] at h
  obtain ⟨h1, h2, h3, h4, h5, h6, h7, h8, h9, h10, h11, h12, h13, h14, h15, h16, h17, h18,
    h19, h20, h21, h22, h23, h24⟩ := h
  unfold securityEventAttrs
  simp only []
  rw [Map.Get_Put_ne _ _ _ _ (Ne.symm h24), Map.Get_PutIf_ne _ _ _ _ _ (Ne.symm h23),
    Map.Get_PutIf_ne _ _ _ _ _ (Ne.symm h22), Map.Get_PutIf_ne _ _ _ _ _ (Ne.symm h21),
    Map.Get_Put_ne _ _ _ _ (Ne.symm h20), Map.Get_PutIf_ne _ _ _ _ _ (Ne.symm h19),
    Map.Get_Put_ne _ _ _ _ (Ne.symm h18), Map.Get_PutIf_ne _ _ _ _ _ (Ne.symm h17),
    Map.Get_PutIf_ne _ _ _ _ _ (Ne.symm h16), Map.Get_Put_ne _ _ _ _ (Ne.symm h15),
    Map.Get_Put_ne _ _ _ _ (Ne.symm h14), Map.Get_PutIf_ne _ _ _ _ _ (Ne.symm h13),
    Map.Get_PutIf_ne _ _ _ _ _ (Ne.symm h12), Map.Get_Put_ne _ _ _ _ (Ne.symm h11),
    Map.Get_Put_ne _ _ _ _ (Ne.symm h10), Map.Get_PutIf_ne _ _ _ _ _ (Ne.symm h9),
    Map.Get_Put_ne _ _ _ _ (Ne.symm h8), Map.Get_Put_ne _ _ _ _ (Ne.symm h7),
    Map.Get_Put_ne _ _ _ _ (Ne.symm h6), Map.Get_Put_ne _ _ _ _ (Ne.symm h5),
    Map.Get_Put_ne _ _ _ _ (Ne.symm h4), Map.Get_Put_ne _ _ _ _ (Ne.symm h3),
    Map.Get_Put_ne _ _ _ _ (Ne.symm h2), Map.Get_Put_ne _ _ _ _ (Ne.symm h1)]

open openreports in
/-- A key outside the schema and outside `k8s.*` is not written by
`transformToSecurityEvent`: its lookup is the one of the record passed in. -/
theorem Get_transformToSecurityEvent (lib : Lib) (logRecord : LogRecord) (result : Result)
    (metadata : Metadata) (originalAttrs : Map) (n : Nat) (key : String)
    (hk : isK8sKey key = false) (hs : key ∉ schemaKeys) :
    Map.Get (transformToSecurityEvent lib logRecord result metadata originalAttrs n).1.attributes
      key = Map.Get logRecord.attributes key := by
  unfold transformToSecurityEvent
  simp only []
  rw [Get_copyK8sFields _ _ _ _ hk, Get_securityEventAttrs _ _ _ _ _ _ hs]

open openreports in
/-- C8. `transformToSecurityEvent` never writes the keys "kind" and
"apiVersion" (the lookups of both keys in the produced record are those of the
record it was given), and every event it builds on a record without attributes,
as `ProcessLogRecord` does, is rejected by the detector, for every result,
metadata and source attribute map. -/
theorem transformToSecurityEvent_not_detected (lib : Lib) (logRecord : LogRecord)
    (result : Result) (metadata : Metadata) (originalAttrs : Map) (n : Nat) :
    Map.Get (transformToSecurityEvent lib logRecord result metadata originalAttrs n).1.attributes
        "kind" = Map.Get logRecord.attributes "kind" ∧
    Map.Get (transformToSecurityEvent lib logRecord result metadata originalAttrs n).1.attributes
        "apiVersion" = Map.Get logRecord.attributes "apiVersion" ∧
    isOpenReportsLog lib
      (transformToSecurityEvent lib { logRecord with attributes := [] } result metadata
        originalAttrs n).1 = false ∧
    isOpenReportsLog lib
      (transformToSecurityEvent lib (newRecordFrom logRecord) result metadata
        originalAttrs n).1 = false := by
  have hkind := fun r : LogRecord =>
    Get_transformToSecurityEvent lib r result metadata originalAttrs n "kind"
      (by decide) (by decide)
  refine ⟨hkind logRecord, ?_, ?_, ?_⟩
  · exact Get_transformToSecurityEvent lib logRecord result metadata originalAttrs n
      "apiVersion" (by decide) (by decide)
  · unfold isOpenReportsLog
    rw [hkind]
    rfl
  · unfold isOpenReportsLog
    rw [hkind]
    rfl

/-! ### The two passes of `processLogs` -/

theorem scopeTrace_map_fst {σ : Type} (lib : Lib) (openReports : Option (Transform σ))
    (resource : Resource) (scopeLog : ScopeLogs) :
    ∀ (rs : List LogRecord) (s : σ),
      (scopeTrace lib openReports resource scopeLog rs s).map Prod.fst = rs := by
  intro rs
  induction rs with
  | nil => intro s; rfl
  | cons r rest ih => intro s; simp [scopeTrace, ih]

theorem scopeTrace_length {σ : Type} (lib : Lib) (openReports : Option (Transform σ))
    (resource : Resource) (scopeLog : ScopeLogs) (rs : List LogRecord) (s : σ) :
    (scopeTrace lib openReports resource scopeLog rs s).length = rs.length := by
  have h := congrArg List.length (scopeTrace_map_fst lib openReports resource scopeLog rs s)
  simpa using h

theorem marks_index_ge : ∀ (t : List (LogRecord × Outcome)) (k : Nat),
    ∀ rep ∈ marks k t, k ≤ rep.index := by
  intro t
  induction t with
  | nil => intro k rep h; simp [marks] at h
  | cons e t ih =>
    intro k rep h
    obtain ⟨r, o⟩ := e
    cases o with
    | passed => exact Nat.le_of_succ_le (ih (k + 1) rep (by simpa [marks] using h))
    | failed => exact Nat.le_of_succ_le (ih (k + 1) rep (by simpa [marks] using h))
    | expanded E =>
      simp only [marks, List.mem_cons] at h
      rcases h with rfl | h
      · exact Nat.le_refl _
      · exact Nat.le_of_succ_le (ih (k + 1) rep h)

/-- One step of the first pass, read on the outcome of the record. -/
theorem firstPassStep_eq {σ : Type} (lib : Lib) (openReports : Option (Transform σ))
    (resource : Resource) (scopeLog : ScopeLogs) (k : Nat) (r : LogRecord) (st : FirstPass σ) :
    firstPassStep lib openReports resource scopeLog k r st =
      { replacements := st.replacements ++
          marks k [(r, (outcomeOf lib openReports resource scopeLog r st.rand).1)],
        replacementIndices :=
          ((marks k [(r, (outcomeOf lib openReports resource scopeLog r st.rand).1)]).map
            (fun rep => rep.index)).reverse ++ st.replacementIndices,
        counts :=
          { incomingCount := st.counts.incomingCount + 1,
            outgoingCount := st.counts.outgoingCount +
              passedCount [(r, (outcomeOf lib openReports resource scopeLog r st.rand).1)],
            droppedCount := st.counts.droppedCount +
              failedCount [(r, (outcomeOf lib openReports resource scopeLog r st.rand).1)],
            processingErrors := st.counts.processingErrors +
              failedCount [(r, (outcomeOf lib openReports resource scopeLog r st.rand).1)] },
        rand := (outcomeOf lib openReports resource scopeLog r st.rand).2 } := by
  cases openReports with
  | none =>
    simp [firstPassStep, outcomeOf, marks, passedCount, failedCount, Outcome.isPassed,
      Outcome.isFailed]
  | some proc =>
    by_cases hd : isOpenReportsLog lib r = true
    · rcases hp : proc r resource scopeLog st.rand with ⟨res, s1⟩
      cases res with
      | error e =>
        simp [firstPassStep, outcomeOf, hd, hp, marks, passedCount, failedCount,
          Outcome.isPassed, Outcome.isFailed]
      | ok newRecords =>
        by_cases hn : newRecords.length > 0
        · simp [firstPassStep, outcomeOf, hd, hp, hn, marks, passedCount, failedCount,
            Outcome.isPassed, Outcome.isFailed]
        · simp [firstPassStep, outcomeOf, hd, hp, hn, marks, passedCount, failedCount,
            Outcome.isPassed, Outcome.isFailed]
    · simp [firstPassStep, outcomeOf, hd, marks, passedCount, failedCount, Outcome.isPassed,
        Outcome.isFailed]

theorem marks_cons (k : Nat) (e : LogRecord × Outcome) (t : List (LogRecord × Outcome)) :
    marks k (e :: t) = marks k [e] ++ marks (k + 1) t := by
  obtain ⟨r, o⟩ := e
  cases o <;> simp [marks]

theorem passedCount_cons (e : LogRecord × Outcome) (t : List (LogRecord × Outcome)) :
    passedCount (e :: t) = passedCount [e] + passedCount t := by
  simp only [passedCount, List.countP_cons, List.countP_nil]
  omega

theorem failedCount_cons (e : LogRecord × Outcome) (t : List (LogRecord × Outcome)) :
    failedCount (e :: t) = failedCount [e] + failedCount t := by
  simp only [failedCount, List.countP_cons, List.countP_nil]
  omega

/-- The first pass, read on the trace of the scope. -/
theorem firstPass_eq {σ : Type} (lib : Lib) (openReports : Option (Transform σ))
    (resource : Resource) (scopeLog : ScopeLogs) :
    ∀ (rs : List LogRecord) (k : Nat) (st : FirstPass σ),
      firstPass lib openReports resource scopeLog rs k st =
        { replacements := st.replacements ++
            marks k (scopeTrace lib openReports resource scopeLog rs st.rand),
          replacementIndices :=
            ((marks k (scopeTrace lib openReports resource scopeLog rs st.rand)).map
              (fun rep => rep.index)).reverse ++ st.replacementIndices,
          counts :=
            { incomingCount := st.counts.incomingCount + rs.length,
              outgoingCount := st.counts.outgoingCount +
                passedCount (scopeTrace lib openReports resource scopeLog rs st.rand),
              droppedCount := st.counts.droppedCount +
                failedCount (scopeTrace lib openReports resource scopeLog rs st.rand),
              processingErrors := st.counts.processingErrors +
                failedCount (scopeTrace lib openReports resource scopeLog rs st.rand) },
          rand := scopeRand lib openReports resource scopeLog rs st.rand } := by
  intro rs
  induction rs with
  | nil =>
    intro k st
    simp [firstPass, scopeTrace, scopeRand, marks, passedCount, failedCount]
  | cons r rest ih =>
    intro k st
    rw [firstPass, ih, firstPassStep_eq]
    simp only [scopeTrace, scopeRand]
    rw [marks_cons k _ (scopeTrace _ _ _ _ rest _), passedCount_cons _ (scopeTrace _ _ _ _ rest _),
      failedCount_cons _ (scopeTrace _ _ _ _ rest _)]
    simp only [List.append_assoc, List.map_append, List.reverse_append, List.length_cons,
      Nat.add_assoc, Nat.add_comm 1]

theorem insertNewRecords_eq : ∀ (newRecords : List LogRecord) (st : SecondPass),
    insertNewRecords newRecords st =
      { newLogRecords := st.newLogRecords ++ newRecords,
        replacementIndex := st.replacementIndex,
        outgoingCount := st.outgoingCount + newRecords.length } := by
  intro newRecords
  induction newRecords with
  | nil => intro st; simp [insertNewRecords]
  | cons e rest ih =>
    intro st
    have hstep : insertNewRecords (e :: rest) st =
        insertNewRecords rest
          { st with newLogRecords := st.newLogRecords ++ [e],
                    outgoingCount := st.outgoingCount + 1 } := rfl
    rw [hstep, ih]
    simp [Nat.add_assoc, Nat.add_comm 1]

theorem emitAll_cons (e : LogRecord × Outcome) (t : List (LogRecord × Outcome)) :
    emitAll (e :: t) = emit e ++ emitAll t := by
  simp [emitAll]

theorem expandedTotal_cons (e : LogRecord × Outcome) (t : List (LogRecord × Outcome)) :
    expandedTotal (e :: t) = e.2.newCount + expandedTotal t := by
  simp [expandedTotal]

/-- The second pass, read on the trace: with the replacement list made of the
entries `done` already consumed followed by the marks of the remaining trace,
it appends the groups of the remaining trace in order. -/
theorem secondPass_eq (replacements : List replacement) (replacementIndices : List Nat)
    (hidx : ∀ j, j ∈ replacementIndices ↔ ∃ rep ∈ replacements, rep.index = j) :
    ∀ (t : List (LogRecord × Outcome)) (k : Nat) (done : List replacement) (st : SecondPass),
      replacements = done ++ marks k t →
      st.replacementIndex = done.length →
      (∀ rep ∈ done, rep.index < k) →
      secondPass replacements replacementIndices (t.map Prod.fst) k st =
        { newLogRecords := st.newLogRecords ++ emitAll t,
          replacementIndex := st.replacementIndex + (marks k t).length,
          outgoingCount := st.outgoingCount + expandedTotal t } := by
  intro t
  induction t with
  | nil =>
    intro k done st _ _ _
    simp [secondPass, emitAll, marks, expandedTotal]
  | cons e t ih =>
    intro k done st hreps hri hdone
    obtain ⟨r, o⟩ := e
    have hnot : ∀ o1 : Outcome, marks k ((r, o1) :: t) = marks (k + 1) t →
        replacements = done ++ marks (k + 1) t →
        secondPassStep replacements replacementIndices k r st =
          { st with newLogRecords := st.newLogRecords ++ [r] } := by
      intro o1 _ hr
      have hk : k ∉ replacementIndices := by
        intro hmem
        obtain ⟨rep, hrep, hrk⟩ := (hidx k).1 hmem
        rw [hr] at hrep
        rcases List.mem_append.1 hrep with h | h
        · exact absurd hrk (Nat.ne_of_lt (hdone rep h))
        · have := marks_index_ge t (k + 1) rep h
          omega
      unfold secondPassStep
      cases hg : replacements.get? st.replacementIndex with
      | none => simp [hk]
      | some rep =>
        have hne : rep.index ≠ k := by
          have hmem : rep ∈ replacements := List.get?_mem hg
          rw [hr] at hmem
          rcases List.mem_append.1 hmem with h | h
          · exact Nat.ne_of_lt (hdone rep h)
          · have := marks_index_ge t (k + 1) rep h
            omega
        simp [hne, hk]
    have hdone1 : ∀ rep ∈ done, rep.index < k + 1 := fun rep h => Nat.lt_succ_of_lt (hdone rep h)
    cases o with
    | passed =>
      have hm : marks k ((r, Outcome.passed) :: t) = marks (k + 1) t := rfl
      rw [hm] at hreps
      simp only [List.map_cons, secondPass]
      rw [hnot Outcome.passed hm hreps,
        ih (k + 1) done (SecondPass.mk (st.newLogRecords ++ [r]) st.replacementIndex
          st.outgoingCount) hreps hri hdone1]
      simp [emitAll_cons, emit, expandedTotal_cons, Outcome.newCount, hm]
    | failed =>
      have hm : marks k ((r, Outcome.failed) :: t) = marks (k + 1) t := rfl
      rw [hm] at hreps
      simp only [List.map_cons, secondPass]
      rw [hnot Outcome.failed hm hreps,
        ih (k + 1) done (SecondPass.mk (st.newLogRecords ++ [r]) st.replacementIndex
          st.outgoingCount) hreps hri hdone1]
      simp [emitAll_cons, emit, expandedTotal_cons, Outcome.newCount, hm]
    | expanded E =>
      have hm : marks k ((r, Outcome.expanded E) :: t) =
          { index := k, newRecords := E } :: marks (k + 1) t := rfl
      rw [hm] at hreps
      have hg : replacements.get? st.replacementIndex =
          some { index := k, newRecords := E } := by
        rw [hreps, hri, List.get?_eq_getElem?, List.getElem?_append_right (Nat.le_refl _)]
        simp
      have hstep : secondPassStep replacements replacementIndices k r st =
          { newLogRecords := st.newLogRecords ++ E,
            replacementIndex := st.replacementIndex + 1,
            outgoingCount := st.outgoingCount + E.length } := by
        unfold secondPassStep
        rw [hg]
        simp [insertNewRecords_eq]
      have hreps1 : replacements =
          (done ++ [{ index := k, newRecords := E }]) ++ marks (k + 1) t := by
        rw [hreps]; simp
      have hdone2 : ∀ rep ∈ done ++ [({ index := k, newRecords := E } : replacement)],
          rep.index < k + 1 := by
        intro rep h
        rcases List.mem_append.1 h with h | h
        · exact hdone1 rep h
        · rw [List.mem_singleton.1 h]; exact Nat.lt_succ_self k
      simp only [List.map_cons, secondPass]
      rw [hstep,
        ih (k + 1) (done ++ [{ index := k, newRecords := E }])
          (SecondPass.mk (st.newLogRecords ++ E) (st.replacementIndex + 1)
            (st.outgoingCount + E.length)) hreps1 (by simp [hri]) hdone2]
      simp [emitAll_cons, emit, expandedTotal_cons, Outcome.newCount, hm, Nat.add_assoc,
        Nat.add_comm 1]

theorem marks_eq_nil : ∀ (t : List (LogRecord × Outcome)) (k : Nat), marks k t = [] →
    emitAll t = t.map Prod.fst ∧ expandedTotal t = 0 ∧ ∀ e ∈ t, e.2.isExpanded = false := by
  intro t
  induction t with
  | nil => intro k _; simp [emitAll, expandedTotal]
  | cons e t ih =>
    intro k h
    obtain ⟨r, o⟩ := e
    cases o with
    | passed =>
      obtain ⟨h1, h2, h3⟩ := ih (k + 1) (by simpa [marks] using h)
      refine ⟨?_, ?_, ?_⟩
      · simp [emitAll_cons, emit, h1]
      · simp [expandedTotal_cons, Outcome.newCount, h2]
      · intro e he
        rcases List.mem_cons.1 he with rfl | he
        · rfl
        · exact h3 e he
    | failed =>
      obtain ⟨h1, h2, h3⟩ := ih (k + 1) (by simpa [marks] using h)
      refine ⟨?_, ?_, ?_⟩
      · simp [emitAll_cons, emit, h1]
      · simp [expandedTotal_cons, Outcome.newCount, h2]
      · intro e he
        rcases List.mem_cons.1 he with rfl | he
        · rfl
        · exact h3 e he
    | expanded E => simp [marks] at h

theorem marks_eq_nil_of_not_expanded : ∀ (t : List (LogRecord × Outcome)) (k : Nat),
    (∀ e ∈ t, e.2.isExpanded = false) → marks k t = [] := by
  intro t
  induction t with
  | nil => intro k _; rfl
  | cons e t ih =>
    intro k h
    obtain ⟨r, o⟩ := e
    have ht := ih (k + 1) (fun e he => h e (List.mem_cons_of_mem _ he))
    cases o with
    | passed => simpa [marks] using ht
    | failed => simpa [marks] using ht
    | expanded E =>
      have := h (r, Outcome.expanded E) (List.mem_cons_self _ _)
      simp [Outcome.isExpanded] at this

/-- Both passes over one scope, read on its trace: the record sequence becomes
the in-order concatenation of the groups, and the counters advance by the
tallies of the trace. -/
theorem processScopeLogs_eq {σ : Type} (lib : Lib) (openReports : Option (Transform σ))
    (resource : Resource) (scopeLog : ScopeLogs) (counts : Counts) (rand : σ) :
    processScopeLogs lib openReports resource scopeLog counts rand =
      ({ scopeLog with
         logRecords :=
           emitAll (scopeTrace lib openReports resource scopeLog scopeLog.logRecords rand) },
       countsAfter counts
         (scopeTrace lib openReports resource scopeLog scopeLog.logRecords rand),
       scopeRand lib openReports resource scopeLog scopeLog.logRecords rand) := by
  unfold processScopeLogs
  simp only [firstPass_eq, List.nil_append, List.append_nil]
  generalize ht : scopeTrace lib openReports resource scopeLog scopeLog.logRecords rand = t
  have hfst : t.map Prod.fst = scopeLog.logRecords := by
    rw [← ht]; exact scopeTrace_map_fst _ _ _ _ _ _
  have hlen : t.length = scopeLog.logRecords.length := by
    rw [← hfst]; simp
  by_cases hm : (marks 0 t).length > 0
  · rw [if_pos hm]
    have hidx : ∀ j, j ∈ ((marks 0 t).map (fun rep => rep.index)).reverse ↔
        ∃ rep ∈ marks 0 t, rep.index = j := by
      intro j; simp
    have h2 := secondPass_eq (marks 0 t) _ hidx t 0 [] (SecondPass.mk [] 0
      (counts.outgoingCount + passedCount t)) (by simp) rfl (by simp)
    rw [hfst] at h2
    rw [h2]
    simp [countsAfter, hlen]
  · rw [if_neg hm]
    have hnil : marks 0 t = [] := by
      cases hmt : marks 0 t with
      | nil => rfl
      | cons a b => rw [hmt] at hm; simp at hm
    obtain ⟨h1, h2, _⟩ := marks_eq_nil t 0 hnil
    simp [countsAfter, h1, h2, hfst, hlen]

/-! ### `ProcessLogRecord` -/

open openreports in
theorem isStatusAllowed_of_empty (config : openreports.Config) (status : String)
    (h : ¬ config.StatusFilter.length > 0) : isStatusAllowed config status = true := by
  have h0 : config.StatusFilter.length = 0 := by omega
  simp [isStatusAllowed, h0]

open openreports in
/-- The results loop, read on the selected results. -/
theorem processResults_eq (lib : Lib) (config : openreports.Config) (logRecord : LogRecord) :
    ∀ (raw : List String) (newRecords : List LogRecord) (n : Nat),
      processResults lib config logRecord (metadataOf lib logRecord.attributes)
          logRecord.attributes raw newRecords n =
        (newRecords ++ eventsFor lib logRecord (selectedResults lib config raw) n,
         n + 2 * (selectedResults lib config raw).length) := by
  intro raw
  induction raw with
  | nil => intro acc n; simp [processResults, selectedResults, eventsFor]
  | cons x rest ih =>
    intro acc n
    cases hx : lib.unmarshalResult x with
    | none =>
      have hsel : selectedResults lib config (x :: rest) = selectedResults lib config rest := by
        simp [selectedResults, List.filterMap_cons, hx]
      rw [hsel]
      simp only [processResults, hx]
      exact ih acc n
    | some result =>
      by_cases hallow : isStatusAllowed config result.Result = true
      · have hsel : selectedResults lib config (x :: rest) =
            result :: selectedResults lib config rest := by
          simp [selectedResults, List.filterMap_cons, hx, hallow]
        rw [hsel]
        simp only [processResults, hx]
        rw [if_neg (by simp [hallow])]
        rw [ih]
        simp only [eventsFor, transformToSecurityEvent, List.length_cons, List.append_assoc,
          List.singleton_append]
        refine Prod.ext rfl ?_
        show n + 2 + 2 * (selectedResults lib config rest).length =
          n + 2 * ((selectedResults lib config rest).length + 1)
        omega
      · have hsel : selectedResults lib config (x :: rest) = selectedResults lib config rest := by
          simp [selectedResults, List.filterMap_cons, hx, hallow]
        have hlen : config.StatusFilter.length > 0 := by
          by_contra hc
          exact hallow (isStatusAllowed_of_empty config _ hc)
        rw [hsel]
        simp only [processResults, hx]
        rw [if_pos ⟨hlen, by simpa using hallow⟩]
        exact ih acc n

open openreports in
/-- `ProcessLogRecord` on a record the detector rejects: nothing, no error. -/
theorem ProcessLogRecord_not_detected (lib : Lib) (config : openreports.Config)
    (r : LogRecord) (resource : Resource) (scopeLogs : ScopeLogs) (n : Nat)
    (h : isOpenReportsLog lib r = false) :
    ProcessLogRecord lib config r resource scopeLogs n = (Except.ok [], n) := by
  unfold isOpenReportsLog at h
  unfold ProcessLogRecord
  simp only []
  cases hk : Map.Get r.attributes "kind" with
  | none => rfl
  | some kv =>
    rw [hk] at h
    simp only [] at h ⊢
    by_cases h1 : kv.AsString lib ≠ "Report"
    · rw [if_pos h1]
    · rw [if_neg h1] at h ⊢
      cases ha : Map.Get r.attributes "apiVersion" with
      | none => rfl
      | some av =>
        rw [ha] at h
        simp only [] at h ⊢
        by_cases h2 : av.AsString lib ≠ "openreports.io/v1alpha1"
        · rw [if_pos h2]
        · rw [if_neg h2] at h
          cases h

open openreports in
/-- `ProcessLogRecord` on a record the detector accepts: one event per selected
result, in order, and never an error. -/
theorem ProcessLogRecord_detected (lib : Lib) (config : openreports.Config)
    (r : LogRecord) (resource : Resource) (scopeLogs : ScopeLogs) (n : Nat)
    (h : isOpenReportsLog lib r = true) :
    ProcessLogRecord lib config r resource scopeLogs n =
      (Except.ok (eventsFor lib r (selectedResults lib config (rawResults lib r.attributes)) n),
       n + 2 * (selectedResults lib config (rawResults lib r.attributes)).length) := by
  obtain ⟨kv, av, hk, hkv, ha, hav⟩ := (isOpenReportsLog_iff_AsString lib r).1 h
  unfold ProcessLogRecord rawResults
  simp only [hk, ha, hkv, hav, ne_eq, not_true_eq_false, if_false]
  cases hr : Map.Get r.attributes "results" with
  | none => simp [selectedResults, eventsFor]
  | some resultsVal =>
    simp only []
    cases ho : resultsArrayOf lib resultsVal with
    | none => simp [selectedResults, eventsFor]
    | some resultsArray =>
      simp only [Option.getD_some]
      by_cases hl : resultsArray.length = 0
      · have : resultsArray = [] := List.length_eq_zero.1 hl
        subst this
        simp [selectedResults, eventsFor]
      · rw [if_neg hl, processResults_eq]
        simp

/-! ### The batch loops of `processLogs` -/

theorem passedCount_append (t1 t2 : List (LogRecord × Outcome)) :
    passedCount (t1 ++ t2) = passedCount t1 + passedCount t2 := by
  simp [passedCount]

theorem failedCount_append (t1 t2 : List (LogRecord × Outcome)) :
    failedCount (t1 ++ t2) = failedCount t1 + failedCount t2 := by
  simp [failedCount]

theorem neverExpandedCount_append (t1 t2 : List (LogRecord × Outcome)) :
    neverExpandedCount (t1 ++ t2) = neverExpandedCount t1 + neverExpandedCount t2 := by
  simp [neverExpandedCount]

theorem expandedTotal_append (t1 t2 : List (LogRecord × Outcome)) :
    expandedTotal (t1 ++ t2) = expandedTotal t1 + expandedTotal t2 := by
  simp [expandedTotal]

theorem emitAll_append (t1 t2 : List (LogRecord × Outcome)) :
    emitAll (t1 ++ t2) = emitAll t1 ++ emitAll t2 := by
  simp [emitAll]

theorem countsAfter_append (c : Counts) (t1 t2 : List (LogRecord × Outcome)) :
    countsAfter (countsAfter c t1) t2 = countsAfter c (t1 ++ t2) := by
  simp only [countsAfter, passedCount_append, failedCount_append, expandedTotal_append,
    List.length_append, Counts.mk.injEq]
  omega

theorem countsAfter_nil (c : Counts) : countsAfter c [] = c := by
  simp [countsAfter, passedCount, failedCount, expandedTotal]

/-- Length of the output of a trace: the never-expanded originals and the new
records of the expanded ones. -/
theorem emitAll_length (t : List (LogRecord × Outcome)) :
    (emitAll t).length = neverExpandedCount t + expandedTotal t := by
  induction t with
  | nil => simp [emitAll, neverExpandedCount, expandedTotal]
  | cons e t ih =>
    obtain ⟨r, o⟩ := e
    rw [emitAll_cons, List.length_append, ih, expandedTotal_cons]
    cases o <;>
      simp [emit, neverExpandedCount, Outcome.isExpanded, Outcome.newCount, List.countP_cons] <;>
      omega

theorem neverExpandedCount_eq (t : List (LogRecord × Outcome)) :
    neverExpandedCount t = passedCount t + failedCount t := by
  induction t with
  | nil => simp [neverExpandedCount, passedCount, failedCount]
  | cons e t ih =>
    obtain ⟨r, o⟩ := e
    have h1 : neverExpandedCount ((r, o) :: t) =
        neverExpandedCount t + (if (!o.isExpanded) = true then 1 else 0) := by
      simp only [neverExpandedCount, List.countP_cons]
    have h2 : passedCount ((r, o) :: t) =
        passedCount t + (if o.isPassed = true then 1 else 0) := by
      simp only [passedCount, List.countP_cons]
    have h3 : failedCount ((r, o) :: t) =
        failedCount t + (if o.isFailed = true then 1 else 0) := by
      simp only [failedCount, List.countP_cons]
    rw [h1, h2, h3, ih]
    cases o <;> simp [Outcome.isExpanded, Outcome.isPassed, Outcome.isFailed] <;> omega

/-- The scope loop, read on the traces of the scopes. -/
theorem processScopeLogsList_eq {σ : Type} (lib : Lib) (openReports : Option (Transform σ))
    (resource : Resource) :
    ∀ (sls : List ScopeLogs) (counts : Counts) (rand : σ),
      processScopeLogsList lib openReports resource sls counts rand =
        (rewriteScopes lib openReports resource sls rand,
         countsAfter counts (scopesTrace lib openReports resource sls rand),
         scopesRand lib openReports resource sls rand) := by
  intro sls
  induction sls with
  | nil =>
    intro counts rand
    simp [processScopeLogsList, rewriteScopes, scopesTrace, scopesRand, countsAfter_nil]
  | cons sl rest ih =>
    intro counts rand
    simp only [processScopeLogsList, processScopeLogs_eq, ih, rewriteScopes, scopesTrace,
      scopesRand, countsAfter_append]

/-- The resource loop, read on the trace of the batch. -/
theorem processResourceLogsList_eq {σ : Type} (lib : Lib) (openReports : Option (Transform σ)) :
    ∀ (rls : List ResourceLogs) (counts : Counts) (rand : σ),
      processResourceLogsList lib openReports rls counts rand =
        (rewriteResources lib openReports rls rand,
         countsAfter counts (resourcesTrace lib openReports rls rand),
         resourcesRand lib openReports rls rand) := by
  intro rls
  induction rls with
  | nil =>
    intro counts rand
    simp [processResourceLogsList, rewriteResources, resourcesTrace, resourcesRand,
      countsAfter_nil]
  | cons rl rest ih =>
    intro counts rand
    simp only [processResourceLogsList, processScopeLogsList_eq, ih, rewriteResources,
      resourcesTrace, resourcesRand, countsAfter_append]

/-- The batch rewriter, read on the trace of the batch. -/
theorem processLogs_eq {σ : Type} (lib : Lib) (openReports : Option (Transform σ))
    (ld : Logs) (rand : σ) :
    processLogs lib openReports ld rand =
      ({ resourceLogs := rewriteResources lib openReports ld.resourceLogs rand },
       countsAfter zeroCounts (resourcesTrace lib openReports ld.resourceLogs rand),
       resourcesRand lib openReports ld.resourceLogs rand) := by
  simp only [processLogs, processResourceLogsList_eq, zeroCounts]

theorem rewriteScopes_getElem? {σ : Type} (lib : Lib) (openReports : Option (Transform σ))
    (resource : Resource) :
    ∀ (sls : List ScopeLogs) (s : σ) (j : Nat) (sl : ScopeLogs), sls[j]? = some sl →
      ∃ s1, (rewriteScopes lib openReports resource sls s)[j]? =
        some { sl with
               logRecords := emitAll (scopeTrace lib openReports resource sl sl.logRecords s1) } := by
  intro sls
  induction sls with
  | nil => intro s j sl h; simp at h
  | cons a rest ih =>
    intro s j sl h
    cases j with
    | zero =>
      simp only [List.getElem?_cons_zero, Option.some.injEq] at h
      subst h
      exact ⟨s, by simp [rewriteScopes]⟩
    | succ j =>
      simp only [List.getElem?_cons_succ] at h
      obtain ⟨s1, h1⟩ := ih (scopeRand lib openReports resource a a.logRecords s) j sl h
      exact ⟨s1, by simpa [rewriteScopes] using h1⟩

theorem rewriteResources_getElem? {σ : Type} (lib : Lib) (openReports : Option (Transform σ)) :
    ∀ (rls : List ResourceLogs) (s : σ) (i : Nat) (rl : ResourceLogs), rls[i]? = some rl →
      ∃ s1, (rewriteResources lib openReports rls s)[i]? =
        some { rl with scopeLogs := rewriteScopes lib openReports rl.resource rl.scopeLogs s1 } := by
  intro rls
  induction rls with
  | nil => intro s i rl h; simp at h
  | cons a rest ih =>
    intro s i rl h
    cases i with
    | zero =>
      simp only [List.getElem?_cons_zero, Option.some.injEq] at h
      subst h
      exact ⟨s, by simp [rewriteResources]⟩
    | succ i =>
      simp only [List.getElem?_cons_succ] at h
      obtain ⟨s1, h1⟩ := ih (scopesRand lib openReports a.resource a.scopeLogs s) i rl h
      exact ⟨s1, by simpa [rewriteResources] using h1⟩

/-- Every scope of the output batch is the scope at the same place of the input
batch with its record sequence rewritten, from some identifier state. -/
theorem processLogs_scope {σ : Type} (lib : Lib) (openReports : Option (Transform σ))
    (ld : Logs) (rand : σ) (i j : Nat) (rl : ResourceLogs) (sl : ScopeLogs)
    (hi : ld.resourceLogs[i]? = some rl) (hj : rl.scopeLogs[j]? = some sl) :
    ∃ (s1 : σ) (rl1 : ResourceLogs),
      (processLogs lib openReports ld rand).1.resourceLogs[i]? = some rl1 ∧
      rl1.resource = rl.resource ∧
      rl1.scopeLogs[j]? =
        some { sl with
               logRecords :=
                 emitAll (scopeTrace lib openReports rl.resource sl sl.logRecords s1) } := by
  obtain ⟨s0, h0⟩ := rewriteResources_getElem? lib openReports ld.resourceLogs rand i rl hi
  obtain ⟨s1, h1⟩ := rewriteScopes_getElem? lib openReports rl.resource rl.scopeLogs s0 j sl hj
  refine ⟨s1, { rl with scopeLogs := rewriteScopes lib openReports rl.resource rl.scopeLogs s0 },
    ?_, rfl, h1⟩
  rw [processLogs_eq]; exact h0

/-! ### Order-preserving expansion -/

/-- Every entry of a scope trace pairs a record of the scope with its outcome
at some identifier state. -/
theorem scopeTrace_mem {σ : Type} (lib : Lib) (openReports : Option (Transform σ))
    (resource : Resource) (scopeLog : ScopeLogs) :
    ∀ (rs : List LogRecord) (s : σ) (e : LogRecord × Outcome),
      e ∈ scopeTrace lib openReports resource scopeLog rs s →
      e.1 ∈ rs ∧ ∃ s1, e.2 = (outcomeOf lib openReports resource scopeLog e.1 s1).1 := by
  intro rs
  induction rs with
  | nil => intro s e h; simp [scopeTrace] at h
  | cons a rest ih =>
    intro s e h
    simp only [scopeTrace, List.mem_cons] at h
    rcases h with rfl | h
    · exact ⟨List.mem_cons_self _ _, s, rfl⟩
    · obtain ⟨h1, h2⟩ := ih _ e h
      exact ⟨List.mem_cons_of_mem _ h1, h2⟩

/-- The outcome of a record is the expansion `E` exactly when the detector
accepts the record and the transformation returns the non-empty list `E`
without error. -/
theorem outcomeOf_expanded_iff {σ : Type} (lib : Lib) (proc : Transform σ)
    (resource : Resource) (scopeLog : ScopeLogs) (r : LogRecord) (s : σ) (E : List LogRecord) :
    (outcomeOf lib (some proc) resource scopeLog r s).1 = Outcome.expanded E ↔
      (isOpenReportsLog lib r = true ∧ (proc r resource scopeLog s).1 = Except.ok E ∧ E ≠ []) := by
  by_cases hd : isOpenReportsLog lib r = true
  · rcases hp : proc r resource scopeLog s with ⟨res, s1⟩
    cases res with
    | error e => simp [outcomeOf, hd, hp]
    | ok newRecords =>
      by_cases hn : newRecords.length > 0
      · have hne : newRecords ≠ [] := List.length_pos.1 hn
        simp only [outcomeOf, hd, hp, hn, if_true, Outcome.expanded.injEq, true_and,
          Except.ok.injEq]
        constructor
        · intro h; subst h; exact ⟨rfl, hne⟩
        · intro h; exact h.1
      · have hnil : newRecords = [] := by
          cases newRecords with
          | nil => rfl
          | cons a b => simp at hn
        subst hnil
        simp only [outcomeOf, hd, hp, List.length_nil, gt_iff_lt, Nat.lt_irrefl, if_false,
          if_true, true_and, Except.ok.injEq]
        constructor
        · intro h; cases h
        · intro h; exact absurd h.1.symm h.2
  · simp [outcomeOf, hd]

/-- C1. With OpenReports enabled, every scope-level record sequence of a batch
becomes the in-order concatenation, over its records, of the expansion `E` of a
record the detector accepts and whose transformation returns the non-empty list
`E`, and of the single original record otherwise; the trace lists the original
records in their order, so groups are not interleaved, and the length of the
result is the number of never-expanded originals plus the sum of the lengths of
the expansions. -/
theorem processLogs_concatenation {σ : Type} (lib : Lib) (proc : Transform σ)
    (ld : Logs) (rand : σ) (i j : Nat) (rl : ResourceLogs) (sl : ScopeLogs)
    (hi : ld.resourceLogs[i]? = some rl) (hj : rl.scopeLogs[j]? = some sl) :
    ∃ (s : σ) (rl1 : ResourceLogs) (sl1 : ScopeLogs),
      (processLogs lib (some proc) ld rand).1.resourceLogs[i]? = some rl1 ∧
      rl1.scopeLogs[j]? = some sl1 ∧
      (scopeTrace lib (some proc) rl.resource sl sl.logRecords s).map Prod.fst
        = sl.logRecords ∧
      sl1.logRecords =
        ((scopeTrace lib (some proc) rl.resource sl sl.logRecords s).map emit).flatten ∧
      sl1.logRecords.length =
        neverExpandedCount (scopeTrace lib (some proc) rl.resource sl sl.logRecords s) +
        expandedTotal (scopeTrace lib (some proc) rl.resource sl sl.logRecords s) ∧
      (∀ e ∈ scopeTrace lib (some proc) rl.resource sl sl.logRecords s, ∃ s1, ∀ E,
        e.2 = Outcome.expanded E ↔
          (isOpenReportsLog lib e.1 = true ∧
           (proc e.1 rl.resource sl s1).1 = Except.ok E ∧ E ≠ [])) := by
  obtain ⟨s, rl1, h1, _, h2⟩ := processLogs_scope lib (some proc) ld rand i j rl sl hi hj
  refine ⟨s, rl1, _, h1, h2, scopeTrace_map_fst _ _ _ _ _ _, rfl, emitAll_length _, ?_⟩
  intro e he
  obtain ⟨_, s1, hs⟩ := scopeTrace_mem lib (some proc) rl.resource sl sl.logRecords s e he
  refine ⟨s1, fun E => ?_⟩
  rw [hs]
  exact outcomeOf_expanded_iff lib proc rl.resource sl e.1 s1 E

/-- Witness for C1: the scope at position (0, 0) of the demo batch holds a pod
record, a report with one selected result and a report with none; its output is
the concatenation of the three groups and has three records. -/
theorem processLogs_concatenation_witness :
    ∃ (s : Nat) (rl1 : ResourceLogs) (sl1 : ScopeLogs),
      (processLogs libDemo (newOpenReports libDemo demoConfig) demoLogs 0).1.resourceLogs[0]?
        = some rl1 ∧
      rl1.scopeLogs[0]? = some sl1 ∧
      sl1.logRecords =
        ((scopeTrace libDemo (newOpenReports libDemo demoConfig) demoResourceLogs.resource
            demoScope demoScope.logRecords s).map emit).flatten ∧
      sl1.logRecords.length = 3 := by
  obtain ⟨s, rl1, sl1, h1, h2, _, h4, h5, _⟩ :=
    processLogs_concatenation libDemo
      (openreports.ProcessLogRecord libDemo demoConfig.Processors.OpenReports)
      demoLogs 0 0 0 demoResourceLogs demoScope rfl rfl
  refine ⟨s, rl1, sl1, h1, h2, h4, ?_⟩
  rw [h5]
  rfl

/-! ### Records that pass through -/

theorem scopeTrace_getElem? {σ : Type} (lib : Lib) (openReports : Option (Transform σ))
    (resource : Resource) (scopeLog : ScopeLogs) :
    ∀ (rs : List LogRecord) (s : σ) (k : Nat) (r : LogRecord), rs[k]? = some r →
      (scopeTrace lib openReports resource scopeLog rs s)[k]? =
        some (r, (outcomeOf lib openReports resource scopeLog r
          (scopeRand lib openReports resource scopeLog (rs.take k) s)).1) := by
  intro rs
  induction rs with
  | nil => intro s k r h; simp at h
  | cons a rest ih =>
    intro s k r h
    cases k with
    | zero =>
      simp only [List.getElem?_cons_zero, Option.some.injEq] at h
      subst h
      simp [scopeTrace, scopeRand]
    | succ k =>
      simp only [List.getElem?_cons_succ] at h
      simpa [scopeTrace, scopeRand] using ih _ k r h

/-- A record that is not expanded stands in the output right after the groups
of the records before it. -/
theorem emitAll_getElem? {σ : Type} (lib : Lib) (openReports : Option (Transform σ))
    (resource : Resource) (scopeLog : ScopeLogs) :
    ∀ (rs : List LogRecord) (s : σ) (k : Nat) (r : LogRecord), rs[k]? = some r →
      (outcomeOf lib openReports resource scopeLog r
        (scopeRand lib openReports resource scopeLog (rs.take k) s)).1.isExpanded = false →
      (emitAll (scopeTrace lib openReports resource scopeLog rs s))[
        (emitAll (scopeTrace lib openReports resource scopeLog (rs.take k) s)).length]? =
        some r := by
  intro rs
  induction rs with
  | nil => intro s k r h; simp at h
  | cons a rest ih =>
    intro s k r h ho
    cases k with
    | zero =>
      simp only [List.getElem?_cons_zero, Option.some.injEq] at h
      subst h
      simp only [List.take_zero, scopeRand] at ho
      simp only [List.take_zero, scopeTrace, emitAll_cons]
      cases hout : (outcomeOf lib openReports resource scopeLog a s).1 with
      | passed => simp [emit, emitAll]
      | failed => simp [emit, emitAll]
      | expanded E => rw [hout] at ho; simp [Outcome.isExpanded] at ho
    | succ k =>
      simp only [List.getElem?_cons_succ] at h
      simp only [List.take_succ_cons, scopeRand] at ho
      simp only [List.take_succ_cons, scopeTrace, emitAll_cons, List.length_append]
      rw [List.getElem?_append_right (Nat.le_add_right _ _), Nat.add_sub_cancel_left]
      exact ih _ k r h ho

/-- The first-pass step on a record whose outcome is `passed`: one incoming and
one outgoing increment, nothing else. -/
theorem firstPassStep_passed {σ : Type} (lib : Lib) (openReports : Option (Transform σ))
    (resource : Resource) (scopeLog : ScopeLogs) (k : Nat) (r : LogRecord) (st : FirstPass σ)
    (h : (outcomeOf lib openReports resource scopeLog r st.rand).1 = Outcome.passed) :
    (firstPassStep lib openReports resource scopeLog k r st).counts =
      { st.counts with
        incomingCount := st.counts.incomingCount + 1,
        outgoingCount := st.counts.outgoingCount + 1 } ∧
    (firstPassStep lib openReports resource scopeLog k r st).replacements = st.replacements ∧
    (firstPassStep lib openReports resource scopeLog k r st).replacementIndices =
      st.replacementIndices := by
  rw [firstPassStep_eq, h]
  simp [marks, passedCount, failedCount, Outcome.isPassed, Outcome.isFailed]

/-- The second-pass step at an index without replacement entry leaves the
outgoing counter as it is. -/
theorem secondPassStep_outgoing (replacements : List replacement)
    (replacementIndices : List Nat) (k : Nat) (r : LogRecord) (st : SecondPass)
    (h : ∀ rep ∈ replacements, rep.index ≠ k) :
    (secondPassStep replacements replacementIndices k r st).outgoingCount =
      st.outgoingCount := by
  unfold secondPassStep
  cases hg : replacements.get? st.replacementIndex with
  | none =>
    simp only []
    split <;> rfl
  | some rep =>
    have hne : rep.index ≠ k := h rep (List.get?_mem hg)
    simp only [hne, if_false]
    split <;> rfl

/-- A record whose outcome is `passed` at every identifier state is present
unchanged in the output of its scope, right after the groups of the records
before it, and its first-pass step counts it once as incoming and once as
outgoing, never as dropped, and marks no replacement. -/
theorem processLogs_passed_record {σ : Type} (lib : Lib) (openReports : Option (Transform σ))
    (ld : Logs) (rand : σ) (i j k : Nat) (rl : ResourceLogs) (sl : ScopeLogs) (r : LogRecord)
    (hi : ld.resourceLogs[i]? = some rl) (hj : rl.scopeLogs[j]? = some sl)
    (hk : sl.logRecords[k]? = some r)
    (hp : ∀ s, (outcomeOf lib openReports rl.resource sl r s).1 = Outcome.passed) :
    (∃ (s : σ) (rl1 : ResourceLogs) (sl1 : ScopeLogs),
      (processLogs lib openReports ld rand).1.resourceLogs[i]? = some rl1 ∧
      rl1.scopeLogs[j]? = some sl1 ∧
      sl1.logRecords[(emitAll
        (scopeTrace lib openReports rl.resource sl (sl.logRecords.take k) s)).length]? = some r ∧
      (scopeTrace lib openReports rl.resource sl sl.logRecords s)[k]? =
        some (r, Outcome.passed)) ∧
    (∀ st : FirstPass σ,
      (firstPassStep lib openReports rl.resource sl k r st).counts =
        { st.counts with
          incomingCount := st.counts.incomingCount + 1,
          outgoingCount := st.counts.outgoingCount + 1 } ∧
      (firstPassStep lib openReports rl.resource sl k r st).replacements = st.replacements) ∧
    (∀ (replacements : List replacement) (replacementIndices : List Nat) (st : SecondPass),
      (∀ rep ∈ replacements, rep.index ≠ k) →
      (secondPassStep replacements replacementIndices k r st).outgoingCount =
        st.outgoingCount) := by
  refine ⟨?_, ?_, ?_⟩
  · obtain ⟨s, rl1, h1, _, h2⟩ := processLogs_scope lib openReports ld rand i j rl sl hi hj
    refine ⟨s, rl1, _, h1, h2, ?_, ?_⟩
    · exact emitAll_getElem? lib openReports rl.resource sl sl.logRecords s k r hk
        (by rw [hp]; rfl)
    · rw [scopeTrace_getElem? lib openReports rl.resource sl sl.logRecords s k r hk, hp]
  · intro st
    have h := firstPassStep_passed lib openReports rl.resource sl k r st (hp st.rand)
    exact ⟨h.1, h.2.1⟩
  · intro replacements replacementIndices st h
    exact secondPassStep_outgoing replacements replacementIndices k r st h

theorem outcomeOf_not_detected {σ : Type} (lib : Lib) (openReports : Option (Transform σ))
    (resource : Resource) (scopeLog : ScopeLogs) (r : LogRecord) (s : σ)
    (h : isOpenReportsLog lib r = false) :
    outcomeOf lib openReports resource scopeLog r s = (Outcome.passed, s) := by
  cases openReports with
  | none => rfl
  | some proc => simp [outcomeOf, h]

/-- C2. A record of a batch that the detector rejects is present in the output
sequence of its scope, identical to the input record and right after the groups
of the records before it; the first pass counts it once as incoming and once as
outgoing, leaves the dropped counter and the replacement list as they are, and
the second pass does not count it again. -/
theorem processLogs_nonmatch_passthrough {σ : Type} (lib : Lib)
    (openReports : Option (Transform σ)) (ld : Logs) (rand : σ) (i j k : Nat)
    (rl : ResourceLogs) (sl : ScopeLogs) (r : LogRecord)
    (hi : ld.resourceLogs[i]? = some rl) (hj : rl.scopeLogs[j]? = some sl)
    (hk : sl.logRecords[k]? = some r) (hd : isOpenReportsLog lib r = false) :
    (∃ (s : σ) (rl1 : ResourceLogs) (sl1 : ScopeLogs),
      (processLogs lib openReports ld rand).1.resourceLogs[i]? = some rl1 ∧
      rl1.scopeLogs[j]? = some sl1 ∧
      sl1.logRecords[(emitAll
        (scopeTrace lib openReports rl.resource sl (sl.logRecords.take k) s)).length]? = some r ∧
      (scopeTrace lib openReports rl.resource sl sl.logRecords s)[k]? =
        some (r, Outcome.passed)) ∧
    (∀ st : FirstPass σ,
      (firstPassStep lib openReports rl.resource sl k r st).counts =
        { st.counts with
          incomingCount := st.counts.incomingCount + 1,
          outgoingCount := st.counts.outgoingCount + 1 } ∧
      (firstPassStep lib openReports rl.resource sl k r st).replacements = st.replacements) ∧
    (∀ (replacements : List replacement) (replacementIndices : List Nat) (st : SecondPass),
      (∀ rep ∈ replacements, rep.index ≠ k) →
      (secondPassStep replacements replacementIndices k r st).outgoingCount =
        st.outgoingCount) :=
  processLogs_passed_record lib openReports ld rand i j k rl sl r hi hj hk
    (fun s => by rw [outcomeOf_not_detected lib openReports rl.resource sl r s hd])

/-- Witness for C2: the pod record at position (0, 0, 0) of the demo batch is
rejected by the detector and is the first record of the output scope. -/
theorem processLogs_nonmatch_passthrough_witness :
    isOpenReportsLog libDemo podRecord = false ∧
    ∃ (rl1 : ResourceLogs) (sl1 : ScopeLogs),
      (processLogs libDemo (newOpenReports libDemo demoConfig) demoLogs 0).1.resourceLogs[0]?
        = some rl1 ∧
      rl1.scopeLogs[0]? = some sl1 ∧ sl1.logRecords[0]? = some podRecord := by
  have hd : isOpenReportsLog libDemo podRecord = false := by decide
  obtain ⟨⟨s, rl1, sl1, h1, h2, h3, _⟩, _⟩ :=
    processLogs_nonmatch_passthrough libDemo (newOpenReports libDemo demoConfig) demoLogs 0
      0 0 0 demoResourceLogs demoScope podRecord rfl rfl rfl hd
  exact ⟨hd, rl1, sl1, h1, h2, by simpa [emitAll, scopeTrace] using h3⟩

/-! ### Outcomes of the processor as constructed -/

theorem eventsFor_length (lib : Lib) (r : LogRecord) :
    ∀ (results : List Result) (n : Nat), (eventsFor lib r results n).length = results.length := by
  intro results
  induction results with
  | nil => intro n; rfl
  | cons a rest ih => intro n; simp [eventsFor, ih]

/-- With the processor disabled every outcome is `passed`. -/
theorem outcomeOf_run_disabled (lib : Lib) (config : Config) (resource : Resource)
    (scopeLog : ScopeLogs) (r : LogRecord) (n : Nat)
    (h : config.Processors.OpenReports.Enabled = false) :
    outcomeOf lib (newOpenReports lib config) resource scopeLog r n = (Outcome.passed, n) := by
  simp [newOpenReports, h, outcomeOf]

/-- An accepted record with no selected result has outcome `passed`. -/
theorem outcomeOf_run_empty (lib : Lib) (config : Config) (resource : Resource)
    (scopeLog : ScopeLogs) (r : LogRecord) (n : Nat)
    (hsel : selectedResults lib config.Processors.OpenReports (rawResults lib r.attributes) = []) :
    outcomeOf lib (newOpenReports lib config) resource scopeLog r n = (Outcome.passed, n) := by
  by_cases he : config.Processors.OpenReports.Enabled = true
  · by_cases hd : isOpenReportsLog lib r = true
    · simp [newOpenReports, he, outcomeOf, hd, ProcessLogRecord_detected, hsel,
        eventsFor]
    · simp [newOpenReports, he, outcomeOf, hd]
  · exact outcomeOf_run_disabled lib config resource scopeLog r n (by simpa using he)

/-- An accepted record with a selected result is expanded into one event per
selected result when the processor is enabled. -/
theorem outcomeOf_run_expanded (lib : Lib) (config : Config) (resource : Resource)
    (scopeLog : ScopeLogs) (r : LogRecord) (n : Nat)
    (he : config.Processors.OpenReports.Enabled = true) (hd : isOpenReportsLog lib r = true)
    (hsel : selectedResults lib config.Processors.OpenReports (rawResults lib r.attributes) ≠ []) :
    outcomeOf lib (newOpenReports lib config) resource scopeLog r n =
      (Outcome.expanded (eventsFor lib r
        (selectedResults lib config.Processors.OpenReports (rawResults lib r.attributes)) n),
       n + 2 * (selectedResults lib config.Processors.OpenReports
        (rawResults lib r.attributes)).length) := by
  have hlen : 0 < (selectedResults lib config.Processors.OpenReports
      (rawResults lib r.attributes)).length := List.length_pos.2 hsel
  simp [newOpenReports, he, outcomeOf, hd, ProcessLogRecord_detected,
    eventsFor_length, hlen]

/-- Whether a record is expanded by the processor as constructed: a matter of
the configuration and the record alone. -/
theorem outcomeOf_run_isExpanded (lib : Lib) (config : Config) (resource : Resource)
    (scopeLog : ScopeLogs) (r : LogRecord) (n : Nat) :
    (outcomeOf lib (newOpenReports lib config) resource scopeLog r n).1.isExpanded =
      decide (config.Processors.OpenReports.Enabled = true ∧ isOpenReportsLog lib r = true ∧
        (selectedResults lib config.Processors.OpenReports
          (rawResults lib r.attributes)).length ≠ 0) := by
  by_cases he : config.Processors.OpenReports.Enabled = true
  · by_cases hd : isOpenReportsLog lib r = true
    · by_cases hsel : selectedResults lib config.Processors.OpenReports
          (rawResults lib r.attributes) = []
      · rw [outcomeOf_run_empty lib config resource scopeLog r n hsel]
        simp [Outcome.isExpanded, hsel]
      · rw [outcomeOf_run_expanded lib config resource scopeLog r n he hd hsel]
        have : (selectedResults lib config.Processors.OpenReports
            (rawResults lib r.attributes)).length ≠ 0 := by
          intro h0; exact hsel (List.length_eq_zero.1 h0)
        simp [Outcome.isExpanded, he, hd, this]
    · have hd1 : isOpenReportsLog lib r = false := by simpa using hd
      rw [outcomeOf_not_detected lib _ resource scopeLog r n hd1]
      simp [Outcome.isExpanded, hd1]
  · have he1 : config.Processors.OpenReports.Enabled = false := by simpa using he
    rw [outcomeOf_run_disabled lib config resource scopeLog r n he1]
    simp [Outcome.isExpanded, he1]

/-- The processor as constructed never takes the error branch. -/
theorem outcomeOf_run_not_failed (lib : Lib) (config : Config) (resource : Resource)
    (scopeLog : ScopeLogs) (r : LogRecord) (n : Nat) :
    (outcomeOf lib (newOpenReports lib config) resource scopeLog r n).1.isFailed = false := by
  by_cases he : config.Processors.OpenReports.Enabled = true
  · by_cases hd : isOpenReportsLog lib r = true
    · by_cases hsel : selectedResults lib config.Processors.OpenReports
          (rawResults lib r.attributes) = []
      · rw [outcomeOf_run_empty lib config resource scopeLog r n hsel]; rfl
      · rw [outcomeOf_run_expanded lib config resource scopeLog r n he hd hsel]; rfl
    · rw [outcomeOf_not_detected lib _ resource scopeLog r n (by simpa using hd)]; rfl
  · rw [outcomeOf_run_disabled lib config resource scopeLog r n (by simpa using he)]; rfl

/-- The selected result set is empty exactly when every raw result fails to
decode or decodes to a status the filter rejects; in particular when there is
no raw result at all. -/
theorem selectedResults_eq_nil_iff (lib : Lib) (config : openreports.Config)
    (raw : List String) :
    selectedResults lib config raw = [] ↔
      ∀ x ∈ raw, ∀ result, lib.unmarshalResult x = some result →
        openreports.isStatusAllowed config result.Result = false := by
  unfold selectedResults
  rw [List.filter_eq_nil_iff]
  constructor
  · intro h x hx result hres
    have hmem : result ∈ raw.filterMap lib.unmarshalResult :=
      List.mem_filterMap.2 ⟨x, hx, hres⟩
    simpa using h result hmem
  · intro h result hmem
    obtain ⟨x, hx, hres⟩ := List.mem_filterMap.1 hmem
    simp [h x hx result hres]

/-- Without a "results" attribute there is no raw result. -/
theorem rawResults_absent (lib : Lib) (attrs : Map) (h : Map.Get attrs "results" = none) :
    rawResults lib attrs = [] := by
  simp [rawResults, h]

/-- C3. A record of a batch that the detector accepts and whose parsed and
status-filtered result set is empty is kept unchanged at its position in the
output sequence of its scope: `ProcessLogRecord` returns no record and no
error for it, its outcome is `passed` (neither dropped nor expanded), the first
pass counts it once as incoming and once as outgoing and marks no replacement,
and the second pass does not count it again. -/
theorem run_empty_result_passthrough (lib : Lib) (config : Config) (ld : Logs) (n : Nat)
    (i j k : Nat) (rl : ResourceLogs) (sl : ScopeLogs) (r : LogRecord)
    (hi : ld.resourceLogs[i]? = some rl) (hj : rl.scopeLogs[j]? = some sl)
    (hk : sl.logRecords[k]? = some r) (hd : isOpenReportsLog lib r = true)
    (hsel : selectedResults lib config.Processors.OpenReports (rawResults lib r.attributes) = []) :
    (∀ s, openreports.ProcessLogRecord lib config.Processors.OpenReports r rl.resource sl s =
      (Except.ok [], s)) ∧
    (∃ (s : Nat) (rl1 : ResourceLogs) (sl1 : ScopeLogs),
      (run lib config ld n).1.resourceLogs[i]? = some rl1 ∧
      rl1.scopeLogs[j]? = some sl1 ∧
      sl1.logRecords[(emitAll (scopeTrace lib (newOpenReports lib config) rl.resource sl
        (sl.logRecords.take k) s)).length]? = some r ∧
      (scopeTrace lib (newOpenReports lib config) rl.resource sl sl.logRecords s)[k]? =
        some (r, Outcome.passed)) ∧
    (∀ st : FirstPass Nat,
      (firstPassStep lib (newOpenReports lib config) rl.resource sl k r st).counts =
        { st.counts with
          incomingCount := st.counts.incomingCount + 1,
          outgoingCount := st.counts.outgoingCount + 1 } ∧
      (firstPassStep lib (newOpenReports lib config) rl.resource sl k r st).replacements =
        st.replacements) ∧
    (∀ (replacements : List replacement) (replacementIndices : List Nat) (st : SecondPass),
      (∀ rep ∈ replacements, rep.index ≠ k) →
      (secondPassStep replacements replacementIndices k r st).outgoingCount =
        st.outgoingCount) := by
  refine ⟨?_, processLogs_passed_record lib (newOpenReports lib config) ld n i j k rl sl r
    hi hj hk (fun s => by rw [outcomeOf_run_empty lib config rl.resource sl r s hsel])⟩
  intro s
  rw [ProcessLogRecord_detected lib _ r rl.resource sl s hd, hsel]
  rfl

/-- Witness for C3: in the demo batch, under the filter `["fail"]`, the report
whose only result has status "pass" is accepted by the detector, has no
selected result, and is the last record of the output scope, after the pod
record and the single event of the report before it. -/
theorem run_empty_result_passthrough_witness :
    isOpenReportsLog libDemo (reportRecord (Value.slice [Value.str "pass"])) = true ∧
    selectedResults libDemo demoConfig.Processors.OpenReports
      (rawResults libDemo (reportRecord (Value.slice [Value.str "pass"])).attributes) = [] ∧
    ∃ (rl1 : ResourceLogs) (sl1 : ScopeLogs),
      (run libDemo demoConfig demoLogs 0).1.resourceLogs[0]? = some rl1 ∧
      rl1.scopeLogs[0]? = some sl1 ∧
      sl1.logRecords[2]? = some (reportRecord (Value.slice [Value.str "pass"])) := by
  have hd : isOpenReportsLog libDemo (reportRecord (Value.slice [Value.str "pass"])) = true := by
    decide
  have hsel : selectedResults libDemo demoConfig.Processors.OpenReports
      (rawResults libDemo (reportRecord (Value.slice [Value.str "pass"])).attributes) = [] := by
    simp [selectedResults, rawResults, reportRecord, Map.Get, openreports.resultsArrayOf,
      Value.AsString, libDemo, demoConfig, openreports.isStatusAllowed,
      openreports.statusInFilter]
  obtain ⟨_, ⟨s, rl1, sl1, h1, h2, h3, _⟩, _⟩ :=
    run_empty_result_passthrough libDemo demoConfig demoLogs 0 0 0 2 demoResourceLogs demoScope
      (reportRecord (Value.slice [Value.str "pass"])) rfl rfl rfl hd hsel
  refine ⟨hd, hsel, rl1, sl1, h1, h2, ?_⟩
  have hlen : (emitAll (scopeTrace libDemo (newOpenReports libDemo demoConfig)
      demoResourceLogs.resource demoScope (demoScope.logRecords.take 2) s)).length = 2 := by
    rw [emitAll_length]
    rfl
  rw [hlen] at h3
  exact h3

/-! ### The error branch -/

/-- The error branch of `processLogs`, evaluated with transformations that
return an error, which `ProcessLogRecord` never does: the record is counted as
dropped and is still the record of the output scope, both when no rebuild
happens (single record) and when a rebuild happens (an expanded record follows
in the same scope). -/
theorem processLogs_error_record_kept :
    processLogs libDemo (some failingTransform)
        (singleScopeLogs [reportRecord (Value.slice [])]) 0 =
      (singleScopeLogs [reportRecord (Value.slice [])],
       { incomingCount := 1, outgoingCount := 0, droppedCount := 1, processingErrors := 1 }, 0) ∧
    processLogs libDemo (some mixedTransform)
        (singleScopeLogs [{ reportRecord (Value.slice []) with timestamp := 1 },
                          reportRecord (Value.slice [])]) 0 =
      (singleScopeLogs [{ reportRecord (Value.slice []) with timestamp := 1 },
                        podRecord, podRecord],
       { incomingCount := 2, outgoingCount := 2, droppedCount := 1, processingErrors := 1 }, 0) := by
  constructor <;> rfl

/-! ### Counters -/

theorem scopesTrace_mem {σ : Type} (lib : Lib) (openReports : Option (Transform σ))
    (resource : Resource) :
    ∀ (sls : List ScopeLogs) (s : σ) (e : LogRecord × Outcome),
      e ∈ scopesTrace lib openReports resource sls s →
      ∃ sl ∈ sls, e.1 ∈ sl.logRecords ∧
        ∃ s1, e.2 = (outcomeOf lib openReports resource sl e.1 s1).1 := by
  intro sls
  induction sls with
  | nil => intro s e h; simp [scopesTrace] at h
  | cons a rest ih =>
    intro s e h
    simp only [scopesTrace, List.mem_append] at h
    rcases h with h | h
    · obtain ⟨h1, h2⟩ := scopeTrace_mem lib openReports resource a a.logRecords s e h
      exact ⟨a, List.mem_cons_self _ _, h1, h2⟩
    · obtain ⟨sl, h1, h2⟩ := ih _ e h
      exact ⟨sl, List.mem_cons_of_mem _ h1, h2⟩

theorem resourcesTrace_mem {σ : Type} (lib : Lib) (openReports : Option (Transform σ)) :
    ∀ (rls : List ResourceLogs) (s : σ) (e : LogRecord × Outcome),
      e ∈ resourcesTrace lib openReports rls s →
      ∃ rl ∈ rls, ∃ sl ∈ rl.scopeLogs, e.1 ∈ sl.logRecords ∧
        ∃ s1, e.2 = (outcomeOf lib openReports rl.resource sl e.1 s1).1 := by
  intro rls
  induction rls with
  | nil => intro s e h; simp [resourcesTrace] at h
  | cons a rest ih =>
    intro s e h
    simp only [resourcesTrace, List.mem_append] at h
    rcases h with h | h
    · obtain ⟨sl, h1, h2⟩ := scopesTrace_mem lib openReports a.resource a.scopeLogs s e h
      exact ⟨a, List.mem_cons_self _ _, sl, h1, h2⟩
    · obtain ⟨rl, h1, h2⟩ := ih _ e h
      exact ⟨rl, List.mem_cons_of_mem _ h1, h2⟩

theorem failedCount_eq_zero (t : List (LogRecord × Outcome))
    (h : ∀ e ∈ t, e.2.isFailed = false) : failedCount t = 0 := by
  unfold failedCount
  rw [List.countP_eq_zero]
  intro e he
  simp [h e he]

theorem scopeTrace_total {σ : Type} (lib : Lib) (openReports : Option (Transform σ))
    (resource : Resource) :
    ∀ (sls : List ScopeLogs) (s : σ),
      (scopesTrace lib openReports resource sls s).length = scopesRecordCount sls ∧
      (emitAll (scopesTrace lib openReports resource sls s)).length =
        scopesRecordCount (rewriteScopes lib openReports resource sls s) := by
  intro sls
  induction sls with
  | nil => intro s; simp [scopesTrace, scopesRecordCount, rewriteScopes, emitAll]
  | cons a rest ih =>
    intro s
    obtain ⟨h1, h2⟩ := ih (scopeRand lib openReports resource a a.logRecords s)
    simp only [scopesRecordCount, List.map_cons, List.sum_cons] at h1 h2 ⊢
    simp only [scopesTrace, rewriteScopes, List.length_append, emitAll_append, List.map_cons,
      List.sum_cons, scopeTrace_length, h1, h2, and_self]

/-- The trace of a batch lists every input record once, and its output lists
every record of the rewritten batch once. -/
theorem resourcesTrace_total {σ : Type} (lib : Lib) (openReports : Option (Transform σ)) :
    ∀ (rls : List ResourceLogs) (s : σ),
      (resourcesTrace lib openReports rls s).length = totalRecords { resourceLogs := rls } ∧
      (emitAll (resourcesTrace lib openReports rls s)).length =
        totalRecords { resourceLogs := rewriteResources lib openReports rls s } := by
  intro rls
  induction rls with
  | nil => intro s; simp [resourcesTrace, totalRecords, rewriteResources, emitAll]
  | cons a rest ih =>
    intro s
    obtain ⟨h1, h2⟩ := ih (scopesRand lib openReports a.resource a.scopeLogs s)
    obtain ⟨h3, h4⟩ := scopeTrace_total lib openReports a.resource a.scopeLogs s
    simp only [totalRecords, List.map_cons, List.sum_cons] at h1 h2 ⊢
    simp only [resourcesTrace, rewriteResources, List.length_append, emitAll_append,
      List.map_cons, List.sum_cons, h1, h2, h3, h4, and_self]

/-- The counters of `processLogs` for any transformation: every input record is
counted once as incoming, the dropped counter is the number of records whose
transformation returned an error, and outgoing plus dropped is the number of
records present in the output batch. -/
theorem processLogs_counts {σ : Type} (lib : Lib) (openReports : Option (Transform σ))
    (ld : Logs) (rand : σ) :
    (processLogs lib openReports ld rand).2.1.incomingCount = totalRecords ld ∧
    (processLogs lib openReports ld rand).2.1.droppedCount =
      failedCount (resourcesTrace lib openReports ld.resourceLogs rand) ∧
    (processLogs lib openReports ld rand).2.1.outgoingCount =
      passedCount (resourcesTrace lib openReports ld.resourceLogs rand) +
      expandedTotal (resourcesTrace lib openReports ld.resourceLogs rand) ∧
    (processLogs lib openReports ld rand).2.1.outgoingCount +
      (processLogs lib openReports ld rand).2.1.droppedCount =
      totalRecords (processLogs lib openReports ld rand).1 := by
  obtain ⟨h1, h2⟩ := resourcesTrace_total lib openReports ld.resourceLogs rand
  rw [processLogs_eq]
  refine ⟨?_, ?_, ?_, ?_⟩
  · simpa [countsAfter, zeroCounts] using h1
  · simp [countsAfter, zeroCounts]
  · simp [countsAfter, zeroCounts]
  · simp only [countsAfter, zeroCounts, Nat.zero_add]
    rw [← h2, emitAll_length, neverExpandedCount_eq]
    omega

/-- C6. For every batch, the counters computed by the processor satisfy:
`incomingCount` is the number of records of the input batch; `outgoingCount` is
the number of records present in the batch after processing, each counted once
(the passed-through records in pass 1 and the new records in pass 2);
`droppedCount` is the number of records whose transformation returned an error,
and such records are not part of the outgoing count. -/
theorem run_counters (lib : Lib) (config : Config) (ld : Logs) (n : Nat) :
    (run lib config ld n).2.1.incomingCount = totalRecords ld ∧
    (run lib config ld n).2.1.outgoingCount = totalRecords (run lib config ld n).1 ∧
    (run lib config ld n).2.1.droppedCount =
      failedCount (resourcesTrace lib (newOpenReports lib config) ld.resourceLogs n) ∧
    (run lib config ld n).2.1.outgoingCount =
      passedCount (resourcesTrace lib (newOpenReports lib config) ld.resourceLogs n) +
      expandedTotal (resourcesTrace lib (newOpenReports lib config) ld.resourceLogs n) := by
  obtain ⟨h1, h2, h3, h4⟩ := processLogs_counts lib (newOpenReports lib config) ld n
  have hz : failedCount (resourcesTrace lib (newOpenReports lib config) ld.resourceLogs n) = 0 := by
    apply failedCount_eq_zero
    intro e he
    obtain ⟨rl, _, sl, _, _, s1, hs⟩ := resourcesTrace_mem lib _ ld.resourceLogs n e he
    rw [hs]
    exact outcomeOf_run_not_failed lib config rl.resource sl e.1 s1
  refine ⟨h1, ?_, h2, h3⟩
  rw [h2, hz] at h4
  exact h4

/-! ### Idempotence -/

/-- Every event built by `ProcessLogRecord` is rejected by the detector. -/
theorem eventsFor_not_detected (lib : Lib) (r : LogRecord) :
    ∀ (results : List Result) (n : Nat), ∀ e ∈ eventsFor lib r results n,
      isOpenReportsLog lib e = false := by
  intro results
  induction results with
  | nil => intro n e h; simp [eventsFor] at h
  | cons a rest ih =>
    intro n e h
    simp only [eventsFor, List.mem_cons] at h
    rcases h with rfl | h
    · unfold isOpenReportsLog
      rw [Get_transformToSecurityEvent lib _ a _ _ n "kind" (by decide) (by decide)]
      rfl
    · exact ih _ e h

theorem expands_of_not_detected (lib : Lib) (config : Config) (r : LogRecord)
    (h : isOpenReportsLog lib r = false) : expands lib config r = false := by
  simp [expands, h]

/-- The records that stand for one original in the output of the processor as
constructed are not expanded by it again. -/
theorem emit_run_inert (lib : Lib) (config : Config) (resource : Resource)
    (scopeLog : ScopeLogs) (a : LogRecord) (n : Nat) :
    ∀ x ∈ emit (a, (outcomeOf lib (newOpenReports lib config) resource scopeLog a n).1),
      expands lib config x = false := by
  intro x hx
  by_cases hexp : expands lib config a = true
  · have h := hexp
    simp only [expands, decide_eq_true_eq] at h
    obtain ⟨he, hd, hlen⟩ := h
    have hsel : selectedResults lib config.Processors.OpenReports
        (rawResults lib a.attributes) ≠ [] := by
      intro h0; rw [h0] at hlen; exact hlen rfl
    rw [outcomeOf_run_expanded lib config resource scopeLog a n he hd hsel] at hx
    exact expands_of_not_detected lib config x (eventsFor_not_detected lib a _ _ x hx)
  · have hne : (outcomeOf lib (newOpenReports lib config) resource scopeLog a n).1.isExpanded
        = false := by
      rw [outcomeOf_run_isExpanded]
      simpa [expands] using hexp
    cases ho : (outcomeOf lib (newOpenReports lib config) resource scopeLog a n).1 with
    | passed =>
      rw [ho] at hx
      simp only [emit, List.mem_singleton] at hx
      rw [hx]; simpa using hexp
    | failed =>
      rw [ho] at hx
      simp only [emit, List.mem_singleton] at hx
      rw [hx]; simpa using hexp
    | expanded E => rw [ho] at hne; simp [Outcome.isExpanded] at hne

theorem emitAll_scopeTrace_inert (lib : Lib) (config : Config) (resource : Resource)
    (scopeLog : ScopeLogs) :
    ∀ (rs : List LogRecord) (n : Nat),
      ∀ x ∈ emitAll (scopeTrace lib (newOpenReports lib config) resource scopeLog rs n),
        expands lib config x = false := by
  intro rs
  induction rs with
  | nil => intro n x h; simp [scopeTrace, emitAll] at h
  | cons a rest ih =>
    intro n x h
    simp only [scopeTrace, emitAll_cons, List.mem_append] at h
    rcases h with h | h
    · exact emit_run_inert lib config resource scopeLog a n x h
    · exact ih _ x h

/-- The records of the output batch are not expanded by the processor again. -/
theorem rewriteScopes_inert (lib : Lib) (config : Config) (resource : Resource) :
    ∀ (sls : List ScopeLogs) (n : Nat),
      ∀ sl1 ∈ rewriteScopes lib (newOpenReports lib config) resource sls n,
        ∀ x ∈ sl1.logRecords, expands lib config x = false := by
  intro sls
  induction sls with
  | nil => intro n sl1 h; simp [rewriteScopes] at h
  | cons a rest ih =>
    intro n sl1 h x hx
    simp only [rewriteScopes, List.mem_cons] at h
    rcases h with rfl | h
    · exact emitAll_scopeTrace_inert lib config resource a a.logRecords n x hx
    · exact ih _ sl1 h x hx

theorem rewriteResources_inert (lib : Lib) (config : Config) :
    ∀ (rls : List ResourceLogs) (n : Nat),
      ∀ rl1 ∈ rewriteResources lib (newOpenReports lib config) rls n,
        ∀ sl1 ∈ rl1.scopeLogs, ∀ x ∈ sl1.logRecords, expands lib config x = false := by
  intro rls
  induction rls with
  | nil => intro n rl1 h; simp [rewriteResources] at h
  | cons a rest ih =>
    intro n rl1 h sl1 hsl x hx
    simp only [rewriteResources, List.mem_cons] at h
    rcases h with rfl | h
    · exact rewriteScopes_inert lib config a.resource a.scopeLogs n sl1 hsl x hx
    · exact ih _ rl1 h sl1 hsl x hx

/-- A scope whose records are not expanded has no replacement entry and is its
own output. -/
theorem scopeTrace_inert (lib : Lib) (config : Config) (resource : Resource)
    (scopeLog : ScopeLogs) (rs : List LogRecord) (n : Nat)
    (h : ∀ x ∈ rs, expands lib config x = false) :
    marks 0 (scopeTrace lib (newOpenReports lib config) resource scopeLog rs n) = [] ∧
    emitAll (scopeTrace lib (newOpenReports lib config) resource scopeLog rs n) = rs := by
  have hall : ∀ e ∈ scopeTrace lib (newOpenReports lib config) resource scopeLog rs n,
      e.2.isExpanded = false := by
    intro e he
    obtain ⟨h1, s1, h2⟩ := scopeTrace_mem lib _ resource scopeLog rs n e he
    rw [h2, outcomeOf_run_isExpanded]
    exact h e.1 h1
  have hm := marks_eq_nil_of_not_expanded _ 0 hall
  refine ⟨hm, ?_⟩
  rw [(marks_eq_nil _ 0 hm).1, scopeTrace_map_fst]

theorem rewriteScopes_fixed (lib : Lib) (config : Config) (resource : Resource) :
    ∀ (sls : List ScopeLogs) (n : Nat),
      (∀ sl ∈ sls, ∀ x ∈ sl.logRecords, expands lib config x = false) →
      rewriteScopes lib (newOpenReports lib config) resource sls n = sls := by
  intro sls
  induction sls with
  | nil => intro n _; rfl
  | cons a rest ih =>
    intro n h
    simp only [rewriteScopes]
    rw [(scopeTrace_inert lib config resource a a.logRecords n
      (h a (List.mem_cons_self _ _))).2,
      ih _ (fun sl hsl => h sl (List.mem_cons_of_mem _ hsl))]

theorem rewriteResources_fixed (lib : Lib) (config : Config) :
    ∀ (rls : List ResourceLogs) (n : Nat),
      (∀ rl ∈ rls, ∀ sl ∈ rl.scopeLogs, ∀ x ∈ sl.logRecords, expands lib config x = false) →
      rewriteResources lib (newOpenReports lib config) rls n = rls := by
  intro rls
  induction rls with
  | nil => intro n _; rfl
  | cons a rest ih =>
    intro n h
    simp only [rewriteResources]
    rw [rewriteScopes_fixed lib config a.resource a.scopeLogs n (h a (List.mem_cons_self _ _)),
      ih _ (fun rl hrl => h rl (List.mem_cons_of_mem _ hrl))]

/-- C4. The batch rewriter is idempotent: for every batch and configuration,
running it on the batch it produced (from any state of the identifier stream)
gives that same batch, and in every scope of that batch the first pass marks no
replacement. -/
theorem run_idempotent (lib : Lib) (config : Config) (ld : Logs) (n m : Nat) :
    (run lib config (run lib config ld n).1 m).1 = (run lib config ld n).1 ∧
    ∀ rl ∈ (run lib config ld n).1.resourceLogs, ∀ sl ∈ rl.scopeLogs,
      ∀ (counts : Counts) (m1 : Nat),
        (firstPass lib (newOpenReports lib config) rl.resource sl sl.logRecords 0
          { replacements := [], replacementIndices := [], counts := counts,
            rand := m1 }).replacements = [] := by
  have hinert := rewriteResources_inert lib config ld.resourceLogs n
  have hout : (run lib config ld n).1 =
      { resourceLogs := rewriteResources lib (newOpenReports lib config) ld.resourceLogs n } := by
    simp only [run, processLogs_eq]
  rw [hout]
  constructor
  · simp only [run, processLogs_eq]
    rw [rewriteResources_fixed lib config _ m hinert]
  · intro rl hrl sl hsl counts m1
    rw [firstPass_eq]
    simp only [List.nil_append]
    exact (scopeTrace_inert lib config rl.resource sl sl.logRecords m1
      (hinert rl hrl sl hsl)).1

/-! ### The result set of a record -/

theorem selectedResults_skip (lib : Lib) (config : openreports.Config) (a b : List String)
    (bad : String) (h : lib.unmarshalResult bad = none) :
    selectedResults lib config (a ++ bad :: b) = selectedResults lib config (a ++ b) := by
  simp [selectedResults, List.filterMap_append, List.filterMap_cons, h]

theorem selectedResults_length_le (lib : Lib) (config : openreports.Config) (raw : List String) :
    (selectedResults lib config raw).length ≤ raw.length := by
  unfold selectedResults
  exact Nat.le_trans (List.length_filter_le _ _) (List.length_filterMap_le _ _)

open openreports in
/-- C9. For a record the detector accepts whose "results" attribute is a list,
`ProcessLogRecord` returns, without error, exactly one event per element whose
string form decodes as a result with a status the filter allows, in the order
of the elements; an element that does not decode contributes no event and the
events are those of the list without it. -/
theorem ProcessLogRecord_list (lib : Lib) (config : openreports.Config) (r : LogRecord)
    (resource : Resource) (scopeLogs : ScopeLogs) (n : Nat) (xs : List Value)
    (hd : isOpenReportsLog lib r = true)
    (hr : Map.Get r.attributes "results" = some (Value.slice xs)) :
    ProcessLogRecord lib config r resource scopeLogs n =
      (Except.ok (eventsFor lib r
        (selectedResults lib config (xs.map (Value.AsString lib))) n),
       n + 2 * (selectedResults lib config (xs.map (Value.AsString lib))).length) ∧
    (eventsFor lib r (selectedResults lib config (xs.map (Value.AsString lib))) n).length =
      ((xs.map (Value.AsString lib)).filter (fun raw =>
        match lib.unmarshalResult raw with
        | some result => isStatusAllowed config result.Result
        | none => false)).length ∧
    (∀ (a b : List String) (bad : String), xs.map (Value.AsString lib) = a ++ bad :: b →
      lib.unmarshalResult bad = none →
      eventsFor lib r (selectedResults lib config (xs.map (Value.AsString lib))) n =
        eventsFor lib r (selectedResults lib config (a ++ b)) n) := by
  have hraw : rawResults lib r.attributes = xs.map (Value.AsString lib) := by
    simp [rawResults, hr, resultsArrayOf]
  refine ⟨?_, ?_, ?_⟩
  · rw [ProcessLogRecord_detected lib config r resource scopeLogs n hd, hraw]
  · rw [eventsFor_length]
    generalize xs.map (Value.AsString lib) = raw
    induction raw with
    | nil => rfl
    | cons x rest ih =>
      cases hx : lib.unmarshalResult x with
      | none =>
        have h1 : selectedResults lib config (x :: rest) = selectedResults lib config rest := by
          simp [selectedResults, List.filterMap_cons, hx]
        rw [h1, ih, List.filter_cons]
        simp [hx]
      | some result =>
        by_cases hallow : isStatusAllowed config result.Result = true
        · have h1 : selectedResults lib config (x :: rest) =
              result :: selectedResults lib config rest := by
            simp [selectedResults, List.filterMap_cons, hx, hallow]
          rw [h1, List.filter_cons]
          simp [hx, hallow, ih]
        · have h1 : selectedResults lib config (x :: rest) = selectedResults lib config rest := by
            simp [selectedResults, List.filterMap_cons, hx, hallow]
          rw [h1, ih, List.filter_cons]
          simp [hx, hallow]
  · intro a b bad hsplit hbad
    rw [hsplit, selectedResults_skip lib config a b bad hbad]

/-- Witness for C9: without status filter, the report with the elements "fail",
"bad" (which does not decode) and "pass" yields two events and no error. -/
theorem ProcessLogRecord_list_witness :
    isOpenReportsLog libDemo
      (reportRecord (Value.slice [Value.str "fail", Value.str "bad", Value.str "pass"])) = true ∧
    (∃ events, (openreports.ProcessLogRecord libDemo openConfig
      (reportRecord (Value.slice [Value.str "fail", Value.str "bad", Value.str "pass"]))
      demoResourceLogs.resource demoScope 0) = (Except.ok events, 4) ∧ events.length = 2) := by
  have hd : isOpenReportsLog libDemo
      (reportRecord (Value.slice [Value.str "fail", Value.str "bad", Value.str "pass"])) = true := by
    decide
  obtain ⟨h1, h2, _⟩ := ProcessLogRecord_list libDemo openConfig
    (reportRecord (Value.slice [Value.str "fail", Value.str "bad", Value.str "pass"]))
    demoResourceLogs.resource demoScope 0
    [Value.str "fail", Value.str "bad", Value.str "pass"] hd rfl
  refine ⟨hd, _, h1, ?_⟩
  rw [h2]
  rfl

open openreports in
/-- C10. For a record the detector accepts whose "results" attribute is a
single string `s`: when `s` decodes as a JSON array of strings, the raw results
the loop processes are exactly the decoded elements in order; when it does not,
they are exactly the one-element sequence `[s]`. -/
theorem ProcessLogRecord_string (lib : Lib) (config : openreports.Config) (r : LogRecord)
    (resource : Resource) (scopeLogs : ScopeLogs) (n : Nat) (s : String)
    (hd : isOpenReportsLog lib r = true)
    (hr : Map.Get r.attributes "results" = some (Value.str s)) :
    (∀ arr, lib.unmarshalStrings s = some arr →
      resultsArrayOf lib (Value.str s) = some arr ∧
      ProcessLogRecord lib config r resource scopeLogs n =
        (Except.ok (processResults lib config r (metadataOf lib r.attributes) r.attributes
            arr [] n).1,
         (processResults lib config r (metadataOf lib r.attributes) r.attributes arr [] n).2)) ∧
    (lib.unmarshalStrings s = none →
      resultsArrayOf lib (Value.str s) = some [s] ∧
      ProcessLogRecord lib config r resource scopeLogs n =
        (Except.ok (processResults lib config r (metadataOf lib r.attributes) r.attributes
            [s] [] n).1,
         (processResults lib config r (metadataOf lib r.attributes) r.attributes [s] [] n).2)) := by
  have key : ∀ arr, resultsArrayOf lib (Value.str s) = some arr →
      ProcessLogRecord lib config r resource scopeLogs n =
        (Except.ok (processResults lib config r (metadataOf lib r.attributes) r.attributes
            arr [] n).1,
         (processResults lib config r (metadataOf lib r.attributes) r.attributes arr [] n).2) := by
    intro arr harr
    have hraw : rawResults lib r.attributes = arr := by
      simp [rawResults, hr, harr]
    rw [ProcessLogRecord_detected lib config r resource scopeLogs n hd, hraw, processResults_eq]
    simp
  constructor
  · intro arr harr
    have h : resultsArrayOf lib (Value.str s) = some arr := by simp [resultsArrayOf, harr]
    exact ⟨h, key arr h⟩
  · intro hnone
    have h : resultsArrayOf lib (Value.str s) = some [s] := by simp [resultsArrayOf, hnone]
    exact ⟨h, key [s] h⟩

/-- Witness for C10: the string "two" decodes to the array of "fail" and
"pass" and yields two events; the string "fail" is no array and is processed as
the single raw result "fail". -/
theorem ProcessLogRecord_string_witness :
    isOpenReportsLog libDemo (reportRecord (Value.str "two")) = true ∧
    libDemo.unmarshalStrings "two" = some ["fail", "pass"] ∧
    openreports.resultsArrayOf libDemo (Value.str "two") = some ["fail", "pass"] ∧
    (openreports.ProcessLogRecord libDemo openConfig (reportRecord (Value.str "two"))
      demoResourceLogs.resource demoScope 0).2 = 4 := by
  have hd : isOpenReportsLog libDemo (reportRecord (Value.str "two")) = true := by decide
  have harr : libDemo.unmarshalStrings "two" = some ["fail", "pass"] := by decide
  obtain ⟨h1, h2⟩ := (ProcessLogRecord_string libDemo openConfig (reportRecord (Value.str "two"))
    demoResourceLogs.resource demoScope 0 "two" hd rfl).1 _ harr
  refine ⟨hd, harr, h1, ?_⟩
  rw [h2]
  rfl

/-! ### Records without results -/

open openreports in
theorem rawResults_of_other_type (lib : Lib) (attrs : Map) (v : Value)
    (h : Map.Get attrs "results" = some v) (hs : ∀ xs, v ≠ Value.slice xs)
    (ht : ∀ s, v ≠ Value.str s) : rawResults lib attrs = [] := by
  cases v with
  | slice xs => exact absurd rfl (hs xs)
  | str s => exact absurd rfl (ht s)
  | empty => simp [rawResults, h, resultsArrayOf]
  | int i => simp [rawResults, h, resultsArrayOf]
  | double d => simp [rawResults, h, resultsArrayOf]
  | bool b => simp [rawResults, h, resultsArrayOf]
  | bytes b => simp [rawResults, h, resultsArrayOf]
  | map kvs => simp [rawResults, h, resultsArrayOf]

open openreports in
/-- C11. `ProcessLogRecord` returns no records and no error when the detector
rejects the record, when the "results" attribute is absent, when it is an empty
list, or when its value is neither a list nor a string. -/
theorem ProcessLogRecord_nothing (lib : Lib) (config : openreports.Config) (r : LogRecord)
    (resource : Resource) (scopeLogs : ScopeLogs) (n : Nat)
    (h : isOpenReportsLog lib r = false ∨
         Map.Get r.attributes "results" = none ∨
         Map.Get r.attributes "results" = some (Value.slice []) ∨
         (∃ v, Map.Get r.attributes "results" = some v ∧ (∀ xs, v ≠ Value.slice xs) ∧
           (∀ s, v ≠ Value.str s))) :
    ProcessLogRecord lib config r resource scopeLogs n = (Except.ok [], n) := by
  by_cases hd : isOpenReportsLog lib r = true
  · have hraw : rawResults lib r.attributes = [] := by
      rcases h with h | h | h | ⟨v, hv, hs, ht⟩
      · rw [hd] at h; cases h
      · exact rawResults_absent lib r.attributes h
      · simp [rawResults, h, resultsArrayOf]
      · exact rawResults_of_other_type lib r.attributes v hv hs ht
    rw [ProcessLogRecord_detected lib config r resource scopeLogs n hd, hraw]
    rfl
  · exact ProcessLogRecord_not_detected lib config r resource scopeLogs n (by simpa using hd)

/-- Witness for C11: a pod record, a report without results, a report with an
empty list and a report whose results attribute is an integer all yield no
record and no error. -/
theorem ProcessLogRecord_nothing_witness :
    openreports.ProcessLogRecord libDemo openConfig podRecord demoResourceLogs.resource
      demoScope 0 = (Except.ok [], 0) ∧
    openreports.ProcessLogRecord libDemo openConfig reportWithoutResults
      demoResourceLogs.resource demoScope 0 = (Except.ok [], 0) ∧
    openreports.ProcessLogRecord libDemo openConfig (reportRecord (Value.slice []))
      demoResourceLogs.resource demoScope 0 = (Except.ok [], 0) ∧
    openreports.ProcessLogRecord libDemo openConfig (reportRecord (Value.int 5))
      demoResourceLogs.resource demoScope 0 = (Except.ok [], 0) :=
  ⟨ProcessLogRecord_nothing libDemo openConfig podRecord _ _ 0 (Or.inl (by decide)),
   ProcessLogRecord_nothing libDemo openConfig reportWithoutResults _ _ 0 (Or.inr (Or.inl rfl)),
   ProcessLogRecord_nothing libDemo openConfig (reportRecord (Value.slice [])) _ _ 0
     (Or.inr (Or.inr (Or.inl rfl))),
   ProcessLogRecord_nothing libDemo openConfig (reportRecord (Value.int 5)) _ _ 0
     (Or.inr (Or.inr (Or.inr ⟨Value.int 5, rfl, (by intro xs h; cases h),
       (by intro t h; cases h)⟩)))⟩

/-! ### The status filter -/

open openreports in
theorem statusInFilter_iff (status : String) (filter : List String) :
    statusInFilter status filter = true ↔ status ∈ filter := by
  induction filter with
  | nil => simp [statusInFilter]
  | cons a rest ih =>
    by_cases h : status = a
    · simp [statusInFilter, h]
    · simp [statusInFilter, h, ih]

open openreports in
theorem isStatusAllowed_iff_mem (config : openreports.Config) (status : String) :
    isStatusAllowed config status = true ↔
      (config.StatusFilter = [] ∨ status ∈ config.StatusFilter) := by
  unfold isStatusAllowed
  cases hf : config.StatusFilter with
  | nil => simp
  | cons a rest =>
    rw [if_neg (by simp), statusInFilter_iff]
    simp

open openreports in
/-- C12. The status filter allows a status exactly when the configured list is
empty or holds a string equal to the status (so "Fail" and " fail" are rejected
by the filter ["fail"], and "fail" is allowed); and the results loop of
`ProcessLogRecord` emits an event for a decoded result exactly when the filter
allows its status: the events are those of the decoded results that the filter
allows, in order, and a single decoded result yields one event when allowed and
none otherwise. -/
theorem isStatusAllowed_spec (lib : Lib) (config : openreports.Config) (status : String)
    (r : LogRecord) (resource : Resource) (scopeLogs : ScopeLogs) (raw : List String)
    (n : Nat) :
    (isStatusAllowed config status = true ↔
      (config.StatusFilter = [] ∨ status ∈ config.StatusFilter)) ∧
    isStatusAllowed { Enabled := true, StatusFilter := ["fail"] } "fail" = true ∧
    isStatusAllowed { Enabled := true, StatusFilter := ["fail"] } "Fail" = false ∧
    isStatusAllowed { Enabled := true, StatusFilter := ["fail"] } " fail" = false ∧
    (processResults lib config r (metadataOf lib r.attributes) r.attributes raw [] n).1 =
      eventsFor lib r
        ((raw.filterMap lib.unmarshalResult).filter
          (fun result => isStatusAllowed config result.Result)) n ∧
    (∀ x result, lib.unmarshalResult x = some result →
      (processResults lib config r (metadataOf lib r.attributes) r.attributes [x] [] n).1.length =
        if isStatusAllowed config result.Result = true then 1 else 0) ∧
    (isOpenReportsLog lib r = true →
      (ProcessLogRecord lib config r resource scopeLogs n).1 =
        Except.ok (eventsFor lib r
          (((rawResults lib r.attributes).filterMap lib.unmarshalResult).filter
            (fun result => isStatusAllowed config result.Result)) n)) := by
  refine ⟨isStatusAllowed_iff_mem config status, by decide, by decide, by decide, ?_, ?_, ?_⟩
  · rw [processResults_eq]
    simp [selectedResults]
  · intro x result hx
    rw [processResults_eq]
    simp only [List.nil_append, eventsFor_length, selectedResults, List.filterMap_cons, hx,
      List.filterMap_nil, List.filter_cons, List.filter_nil]
    split <;> rfl
  · intro hd
    rw [ProcessLogRecord_detected lib config r resource scopeLogs n hd]
    rfl

/-! ### Lookups in the produced event -/

theorem Map.Get_Put (m : Map) (k key : String) (v : Value) :
    Map.Get (Map.Put m k v) key = if k = key then some v else Map.Get m key := by
  by_cases h : k = key
  · subst h; simp [Map.Get_Put_self]
  · simp [h, Map.Get_Put_ne _ _ _ _ h]

theorem Map.Get_PutIf (m : Map) (k key : String) (v : Value) (c : Prop) [Decidable c] :
    Map.Get (Map.PutIf c m k v) key = if c ∧ k = key then some v else Map.Get m key := by
  unfold Map.PutIf
  by_cases hc : c
  · simp [hc, Map.Get_Put]
  · simp [hc]

open openreports in
/-- The risk level written by `transformToSecurityEvent`. -/
theorem Get_event_riskLevel (lib : Lib) (logRecord : LogRecord) (result : Result)
    (metadata : Metadata) (originalAttrs : Map) (n : Nat) :
    Map.Get (transformToSecurityEvent lib logRecord result metadata originalAttrs n).1.attributes
      "dt.security.risk.level" = some (Value.str (mapSeverityToRiskLevel result.Severity)) := by
  unfold transformToSecurityEvent
  simp only []
  rw [Get_copyK8sFields _ _ _ _ (by decide)]
  simp [securityEventAttrs, Map.Get_Put, Map.Get_PutIf]

open openreports in
/-- The severity written by `transformToSecurityEvent`: the raw severity of the
result when it is not empty, nothing otherwise. -/
theorem Get_event_severity (lib : Lib) (logRecord : LogRecord) (result : Result)
    (metadata : Metadata) (originalAttrs : Map) (n : Nat) :
    Map.Get (transformToSecurityEvent lib logRecord result metadata originalAttrs n).1.attributes
      "finding.severity" =
      if result.Severity ≠ "" then some (Value.str result.Severity)
      else Map.Get logRecord.attributes "finding.severity" := by
  unfold transformToSecurityEvent
  simp only []
  rw [Get_copyK8sFields _ _ _ _ (by decide)]
  simp [securityEventAttrs, Map.Get_Put, Map.Get_PutIf]

open openreports in
/-- The compliance status written by `transformToSecurityEvent`. -/
theorem Get_event_complianceStatus (lib : Lib) (logRecord : LogRecord) (result : Result)
    (metadata : Metadata) (originalAttrs : Map) (n : Nat) :
    Map.Get (transformToSecurityEvent lib logRecord result metadata originalAttrs n).1.attributes
      "compliance.status" = some (Value.str (mapResultToComplianceStatus result.Result)) := by
  unfold transformToSecurityEvent
  simp only []
  rw [Get_copyK8sFields _ _ _ _ (by decide)]
  simp [securityEventAttrs, Map.Get_Put, Map.Get_PutIf]

open openreports in
/-- The creation time written by `transformToSecurityEvent`. -/
theorem Get_event_timeCreated (lib : Lib) (logRecord : LogRecord) (result : Result)
    (metadata : Metadata) (originalAttrs : Map) (n : Nat) :
    Map.Get (transformToSecurityEvent lib logRecord result metadata originalAttrs n).1.attributes
      "finding.time.created" =
      if result.Timestamp.Seconds > 0 then
        some (Value.str (lib.formatRFC3339Nano result.Timestamp.Seconds result.Timestamp.Nanos))
      else Map.Get logRecord.attributes "finding.time.created" := by
  unfold transformToSecurityEvent
  simp only []
  rw [Get_copyK8sFields _ _ _ _ (by decide)]
  simp [securityEventAttrs, Map.Get_Put, Map.Get_PutIf]

/-! ### Severity, risk level, risk score and compliance status -/

open openreports in
/-- C13 (evaluation at the failing input). On the inputs of the severity test
(metadata with the scope name "test", no source attributes) the event of a
result with severity "critical" carries `finding.severity` "critical", the raw
value, where the label is "CRITICAL"; likewise "unknown" and "Critical" are
written as they are, where the label is "MEDIUM". -/
theorem finding_severity_raw :
    Map.Get (transformToSecurityEvent libDemo NewLogRecord (demoResult "" "critical" 0 0)
      [("scope.name", "test")] [] 0).1.attributes "finding.severity"
      = some (Value.str "critical") ∧
    mapSeverityToRiskLevel "critical" = "CRITICAL" ∧
    Map.Get (transformToSecurityEvent libDemo NewLogRecord (demoResult "" "unknown" 0 0)
      [("scope.name", "test")] [] 0).1.attributes "finding.severity"
      = some (Value.str "unknown") ∧
    mapSeverityToRiskLevel "unknown" = "MEDIUM" ∧
    Map.Get (transformToSecurityEvent libDemo NewLogRecord (demoResult "" "Critical" 0 0)
      [("scope.name", "test")] [] 0).1.attributes "finding.severity"
      = some (Value.str "Critical") ∧
    mapSeverityToRiskLevel "Critical" = "MEDIUM" := by
  refine ⟨?_, by decide, ?_, by decide, ?_, by decide⟩ <;>
    (rw [Get_event_severity]; rfl)

open openreports in
/-- C14 (evaluation at the failing input). `mapResultToComplianceStatus`
returns "PASSED" for "pass", "FAILED" for "fail", "MANUAL" for "error",
"NOT_RELEVANT" for "skip" and "MANUAL" for "unknown" and the empty string, and
the event of a result with status "pass" carries `compliance.status` "PASSED". -/
theorem mapResultToComplianceStatus_values :
    mapResultToComplianceStatus "pass" = "PASSED" ∧
    mapResultToComplianceStatus "fail" = "FAILED" ∧
    mapResultToComplianceStatus "error" = "MANUAL" ∧
    mapResultToComplianceStatus "skip" = "NOT_RELEVANT" ∧
    mapResultToComplianceStatus "unknown" = "MANUAL" ∧
    mapResultToComplianceStatus "" = "MANUAL" ∧
    Map.Get (transformToSecurityEvent libDemo NewLogRecord (demoResult "pass" "" 0 0)
      [("scope.name", "test")] [] 0).1.attributes "compliance.status"
      = some (Value.str "PASSED") := by
  refine ⟨by decide, by decide, by decide, by decide, by decide, by decide, ?_⟩
  rw [Get_event_complianceStatus]
  rfl

open openreports in
/-- C15. `mapSeverityToRiskLevel` maps "critical" to "CRITICAL", "high" to
"HIGH", "medium" to "MEDIUM", "low" to "LOW" and every other string (such as
"Critical" and the empty string) to "MEDIUM"; and the event produced for a
result always carries `dt.security.risk.level` with this value of the severity
of the result. -/
theorem mapSeverityToRiskLevel_spec (lib : Lib) (logRecord : LogRecord) (result : Result)
    (metadata : Metadata) (originalAttrs : Map) (n : Nat) (severity : String) :
    mapSeverityToRiskLevel "critical" = "CRITICAL" ∧
    mapSeverityToRiskLevel "high" = "HIGH" ∧
    mapSeverityToRiskLevel "medium" = "MEDIUM" ∧
    mapSeverityToRiskLevel "low" = "LOW" ∧
    mapSeverityToRiskLevel "Critical" = "MEDIUM" ∧
    mapSeverityToRiskLevel "" = "MEDIUM" ∧
    (severity ∉ ["critical", "high", "medium", "low"] →
      mapSeverityToRiskLevel severity = "MEDIUM") ∧
    Map.Get (transformToSecurityEvent lib logRecord result metadata originalAttrs n).1.attributes
      "dt.security.risk.level" = some (Value.str (mapSeverityToRiskLevel result.Severity)) := by
  refine ⟨by decide, by decide, by decide, by decide, by decide, by decide, ?_,
    Get_event_riskLevel lib logRecord result metadata originalAttrs n⟩
  intro h
  simp only [List.mem_cons, List.mem_singleton, List.not_mem_nil, or_false, not_or] at h
  obtain ⟨h1, h2, h3, h4⟩ := h
  simp [mapSeverityToRiskLevel, h1, h2, h3, h4]

open openreports in
/-- C16. `calculateRiskScore` maps "CRITICAL" to 10.0, "HIGH" to 8.9, "MEDIUM"
to 6.9, "LOW" to 3.9 (the doubles nearest to these decimals, given by their bit
patterns) and every other string, such as "critical" and the empty string, to
0.0. -/
theorem calculateRiskScore_spec (riskLevel : String) :
    calculateRiskScore "CRITICAL" = f64_10_0 ∧ f64_10_0.bits = 0x4024000000000000 ∧
    calculateRiskScore "HIGH" = f64_8_9 ∧ f64_8_9.bits = 0x4021CCCCCCCCCCCD ∧
    calculateRiskScore "MEDIUM" = f64_6_9 ∧ f64_6_9.bits = 0x401B99999999999A ∧
    calculateRiskScore "LOW" = f64_3_9 ∧ f64_3_9.bits = 0x400F333333333333 ∧
    calculateRiskScore "critical" = f64_0_0 ∧
    calculateRiskScore "" = f64_0_0 ∧ f64_0_0.bits = 0 ∧
    (riskLevel ∉ ["CRITICAL", "HIGH", "MEDIUM", "LOW"] →
      calculateRiskScore riskLevel = f64_0_0) := by
  refine ⟨by decide, rfl, by decide, rfl, by decide, rfl, by decide, rfl, by decide,
    by decide, rfl, ?_⟩
  intro h
  simp only [List.mem_cons, List.mem_singleton, List.not_mem_nil, or_false, not_or] at h
  obtain ⟨h1, h2, h3, h4⟩ := h
  simp [calculateRiskScore, h1, h2, h3, h4]

/-! ### The timestamp of the event -/

open openreports in
/-- C20 (counterexample). For the result with seconds 20000000000 and nanos 0
the instant is 2 * 10^19 nanoseconds after the epoch, which is not the timestamp
of the event: the timestamp is 1553255926290448384. -/
theorem event_timestamp_counterexample :
    (demoResult "" "" 20000000000 0).Timestamp.Seconds > 0 ∧
    (transformToSecurityEvent libDemo (newRecordFrom NewLogRecord)
      (demoResult "" "" 20000000000 0) [] [] 0).1.timestamp = 1553255926290448384 ∧
    (transformToSecurityEvent libDemo (newRecordFrom NewLogRecord)
      (demoResult "" "" 20000000000 0) [] [] 0).1.timestamp ≠
        20000000000 * 1000000000 + 0 := by
  refine ⟨by decide, by decide, by decide⟩

open openreports in
/-- C20 (amended). For every result and source record: when the seconds of the
result are strictly positive, the timestamp of the event is
`(seconds * 10^9 + nanos) mod 2^64`, which is the instant `seconds * 10^9 +
nanos` nanoseconds after the epoch whenever that number lies in `[0, 2^64)`, and
`finding.time.created` is present; when the seconds are zero or negative, the
timestamp of the event is the timestamp of the source record and
`finding.time.created` is absent. -/
theorem event_timestamp (lib : Lib) (r : LogRecord) (result : Result)
    (metadata : Metadata) (originalAttrs : Map) (n : Nat) :
    (result.Timestamp.Seconds > 0 →
      (transformToSecurityEvent lib (newRecordFrom r) result metadata originalAttrs n).1.timestamp
        = ((result.Timestamp.Seconds * 10 ^ 9 + result.Timestamp.Nanos) % 2 ^ 64).toNat ∧
      (0 ≤ result.Timestamp.Seconds * 10 ^ 9 + result.Timestamp.Nanos →
        result.Timestamp.Seconds * 10 ^ 9 + result.Timestamp.Nanos < 2 ^ 64 →
        ((transformToSecurityEvent lib (newRecordFrom r) result metadata originalAttrs
            n).1.timestamp : Int)
          = result.Timestamp.Seconds * 10 ^ 9 + result.Timestamp.Nanos) ∧
      Map.Get (transformToSecurityEvent lib (newRecordFrom r) result metadata originalAttrs
          n).1.attributes "finding.time.created"
        = some (Value.str
            (lib.formatRFC3339Nano result.Timestamp.Seconds result.Timestamp.Nanos))) ∧
    (result.Timestamp.Seconds ≤ 0 →
      (transformToSecurityEvent lib (newRecordFrom r) result metadata originalAttrs n).1.timestamp
        = r.timestamp ∧
      Map.Get (transformToSecurityEvent lib (newRecordFrom r) result metadata originalAttrs
          n).1.attributes "finding.time.created" = none) := by
  have hts : (transformToSecurityEvent lib (newRecordFrom r) result metadata originalAttrs
      n).1.timestamp =
      if result.Timestamp.Seconds > 0 then
        timestampFromUnix result.Timestamp.Seconds result.Timestamp.Nanos
      else r.timestamp := rfl
  constructor
  · intro hpos
    have h1 : (transformToSecurityEvent lib (newRecordFrom r) result metadata originalAttrs
        n).1.timestamp
        = ((result.Timestamp.Seconds * 10 ^ 9 + result.Timestamp.Nanos) % 2 ^ 64).toNat := by
      rw [hts, if_pos hpos]
      rfl
    refine ⟨h1, ?_, ?_⟩
    · intro h0 hlt
      rw [h1, Int.emod_eq_of_lt h0 hlt, Int.toNat_of_nonneg h0]
    · rw [Get_event_timeCreated, if_pos hpos]
  · intro hle
    have hneg : ¬ result.Timestamp.Seconds > 0 := by omega
    refine ⟨?_, ?_⟩
    · rw [hts, if_neg hneg]
    · rw [Get_event_timeCreated, if_neg hneg]
      rfl

open openreports in
/-- Witness for C20: for the result with seconds 1758264662 and nanos 500000000
the timestamp of the event is 1758264662500000000, and for the result with
seconds 0 and nanos 5 it is the timestamp of the source record. -/
theorem event_timestamp_witness :
    (transformToSecurityEvent libDemo (newRecordFrom podRecord)
      (demoResult "fail" "" 1758264662 500000000) [] [] 0).1.timestamp = 1758264662500000000 ∧
    (transformToSecurityEvent libDemo (newRecordFrom podRecord)
      (demoResult "fail" "" 0 5) [] [] 0).1.timestamp = podRecord.timestamp ∧
    Map.Get (transformToSecurityEvent libDemo (newRecordFrom podRecord)
      (demoResult "fail" "" 0 5) [] [] 0).1.attributes "finding.time.created" = none := by
  have h1 := (event_timestamp libDemo podRecord (demoResult "fail" "" 1758264662 500000000)
    [] [] 0).1 (by decide)
  have h2 := (event_timestamp libDemo podRecord (demoResult "fail" "" 0 5) [] [] 0).2
    (by decide)
  refine ⟨?_, h2.1, h2.2⟩
  rw [h1.1]
  decide

/-! ### Workload resolution -/

open openreports in
/-- The owner-reference loop, read on the first workload reference. -/
theorem scanOwnerRefs_eq (lib : Lib) :
    ∀ (refs : List String) (info : workloadInfo),
      scanOwnerRefs lib refs info =
        match firstWorkloadRef lib refs with
        | none => info
        | some ownerRef =>
          { name := (jsonAsString (jsonLookup ownerRef "name")).getD info.name,
            kind := refString ownerRef "kind",
            namespace_ := info.namespace_,
            uid := (jsonAsString (jsonLookup ownerRef "uid")).getD info.uid } := by
  intro refs
  induction refs with
  | nil => intro info; rfl
  | cons a rest ih =>
    intro info
    cases hobj : lib.unmarshalObject a with
    | none => simp [scanOwnerRefs, firstWorkloadRef, workloadRef?, hobj, ih]
    | some ownerRef =>
      cases hkind : jsonAsString (jsonLookup ownerRef "kind") with
      | none => simp [scanOwnerRefs, firstWorkloadRef, workloadRef?, hobj, hkind, ih]
      | some kind =>
        by_cases hw : isWorkloadKind kind = true
        · cases hname : jsonAsString (jsonLookup ownerRef "name") <;>
            cases huid : jsonAsString (jsonLookup ownerRef "uid") <;>
            simp [scanOwnerRefs, firstWorkloadRef, workloadRef?, hobj, hkind, hw, hname, huid,
              refString]
        · simp [scanOwnerRefs, firstWorkloadRef, workloadRef?, hobj, hkind, hw, ih]

open openreports in
theorem joinWorkloadName_go : ∀ (parts : List String) (i : Nat) (acc : String), i > 0 →
    joinWorkloadName parts i acc = String.intercalate.go acc "-" parts := by
  intro parts
  induction parts with
  | nil => intro i acc _; rfl
  | cons p rest ih =>
    intro i acc hi
    simp only [joinWorkloadName, hi, if_true, String.intercalate.go]
    exact ih (i + 1) _ (Nat.succ_pos i)

open openreports in
/-- The joining loop of `extractWorkloadInfo` joins the parts with hyphens. -/
theorem joinWorkloadName_eq (parts : List String) :
    joinWorkloadName parts 0 "" = String.intercalate "-" parts := by
  cases parts with
  | nil => rfl
  | cons p rest =>
    simp only [joinWorkloadName, Nat.lt_irrefl, if_false, gt_iff_lt, String.intercalate]
    rw [joinWorkloadName_go rest 1 _ Nat.one_pos, String.empty_append]

theorem intercalate_go_length (s : String) : ∀ (l : List String) (acc : String),
    acc.length ≤ (String.intercalate.go acc s l).length := by
  intro l
  induction l with
  | nil => intro acc; exact Nat.le_refl _
  | cons a rest ih =>
    intro acc
    simp only [String.intercalate.go]
    refine Nat.le_trans ?_ (ih _)
    simp only [String.length_append]
    omega

theorem length_pos_of_ne_empty (s : String) (h : s ≠ "") : 0 < s.length := by
  rcases s with ⟨data⟩
  cases data with
  | nil => exact absurd rfl h
  | cons c cs => simp [String.length]

theorem intercalate_ne_empty (s p : String) (rest : List String) (h : p ≠ "") :
    String.intercalate s (p :: rest) ≠ "" := by
  intro h0
  have h1 := intercalate_go_length s rest p
  have h2 := length_pos_of_ne_empty p h
  simp only [String.intercalate] at h0
  rw [h0] at h1
  simp at h1
  omega

open openreports in
theorem splitPodNameLoop_ne_empty : ∀ (chars : List Char) (parts : List String)
    (current : String), (∀ p ∈ parts, p ≠ "") →
    ∀ p ∈ (splitPodNameLoop chars parts current).1, p ≠ "" := by
  intro chars
  induction chars with
  | nil => intro parts current h; exact h
  | cons c rest ih =>
    intro parts current h
    simp only [splitPodNameLoop]
    split
    · split
      · rename_i hcur
        apply ih
        intro p hp
        rcases List.mem_append.1 hp with hp | hp
        · exact h p hp
        · rw [List.mem_singleton.1 hp]; exact hcur
      · exact ih _ _ h
    · exact ih _ _ h

open openreports in
/-- No token of `splitPodName` is empty. -/
theorem splitPodName_ne_empty (podName : String) : ∀ p ∈ splitPodName podName, p ≠ "" := by
  intro p hp
  unfold splitPodName at hp
  simp only [] at hp
  have hloop := splitPodNameLoop_ne_empty podName.data [] "" (by simp)
  split at hp
  · rename_i hcur
    rcases List.mem_append.1 hp with hp | hp
    · exact hloop p hp
    · rw [List.mem_singleton.1 hp]; exact hcur
  · exact hloop p hp

open openreports in
theorem inferredName_eq_empty (podName : String)
    (h : (splitPodName podName).length ≤ 2) : inferredName podName = "" := by
  unfold inferredName
  have h0 : (splitPodName podName).length - 2 = 0 := by omega
  rw [h0]
  rfl

open openreports in
theorem inferredName_ne_empty (podName : String)
    (h : 3 ≤ (splitPodName podName).length) : inferredName podName ≠ "" := by
  unfold inferredName
  cases hs : splitPodName podName with
  | nil => rw [hs] at h; simp at h
  | cons p rest =>
    have hp : p ≠ "" := splitPodName_ne_empty podName p (by rw [hs]; exact List.mem_cons_self _ _)
    rw [hs] at h
    simp only [List.length_cons] at h ⊢
    have hk : rest.length + 1 - 2 = (rest.length - 2) + 1 := by omega
    rw [hk, List.take_succ_cons]
    exact intercalate_ne_empty "-" p _ hp

open openreports in
/-- Workload resolution, read on the owner-reference loop and the inferred
name: the name is inferred exactly when the loop left it empty and the pod name
has a token before its trailing two. -/
theorem extractWorkloadInfo_eq (lib : Lib) (attrs : Map) (podName namespace_ : String) :
    extractWorkloadInfo lib attrs podName namespace_ =
      if (scanOwnerRefs lib (ownerRefsOf lib attrs)
            { name := "", kind := "", namespace_ := namespace_, uid := "" }).name = "" ∧
          inferredName podName ≠ "" then
        { scanOwnerRefs lib (ownerRefsOf lib attrs)
            { name := "", kind := "", namespace_ := namespace_, uid := "" } with
          name := inferredName podName,
          kind :=
            if (scanOwnerRefs lib (ownerRefsOf lib attrs)
                { name := "", kind := "", namespace_ := namespace_, uid := "" }).kind = "" then
              "Deployment"
            else
              (scanOwnerRefs lib (ownerRefsOf lib attrs)
                { name := "", kind := "", namespace_ := namespace_, uid := "" }).kind }
      else
        scanOwnerRefs lib (ownerRefsOf lib attrs)
          { name := "", kind := "", namespace_ := namespace_, uid := "" } := by
  have hscan : (match Map.Get attrs "metadata.ownerReferences" with
      | some ownerRefsVal => scanOwnerRefs lib (ownerRefStrings lib ownerRefsVal)
          { name := "", kind := "", namespace_ := namespace_, uid := "" }
      | none => ({ name := "", kind := "", namespace_ := namespace_, uid := "" } : workloadInfo))
      = scanOwnerRefs lib (ownerRefsOf lib attrs)
          { name := "", kind := "", namespace_ := namespace_, uid := "" } := by
    unfold ownerRefsOf
    cases Map.Get attrs "metadata.ownerReferences" <;> rfl
  unfold extractWorkloadInfo
  simp only [hscan, joinWorkloadName_eq]
  generalize scanOwnerRefs lib (ownerRefsOf lib attrs)
    { name := "", kind := "", namespace_ := namespace_, uid := "" } = info
  have hinf : inferredName podName = String.intercalate "-"
      ((splitPodName podName).take ((splitPodName podName).length - 2)) := rfl
  by_cases hname : info.name = ""
  · by_cases hpod : podName = ""
    · subst hpod
      have h0 : inferredName "" = "" := rfl
      simp [hname, h0]
    · by_cases hlen : (splitPodName podName).length ≥ 2
      · by_cases hw : inferredName podName = ""
        · rw [hinf] at hw
          simp [hname, hpod, hlen, hw, hinf]
        · have hw1 := hw
          rw [hinf] at hw1
          simp [hname, hpod, hlen, hw1, hinf]
      · have h0 : inferredName podName = "" := inferredName_eq_empty podName (by omega)
        simp [hname, hpod, hlen, h0]
  · simp [hname]

theorem firstWorkloadRef_append (lib : Lib) (s : String) (post : List String)
    (o : List (String × JsonAny)) (hs : workloadRef? lib s = some o) :
    ∀ pre : List String, (∀ x ∈ pre, workloadRef? lib x = none) →
      firstWorkloadRef lib (pre ++ s :: post) = some o := by
  intro pre
  induction pre with
  | nil => intro _; simp [firstWorkloadRef, hs]
  | cons a rest ih =>
    intro h
    have ha := h a (List.mem_cons_self _ _)
    simp only [List.cons_append, firstWorkloadRef, ha]
    exact ih (fun x hx => h x (List.mem_cons_of_mem _ hx))

theorem firstWorkloadRef_filter (lib : Lib) : ∀ refs : List String,
    firstWorkloadRef lib (refs.filter (fun s => (workloadRef? lib s).isSome)) =
      firstWorkloadRef lib refs := by
  intro refs
  induction refs with
  | nil => rfl
  | cons a rest ih =>
    cases ha : workloadRef? lib a with
    | none => simp [List.filter_cons, ha, firstWorkloadRef, ih]
    | some o => simp [List.filter_cons, ha, firstWorkloadRef]

open openreports in
theorem workloadRef?_kind (lib : Lib) (s : String) (o : List (String × JsonAny))
    (h : workloadRef? lib s = some o) : isWorkloadKind (refString o "kind") = true := by
  unfold workloadRef? at h
  cases hobj : lib.unmarshalObject s with
  | none => simp [hobj] at h
  | some ownerRef =>
    cases hkind : jsonAsString (jsonLookup ownerRef "kind") with
    | none => simp [hobj, hkind] at h
    | some kind =>
      by_cases hw : isWorkloadKind kind = true
      · simp only [hobj, hkind, hw, if_true, Option.some.injEq] at h
        subst h
        simp [refString, hkind, hw]
      · simp [hobj, hkind, hw] at h

theorem firstWorkloadRef_kind (lib : Lib) : ∀ (refs : List String) (o : List (String × JsonAny)),
    firstWorkloadRef lib refs = some o →
      openreports.isWorkloadKind (refString o "kind") = true := by
  intro refs
  induction refs with
  | nil => intro o h; simp [firstWorkloadRef] at h
  | cons a rest ih =>
    intro o h
    cases ha : workloadRef? lib a with
    | none =>
      simp only [firstWorkloadRef, ha] at h
      exact ih o h
    | some o1 =>
      simp only [firstWorkloadRef, ha, Option.some.injEq] at h
      subst h
      exact workloadRef?_kind lib a o1 ha

open openreports in
theorem isWorkloadKind_ne_empty (kind : String) (h : isWorkloadKind kind = true) : kind ≠ "" := by
  rintro rfl
  revert h
  decide

open openreports in
/-- Workload resolution when a workload owner reference exists: kind and uid
are those of the first one, the name is its name when that is a non-empty
string and the inferred name otherwise. -/
theorem extractWorkloadInfo_of_ref (lib : Lib) (attrs : Map) (podName namespace_ : String)
    (o : List (String × JsonAny))
    (h : firstWorkloadRef lib (ownerRefsOf lib attrs) = some o) :
    extractWorkloadInfo lib attrs podName namespace_ =
      { name := if refString o "name" ≠ "" then refString o "name" else inferredName podName,
        kind := refString o "kind",
        namespace_ := namespace_,
        uid := refString o "uid" } := by
  have hk := isWorkloadKind_ne_empty _ (firstWorkloadRef_kind lib _ o h)
  rw [extractWorkloadInfo_eq, scanOwnerRefs_eq, h]
  simp only [refString] at hk ⊢
  by_cases hn : (jsonAsString (jsonLookup o "name")).getD "" = ""
  · by_cases hi : inferredName podName = ""
    · simp [hn, hi]
    · simp [hn, hi, hk]
  · simp [hn]

open openreports in
/-- Workload resolution when no workload owner reference exists: the name is
the inferred name, and the kind is "Deployment" when a name is inferred. -/
theorem extractWorkloadInfo_of_no_ref (lib : Lib) (attrs : Map) (podName namespace_ : String)
    (h : firstWorkloadRef lib (ownerRefsOf lib attrs) = none) :
    extractWorkloadInfo lib attrs podName namespace_ =
      { name := inferredName podName,
        kind := if inferredName podName ≠ "" then "Deployment" else "",
        namespace_ := namespace_,
        uid := "" } := by
  rw [extractWorkloadInfo_eq, scanOwnerRefs_eq, h]
  by_cases hi : inferredName podName = ""
  · simp [hi]
  · simp [hi]

open openreports in
/-- C17 (counterexample). With the owner references "pod" and "noname", the
first workload reference is the Deployment reference "noname", which has no
name; the returned name is "web", inferred from the pod name. -/
theorem extractWorkloadInfo_ownerRef_counterexample :
    firstWorkloadRef libOwner (ownerRefsOf libOwner ownerAttrsNoName) =
      some [("kind", JsonAny.str "Deployment"), ("uid", JsonAny.str "U")] ∧
    jsonLookup [("kind", JsonAny.str "Deployment"), ("uid", JsonAny.str "U")] "name" = none ∧
    inferredName "web-89fd4b8f9-t9xlf" = "web" ∧
    extractWorkloadInfo libOwner ownerAttrsNoName "web-89fd4b8f9-t9xlf" "ns" =
      { name := "web", kind := "Deployment", namespace_ := "ns", uid := "U" } := by
  refine ⟨rfl, rfl, by decide, by decide⟩

open openreports in
/-- C17 (amended). When the owner references of an attribute map are `pre`,
then `s`, then `post`, no entry of `pre` is a workload reference and `s` decodes
to the workload reference `o`, `extractWorkloadInfo` returns the kind and the
uid of `o` (the uid empty when `o` has no string uid) whatever `pre` and `post`
hold; the name is the name of `o` when that is a non-empty string, without name
inference, and the name inferred from the pod name otherwise. -/
theorem extractWorkloadInfo_ownerRef (lib : Lib) (attrs : Map) (podName namespace_ : String)
    (pre post : List String) (s : String) (o : List (String × JsonAny))
    (hrefs : ownerRefsOf lib attrs = pre ++ s :: post)
    (hpre : ∀ x ∈ pre, workloadRef? lib x = none)
    (hs : workloadRef? lib s = some o) :
    (extractWorkloadInfo lib attrs podName namespace_).kind = refString o "kind" ∧
    isWorkloadKind (refString o "kind") = true ∧
    (extractWorkloadInfo lib attrs podName namespace_).uid = refString o "uid" ∧
    (refString o "name" ≠ "" →
      (extractWorkloadInfo lib attrs podName namespace_).name = refString o "name") ∧
    (refString o "name" = "" →
      (extractWorkloadInfo lib attrs podName namespace_).name = inferredName podName) := by
  have h : firstWorkloadRef lib (ownerRefsOf lib attrs) = some o := by
    rw [hrefs]; exact firstWorkloadRef_append lib s post o hs pre hpre
  rw [extractWorkloadInfo_of_ref lib attrs podName namespace_ o h]
  refine ⟨rfl, workloadRef?_kind lib s o hs, rfl, ?_, ?_⟩
  · intro hn; simp [hn]
  · intro hn; simp [hn]

open openreports in
/-- Witness for C17: the owner references "pod" (kind Pod) and "deployment"
(Deployment, name X, uid U) with the pod name "X-89fd4b8f9-t9xlf" give the kind
Deployment, the uid U and the name X. -/
theorem extractWorkloadInfo_ownerRef_witness :
    (extractWorkloadInfo libOwner ownerAttrs "X-89fd4b8f9-t9xlf" "ns").kind = "Deployment" ∧
    (extractWorkloadInfo libOwner ownerAttrs "X-89fd4b8f9-t9xlf" "ns").uid = "U" ∧
    (extractWorkloadInfo libOwner ownerAttrs "X-89fd4b8f9-t9xlf" "ns").name = "X" := by
  obtain ⟨h1, _, h3, h4, _⟩ := extractWorkloadInfo_ownerRef libOwner ownerAttrs
    "X-89fd4b8f9-t9xlf" "ns" ["pod"] [] "deployment"
    [("kind", JsonAny.str "Deployment"), ("name", JsonAny.str "X"), ("uid", JsonAny.str "U")]
    rfl (by intro x hx; rw [List.mem_singleton.1 hx]; rfl) rfl
  exact ⟨h1, h3, h4 (by decide)⟩

open openreports in
/-- C18 (counterexample). The pod name "web-89fd4b8f9-t9xlf" has three tokens,
so one token remains after dropping the trailing two; without owner references
the name "web" and the kind "Deployment" are inferred. -/
theorem extractWorkloadInfo_inferred_counterexample :
    (splitPodName "web-89fd4b8f9-t9xlf").length = 3 ∧
    (splitPodName "web-89fd4b8f9-t9xlf").length - 2 < 2 ∧
    extractWorkloadInfo libDemo [] "web-89fd4b8f9-t9xlf" "ns" =
      { name := "web", kind := "Deployment", namespace_ := "ns", uid := "" } := by
  refine ⟨by decide, by decide, by decide⟩

open openreports in
/-- C18 (amended). For every pod name, when no workload owner reference is
available, with `t_1 .. t_n` the tokens of `splitPodName`: if no token remains
after dropping the trailing two (`n ≤ 2`), no name is inferred and name and kind
stay empty; otherwise the name is `t_1-...-t_(n-2)` joined with hyphens and the
kind is "Deployment". -/
theorem extractWorkloadInfo_inferred (lib : Lib) (attrs : Map) (podName namespace_ : String)
    (h : firstWorkloadRef lib (ownerRefsOf lib attrs) = none) :
    ((splitPodName podName).length ≤ 2 →
      (extractWorkloadInfo lib attrs podName namespace_).name = "" ∧
      (extractWorkloadInfo lib attrs podName namespace_).kind = "") ∧
    (3 ≤ (splitPodName podName).length →
      (extractWorkloadInfo lib attrs podName namespace_).name =
        String.intercalate "-"
          ((splitPodName podName).take ((splitPodName podName).length - 2)) ∧
      (extractWorkloadInfo lib attrs podName namespace_).kind = "Deployment") := by
  rw [extractWorkloadInfo_of_no_ref lib attrs podName namespace_ h]
  constructor
  · intro hlen
    have h0 := inferredName_eq_empty podName hlen
    simp [h0]
  · intro hlen
    have h0 := inferredName_ne_empty podName hlen
    refine ⟨rfl, ?_⟩
    simp [h0]

open openreports in
/-- Witness for C18: without owner references the pod name
"cert-manager-cainjector-89fd4b8f9-t9xlf" gives the name
"cert-manager-cainjector" and the kind "Deployment", and "simple-pod" gives no
name. -/
theorem extractWorkloadInfo_inferred_witness :
    firstWorkloadRef libDemo (ownerRefsOf libDemo []) = none ∧
    (extractWorkloadInfo libDemo [] "cert-manager-cainjector-89fd4b8f9-t9xlf" "ns").name =
      "cert-manager-cainjector" ∧
    (extractWorkloadInfo libDemo [] "cert-manager-cainjector-89fd4b8f9-t9xlf" "ns").kind =
      "Deployment" ∧
    (extractWorkloadInfo libDemo [] "simple-pod" "ns").name = "" ∧
    (extractWorkloadInfo libDemo [] "simple-pod" "ns").kind = "" := by
  have h1 := (extractWorkloadInfo_inferred libDemo []
    "cert-manager-cainjector-89fd4b8f9-t9xlf" "ns" rfl).2 (by decide)
  have h2 := (extractWorkloadInfo_inferred libDemo [] "simple-pod" "ns" rfl).1 (by decide)
  refine ⟨rfl, ?_, h1.2, h2.1, h2.2⟩
  rw [h1.1]
  decide

open openreports in
/-- C19. `isWorkloadKind` is true exactly for the six strings Deployment,
StatefulSet, DaemonSet, Job, CronJob and ReplicaSet, case-sensitively; the kind
returned by `extractWorkloadInfo` is empty or one of these six, and when it is
not empty it is the default "Deployment" or the kind of the first workload
owner reference; and the owner references that are not workload references
contribute nothing: the owner-reference loop gives the same result on the list
without them. -/
theorem isWorkloadKind_spec (lib : Lib) (attrs : Map) (podName namespace_ : String)
    (kind : String) (refs : List String) (info : workloadInfo) :
    (isWorkloadKind kind = true ↔
      kind ∈ ["Deployment", "StatefulSet", "DaemonSet", "Job", "CronJob", "ReplicaSet"]) ∧
    isWorkloadKind "Pod" = false ∧ isWorkloadKind "deployment" = false ∧
    isWorkloadKind "" = false ∧
    ((extractWorkloadInfo lib attrs podName namespace_).kind = "" ∨
      isWorkloadKind (extractWorkloadInfo lib attrs podName namespace_).kind = true) ∧
    ((extractWorkloadInfo lib attrs podName namespace_).kind = "" ∨
      (extractWorkloadInfo lib attrs podName namespace_).kind = "Deployment" ∨
      ∃ o, firstWorkloadRef lib (ownerRefsOf lib attrs) = some o ∧
        (extractWorkloadInfo lib attrs podName namespace_).kind = refString o "kind") ∧
    scanOwnerRefs lib refs info =
      scanOwnerRefs lib (refs.filter (fun s => (workloadRef? lib s).isSome)) info := by
  refine ⟨by simp [isWorkloadKind], by decide, by decide, by decide, ?_, ?_, ?_⟩
  · cases h : firstWorkloadRef lib (ownerRefsOf lib attrs) with
    | none =>
      rw [extractWorkloadInfo_of_no_ref lib attrs podName namespace_ h]
      by_cases hi : inferredName podName = ""
      · left; simp [hi]
      · right; simp only [hi, ne_eq, not_false_eq_true, if_true]; decide
    | some o =>
      rw [extractWorkloadInfo_of_ref lib attrs podName namespace_ o h]
      exact Or.inr (firstWorkloadRef_kind lib _ o h)
  · cases h : firstWorkloadRef lib (ownerRefsOf lib attrs) with
    | none =>
      rw [extractWorkloadInfo_of_no_ref lib attrs podName namespace_ h]
      by_cases hi : inferredName podName = ""
      · left; simp [hi]
      · right; left; simp [hi]
    | some o =>
      rw [extractWorkloadInfo_of_ref lib attrs podName namespace_ o h]
      exact Or.inr (Or.inr ⟨o, rfl, rfl⟩)
  · rw [scanOwnerRefs_eq, scanOwnerRefs_eq, firstWorkloadRef_filter]

/-! ### Validation of the configuration -/

open openreports in
theorem validateStatuses_ok (filter : List String) (h : ∀ s ∈ filter, s ∈ canonicalStatuses) :
    validateStatuses filter = Except.ok () := by
  induction filter with
  | nil => rfl
  | cons a rest ih =>
    have ha : validStatuses a = true := by
      have := h a (List.mem_cons_self _ _)
      simpa [validStatuses, canonicalStatuses] using this
    simp only [validateStatuses, ha, Bool.not_true, Bool.false_eq_true, if_false]
    exact ih (fun s hs => h s (List.mem_cons_of_mem _ hs))

open openreports in
theorem validateStatuses_error (s : String) (post : List String)
    (hs : s ∉ canonicalStatuses) :
    ∀ pre : List String, (∀ x ∈ pre, x ∈ canonicalStatuses) →
      validateStatuses (pre ++ s :: post) =
        Except.error ("invalid status in status_filter: " ++ s ++
          ". Valid values are: pass, fail, error, skip") := by
  intro pre
  induction pre with
  | nil =>
    intro _
    have hv : validStatuses s = false := by
      simpa [validStatuses, canonicalStatuses] using hs
    simp [validateStatuses, hv]
  | cons a rest ih =>
    intro h
    have ha : validStatuses a = true := by
      have := h a (List.mem_cons_self _ _)
      simpa [validStatuses, canonicalStatuses] using this
    simp only [List.cons_append, validateStatuses, ha, Bool.not_true, Bool.false_eq_true,
      if_false]
    exact ih (fun x hx => h x (List.mem_cons_of_mem _ hx))

/-- A list with an entry outside the canonical statuses splits at the first
such entry. -/
theorem first_invalid_split : ∀ filter : List String,
    (∃ s ∈ filter, s ∉ canonicalStatuses) →
    ∃ pre s post, filter = pre ++ s :: post ∧ (∀ x ∈ pre, x ∈ canonicalStatuses) ∧
      s ∉ canonicalStatuses := by
  intro filter
  induction filter with
  | nil => rintro ⟨s, hs, _⟩; simp at hs
  | cons a rest ih =>
    rintro ⟨s, hs, hns⟩
    by_cases ha : a ∈ canonicalStatuses
    · have hrest : ∃ s ∈ rest, s ∉ canonicalStatuses := by
        rcases List.mem_cons.1 hs with rfl | hs
        · exact absurd ha hns
        · exact ⟨s, hs, hns⟩
      obtain ⟨pre, t, post, h1, h2, h3⟩ := ih hrest
      refine ⟨a :: pre, t, post, by rw [h1]; rfl, ?_, h3⟩
      intro x hx
      rcases List.mem_cons.1 hx with rfl | hx
      · exact ha
      · exact h2 x hx
    · exact ⟨[], a, rest, rfl, by simp, ha⟩

open openreports in
/-- C29. `openreports.Config.Validate` returns an error exactly when some entry
of the status filter is not one of "pass", "fail", "error", "skip" (so "FAIL",
"Pass" and the empty string are rejected, and the empty list is valid); the
message is "invalid status in status_filter: " followed by the first such entry
in list order and the list of valid values; and the top-level `Config.Validate`
returns the same result. -/
theorem Validate_spec (cfg : openreports.Config) (top : Config) :
    ((∃ err, cfg.Validate = Except.error err) ↔
      ∃ s ∈ cfg.StatusFilter, s ∉ ["pass", "fail", "error", "skip"]) ∧
    (∀ pre s post, cfg.StatusFilter = pre ++ s :: post →
      (∀ x ∈ pre, x ∈ ["pass", "fail", "error", "skip"]) →
      s ∉ ["pass", "fail", "error", "skip"] →
      cfg.Validate = Except.error ("invalid status in status_filter: " ++ s ++
        ". Valid values are: pass, fail, error, skip")) ∧
    ((∀ s ∈ cfg.StatusFilter, s ∈ ["pass", "fail", "error", "skip"]) →
      cfg.Validate = Except.ok ()) ∧
    openreports.Config.Validate { Enabled := true, StatusFilter := [] } = Except.ok () ∧
    openreports.Config.Validate { Enabled := true, StatusFilter := ["pass", "fail", "error", "skip"] }
      = Except.ok () ∧
    openreports.Config.Validate { Enabled := true, StatusFilter := ["pass", "invalid", "fail"] }
      = Except.error
        "invalid status in status_filter: invalid. Valid values are: pass, fail, error, skip" ∧
    openreports.Config.Validate { Enabled := true, StatusFilter := ["FAIL"] }
      = Except.error
        "invalid status in status_filter: FAIL. Valid values are: pass, fail, error, skip" ∧
    openreports.Config.Validate { Enabled := true, StatusFilter := ["Pass"] }
      = Except.error
        "invalid status in status_filter: Pass. Valid values are: pass, fail, error, skip" ∧
    openreports.Config.Validate { Enabled := true, StatusFilter := [""] }
      = Except.error
        "invalid status in status_filter: . Valid values are: pass, fail, error, skip" ∧
    top.Validate = top.Processors.OpenReports.Validate := by
  have herr : ∀ pre s post, cfg.StatusFilter = pre ++ s :: post →
      (∀ x ∈ pre, x ∈ canonicalStatuses) → s ∉ canonicalStatuses →
      cfg.Validate = Except.error ("invalid status in status_filter: " ++ s ++
        ". Valid values are: pass, fail, error, skip") := by
    intro pre s post hsplit hpre hs
    unfold openreports.Config.Validate
    rw [hsplit]
    exact validateStatuses_error s post hs pre hpre
  have hok : (∀ s ∈ cfg.StatusFilter, s ∈ canonicalStatuses) → cfg.Validate = Except.ok () :=
    fun h => validateStatuses_ok cfg.StatusFilter h
  refine ⟨?_, herr, hok, rfl, rfl, rfl, rfl, rfl, rfl, ?_⟩
  · constructor
    · rintro ⟨err, he⟩
      by_contra hno
      have hall : ∀ s ∈ cfg.StatusFilter, s ∈ canonicalStatuses := by
        intro s hs
        by_contra hns
        exact hno ⟨s, hs, hns⟩
      rw [hok hall] at he
      cases he
    · intro h
      obtain ⟨pre, s, post, h1, h2, h3⟩ := first_invalid_split cfg.StatusFilter h
      exact ⟨_, herr pre s post h1 h2 h3⟩
  · unfold SecurityEvent.Config.Validate
    cases top.Processors.OpenReports.Validate with
    | error e => rfl
    | ok u => rfl

/-! ### The disabled processor -/

/-- With the processor disabled no record is expanded. -/
theorem expands_disabled (lib : Lib) (config : Config)
    (h : config.Processors.OpenReports.Enabled = false) (r : LogRecord) :
    expands lib config r = false := by
  simp [expands, h]

theorem newOpenReports_disabled (lib : Lib) (config : Config)
    (h : config.Processors.OpenReports.Enabled = false) : newOpenReports lib config = none := by
  simp [newOpenReports, h]

/-- C30. When the OpenReports processor is disabled (`openReports` is nil),
`processLogs` returns every batch unchanged, the records that the detector
accepts included, and counts every record once as incoming and once as
outgoing, none as dropped; the first-pass step of any record adds one to the
incoming and one to the outgoing counter and marks no replacement. -/
theorem processLogs_disabled (lib : Lib) (ld : Logs) (n : Nat) (config : Config) :
    processLogs lib (none : Option (Transform Nat)) ld n =
      (ld, { incomingCount := totalRecords ld, outgoingCount := totalRecords ld,
             droppedCount := 0, processingErrors := 0 }, n) ∧
    (config.Processors.OpenReports.Enabled = false →
      run lib config ld n =
        (ld, { incomingCount := totalRecords ld, outgoingCount := totalRecords ld,
               droppedCount := 0, processingErrors := 0 }, n)) ∧
    (∀ (resource : Resource) (scopeLog : ScopeLogs) (k : Nat) (r : LogRecord)
      (st : FirstPass Nat),
      firstPassStep lib (none : Option (Transform Nat)) resource scopeLog k r st =
        { st with counts := { st.counts with
            incomingCount := st.counts.incomingCount + 1,
            outgoingCount := st.counts.outgoingCount + 1 } }) ∧
    processLogs lib (none : Option (Transform Nat))
        (singleScopeLogs [reportRecord (Value.slice [Value.str "fail"]), podRecord]) 0 =
      (singleScopeLogs [reportRecord (Value.slice [Value.str "fail"]), podRecord],
       { incomingCount := 2, outgoingCount := 2, droppedCount := 0, processingErrors := 0 },
       0) := by
  have hnone : processLogs lib (none : Option (Transform Nat)) ld n =
      (ld, { incomingCount := totalRecords ld, outgoingCount := totalRecords ld,
             droppedCount := 0, processingErrors := 0 }, n) := by
    have hcfg : (disabledConfig).Processors.OpenReports.Enabled = false := rfl
    have hor := newOpenReports_disabled lib disabledConfig hcfg
    have hfix := rewriteResources_fixed lib disabledConfig ld.resourceLogs n
      (fun rl _ sl _ x _ => expands_disabled lib disabledConfig hcfg x)
    rw [hor] at hfix
    obtain ⟨h1, h2, h3, h4⟩ := processLogs_counts lib (none : Option (Transform Nat)) ld n
    have hz : failedCount (resourcesTrace lib (none : Option (Transform Nat))
        ld.resourceLogs n) = 0 := by
      apply failedCount_eq_zero
      intro e he
      obtain ⟨rl, _, sl, _, _, s1, hs⟩ := resourcesTrace_mem lib _ ld.resourceLogs n e he
      rw [hs]
      rfl
    have hpe : (processLogs lib (none : Option (Transform Nat)) ld n).2.1.processingErrors
        = 0 := by
      rw [processLogs_eq]
      simp [countsAfter, zeroCounts, hz]
    have hrand : (processLogs lib (none : Option (Transform Nat)) ld n).2.2 = n := by
      rw [processLogs_eq]
      simp only []
      clear hfix h1 h2 h3 h4 hz hpe
      have hs : ∀ (sls : List ScopeLogs) (res : Resource) (m : Nat),
          scopesRand lib (none : Option (Transform Nat)) res sls m = m := by
        intro sls res
        induction sls with
        | nil => intro m; rfl
        | cons a rest ih =>
          intro m
          simp only [scopesRand]
          have hr : ∀ (rs : List LogRecord) (m : Nat),
              scopeRand lib (none : Option (Transform Nat)) res a rs m = m := by
            intro rs
            induction rs with
            | nil => intro m; rfl
            | cons r rest2 ih2 => intro m; simp only [scopeRand, outcomeOf]; exact ih2 m
          rw [hr, ih]
      generalize ld.resourceLogs = rls
      induction rls generalizing n with
      | nil => rfl
      | cons a rest ih => simp only [resourcesRand, hs]; exact ih n
    have hlogs : (processLogs lib (none : Option (Transform Nat)) ld n).1 = ld := by
      rw [processLogs_eq]
      simp only [hfix]
    rw [hz] at h2
    rw [hlogs, h2] at h4
    have hout : (processLogs lib (none : Option (Transform Nat)) ld n).2.1.outgoingCount
        = totalRecords ld := by omega
    refine Prod.ext hlogs (Prod.ext ?_ hrand)
    show (processLogs lib (none : Option (Transform Nat)) ld n).2.1 = _
    rcases hc : (processLogs lib (none : Option (Transform Nat)) ld n).2.1 with ⟨a, b, c, d⟩
    rw [hc] at h1 h2 hout hpe
    simp only at h1 h2 hout hpe
    rw [h1, h2, hout, hpe]
  refine ⟨hnone, ?_, ?_, rfl⟩
  · intro h
    unfold run
    rw [newOpenReports_disabled lib config h]
    exact hnone
  · intro resource scopeLog k r st
    rfl

/-! ### Events of `ProcessLogRecord` -/

/-- Every event of `eventsFor` is the transformation of a fresh copy of the
record for one of the results. -/
theorem eventsFor_mem (lib : Lib) (r : LogRecord) :
    ∀ (results : List Result) (n : Nat), ∀ e ∈ eventsFor lib r results n,
      ∃ result ∈ results, ∃ m,
        e = (openreports.transformToSecurityEvent lib (openreports.newRecordFrom r) result
          (openreports.metadataOf lib r.attributes) r.attributes m).1 := by
  intro results
  induction results with
  | nil => intro n e h; simp [eventsFor] at h
  | cons a rest ih =>
    intro n e h
    simp only [eventsFor, List.mem_cons] at h
    rcases h with h | h
    · exact ⟨a, List.mem_cons_self _ _, n, h⟩
    · obtain ⟨result, hr, m, hm⟩ := ih (n + 2) e h
      exact ⟨result, List.mem_cons_of_mem _ hr, m, hm⟩

open openreports in
/-- Every event returned by `ProcessLogRecord` is the transformation of a fresh
copy of the record for one of its selected results. -/
theorem ProcessLogRecord_event (lib : Lib) (config : openreports.Config) (r : LogRecord)
    (resource : Resource) (scopeLogs : ScopeLogs) (n : Nat) (events : List LogRecord)
    (h : (ProcessLogRecord lib config r resource scopeLogs n).1 = Except.ok events)
    (e : LogRecord) (he : e ∈ events) :
    ∃ result ∈ selectedResults lib config (rawResults lib r.attributes), ∃ m,
      e = (transformToSecurityEvent lib (newRecordFrom r) result
        (metadataOf lib r.attributes) r.attributes m).1 := by
  cases hd : isOpenReportsLog lib r with
  | false =>
    rw [ProcessLogRecord_not_detected lib config r resource scopeLogs n hd] at h
    cases h
    cases he
  | true =>
    rw [ProcessLogRecord_detected lib config r resource scopeLogs n hd] at h
    cases h
    exact eventsFor_mem lib r _ n e he

open openreports in
/-- The description written by `transformToSecurityEvent`, on the lookup of
the scope name in the metadata. -/
theorem Get_event_description (lib : Lib) (logRecord : LogRecord) (result : Result)
    (metadata : Metadata) (originalAttrs : Map) (n : Nat) :
    Map.Get (transformToSecurityEvent lib logRecord result metadata originalAttrs n).1.attributes
      "event.description" =
      some (Value.str (
        (if result.Result = "fail" then "Policy violation on "
         else if result.Result = "pass" then "Policy check passed on "
         else if result.Result = "error" then "Policy check error on "
         else if result.Result = "skip" then "Policy check skipped on "
         else "Policy evaluation on ") ++
        (match Metadata.lookup metadata "scope.name" with
         | some scope => scope
         | none => "") ++ " for rule " ++
        (if result.Rule = "" then "unknown" else result.Rule))) := by
  unfold transformToSecurityEvent
  simp only []
  rw [Get_copyK8sFields _ _ _ _ (by decide)]
  simp only [securityEventAttrs, Map.Get_Put, Map.Get_PutIf, eventDescription, getString]
  simp
  split_ifs <;> simp [String.append_assoc]

open openreports in
/-- C25. For every result and every scope name `scope` stored in the metadata
under "scope.name", the attribute event.description of the produced event is
"Policy violation on SCOPE for rule RULE" for the status "fail", "Policy check
passed on SCOPE for rule RULE" for "pass", "Policy check error on ..." for
"error", "Policy check skipped on ..." for "skip" and "Policy evaluation on
SCOPE for rule RULE" for every other status, where SCOPE is `scope` and RULE is
the rule of the result, or "unknown" when the rule is empty. In the events of
`ProcessLogRecord` the scope name is the scope.name attribute of the source
record. The strings are spelled out for the scope "web-1". -/
theorem event_description_spec (lib : Lib) (logRecord : LogRecord) (result : Result)
    (metadata : Metadata) (originalAttrs : Map) (n : Nat) (attrs : Map) :
    (∀ scope : String, Metadata.lookup metadata "scope.name" = some scope →
      Map.Get (transformToSecurityEvent lib logRecord result metadata originalAttrs
          n).1.attributes "event.description" =
        some (Value.str (
          (if result.Result = "fail" then "Policy violation on "
           else if result.Result = "pass" then "Policy check passed on "
           else if result.Result = "error" then "Policy check error on "
           else if result.Result = "skip" then "Policy check skipped on "
           else "Policy evaluation on ") ++ scope ++ " for rule " ++
          (if result.Rule = "" then "unknown" else result.Rule)))) ∧
    Map.Get (transformToSecurityEvent lib logRecord result (metadataOf lib attrs) originalAttrs
        n).1.attributes "event.description" =
      some (Value.str (
        (if result.Result = "fail" then "Policy violation on "
         else if result.Result = "pass" then "Policy check passed on "
         else if result.Result = "error" then "Policy check error on "
         else if result.Result = "skip" then "Policy check skipped on "
         else "Policy evaluation on ") ++ attrString lib attrs "scope.name" ++ " for rule " ++
        (if result.Rule = "" then "unknown" else result.Rule))) ∧
    Map.Get (transformToSecurityEvent libDemo NewLogRecord failResult
        [("scope.name", "web-1")] [] 0).1.attributes "event.description" =
      some (Value.str "Policy violation on web-1 for rule r") ∧
    Map.Get (transformToSecurityEvent libDemo NewLogRecord { failResult with Result := "pass" }
        [("scope.name", "web-1")] [] 0).1.attributes "event.description" =
      some (Value.str "Policy check passed on web-1 for rule r") ∧
    Map.Get (transformToSecurityEvent libDemo NewLogRecord { failResult with Result := "error" }
        [("scope.name", "web-1")] [] 0).1.attributes "event.description" =
      some (Value.str "Policy check error on web-1 for rule r") ∧
    Map.Get (transformToSecurityEvent libDemo NewLogRecord { failResult with Result := "skip" }
        [("scope.name", "web-1")] [] 0).1.attributes "event.description" =
      some (Value.str "Policy check skipped on web-1 for rule r") ∧
    Map.Get (transformToSecurityEvent libDemo NewLogRecord { failResult with Result := "warn" }
        [("scope.name", "web-1")] [] 0).1.attributes "event.description" =
      some (Value.str "Policy evaluation on web-1 for rule r") ∧
    Map.Get (transformToSecurityEvent libDemo NewLogRecord { failResult with Rule := "" }
        [("scope.name", "web-1")] [] 0).1.attributes "event.description" =
      some (Value.str "Policy violation on web-1 for rule unknown") := by
  have h := Get_event_description lib logRecord result metadata originalAttrs n
  have hm := Get_event_description lib logRecord result (metadataOf lib attrs) originalAttrs n
  refine ⟨?_, ?_, rfl, rfl, rfl, rfl, rfl, rfl⟩
  · intro scope hscope
    rw [h, hscope]
  · rw [hm]
    rfl

open openreports in
/-- Witness for C25: the event that `ProcessLogRecord` returns for the report
on the pod "web-1" with the one result "fail", whose rule is "r", has the
description "Policy violation on web-1 for rule r". -/
theorem event_description_spec_witness :
    Metadata.lookup (metadataOf libDemo scopedReport.attributes) "scope.name" = some "web-1" ∧
    (∃ e, (ProcessLogRecord libDemo openConfig scopedReport demoResourceLogs.resource
        demoScope 0).1 = Except.ok [e] ∧
      Map.Get e.attributes "event.description" =
        some (Value.str "Policy violation on web-1 for rule r")) := by
  have h := (event_description_spec libDemo (newRecordFrom scopedReport) failResult
    (metadataOf libDemo scopedReport.attributes) scopedReport.attributes 0
    scopedReport.attributes).1 "web-1" rfl
  exact ⟨rfl, _, rfl, h⟩

open openreports in
/-- C26. In the event produced on a fresh record, compliance.control is present
exactly when the rule of the result is not empty and is then the rule,
compliance.requirements is present exactly when the policy is not empty and is
then the policy, and compliance.standards is present exactly when the category
is not empty and is then the category. -/
theorem event_compliance_fields (lib : Lib) (logRecord : LogRecord) (result : Result)
    (metadata : Metadata) (originalAttrs : Map) (n : Nat) :
    Map.Get (transformToSecurityEvent lib (newRecordFrom logRecord) result metadata
        originalAttrs n).1.attributes "compliance.control" =
      (if result.Rule ≠ "" then some (Value.str result.Rule) else none) ∧
    Map.Get (transformToSecurityEvent lib (newRecordFrom logRecord) result metadata
        originalAttrs n).1.attributes "compliance.requirements" =
      (if result.Policy ≠ "" then some (Value.str result.Policy) else none) ∧
    Map.Get (transformToSecurityEvent lib (newRecordFrom logRecord) result metadata
        originalAttrs n).1.attributes "compliance.standards" =
      (if result.Category ≠ "" then some (Value.str result.Category) else none) := by
  unfold transformToSecurityEvent
  simp only []
  rw [Get_copyK8sFields _ _ _ _ (by decide), Get_copyK8sFields _ _ _ _ (by decide),
    Get_copyK8sFields _ _ _ _ (by decide)]
  refine ⟨?_, ?_, ?_⟩ <;>
    simp [securityEventAttrs, Map.Get_Put, Map.Get_PutIf, newRecordFrom, NewLogRecord, Map.Get]

open openreports in
/-- C27. Every event returned by `ProcessLogRecord` for a record carries the
observed timestamp, severity number, severity text, trace id, span id and flags
of that record, and comes from one of the selected results of the record: its
body is the string value of the message of that result and its attribute
finding.description is that message. -/
theorem ProcessLogRecord_event_fields (lib : Lib) (config : openreports.Config)
    (r : LogRecord) (resource : Resource) (scopeLogs : ScopeLogs) (n : Nat)
    (events : List LogRecord)
    (h : (ProcessLogRecord lib config r resource scopeLogs n).1 = Except.ok events) :
    ∀ e ∈ events,
      e.observedTimestamp = r.observedTimestamp ∧
      e.severityNumber = r.severityNumber ∧
      e.severityText = r.severityText ∧
      e.traceID = r.traceID ∧
      e.spanID = r.spanID ∧
      e.flags = r.flags ∧
      ∃ result ∈ selectedResults lib config (rawResults lib r.attributes),
        e.body = Value.str result.Message ∧
        Map.Get e.attributes "finding.description" = some (Value.str result.Message) := by
  intro e he
  obtain ⟨result, hr, m, rfl⟩ := ProcessLogRecord_event lib config r resource scopeLogs n
    events h e he
  refine ⟨rfl, rfl, rfl, rfl, rfl, rfl, result, hr, rfl, ?_⟩
  unfold transformToSecurityEvent
  simp only []
  rw [Get_copyK8sFields _ _ _ _ (by decide)]
  simp [securityEventAttrs, Map.Get_Put, Map.Get_PutIf]

open openreports in
/-- Witness for C27: the event of the report with the one result "fail", whose
message is "m". -/
theorem ProcessLogRecord_event_fields_witness :
    ∃ e, (ProcessLogRecord libDemo openConfig (reportRecord (Value.slice [Value.str "fail"]))
        demoResourceLogs.resource demoScope 0).1 = Except.ok [e] ∧
      e.observedTimestamp = (reportRecord (Value.slice [Value.str "fail"])).observedTimestamp ∧
      e.body = Value.str "m" ∧
      Map.Get e.attributes "finding.description" = some (Value.str "m") := by
  have hrun : (ProcessLogRecord libDemo openConfig
      (reportRecord (Value.slice [Value.str "fail"])) demoResourceLogs.resource demoScope 0).1
      = Except.ok [(transformToSecurityEvent libDemo
          (newRecordFrom (reportRecord (Value.slice [Value.str "fail"])))
          { Source := "", Timestamp := { Seconds := 0, Nanos := 0 }, Message := "m",
            Policy := "p", Properties := [], Result := "fail", Rule := "r", Scored := false,
            Severity := "", Category := "" }
          (metadataOf libDemo (reportRecord (Value.slice [Value.str "fail"])).attributes)
          (reportRecord (Value.slice [Value.str "fail"])).attributes 0).1] := rfl
  have h := ProcessLogRecord_event_fields libDemo openConfig
    (reportRecord (Value.slice [Value.str "fail"])) demoResourceLogs.resource demoScope 0 _
    hrun _ (List.mem_singleton_self _)
  exact ⟨_, hrun, h.1, rfl, rfl⟩

/-! ### The overlay of `copyK8sFields` -/

theorem Map.Get_ite (c : Prop) [Decidable c] (a b : Map) (key : String) :
    Map.Get (if c then a else b) key = if c then Map.Get a key else Map.Get b key := by
  split <;> rfl

open openreports in
/-- Lookup after the kind-specific write of the workload overlay. -/
theorem Get_putKindSpecificName_eq (t : Map) (wk wn key : String) :
    Map.Get (putKindSpecificName t wk wn) key =
      if wk = "Deployment" then
        (if "k8s.deployment.name" = key then some (Value.str wn) else Map.Get t key)
      else if wk = "StatefulSet" then
        (if "k8s.statefulset.name" = key then some (Value.str wn) else Map.Get t key)
      else if wk = "DaemonSet" then
        (if "k8s.daemonset.name" = key then some (Value.str wn) else Map.Get t key)
      else Map.Get t key := by
  unfold putKindSpecificName
  split_ifs <;> simp_all [Map.Get_Put]

open openreports in
/-- The four scope keys of the overlay, for the metadata `ProcessLogRecord`
builds: each holds the scope field, whatever the source attributes hold. -/
theorem Get_copyK8sFields_scope (lib : Lib) (t orig attrs : Map) :
    Map.Get (copyK8sFields t orig (metadataOf lib attrs)) "k8s.pod.name" =
      some (Value.str (attrString lib attrs "scope.name")) ∧
    Map.Get (copyK8sFields t orig (metadataOf lib attrs)) "k8s.namespace.name" =
      some (Value.str (attrString lib attrs "scope.namespace")) ∧
    Map.Get (copyK8sFields t orig (metadataOf lib attrs)) "k8s.resource.kind" =
      some (Value.str (attrString lib attrs "scope.kind")) ∧
    Map.Get (copyK8sFields t orig (metadataOf lib attrs)) "k8s.resource.uid" =
      some (Value.str (attrString lib attrs "scope.uid")) := by
  refine ⟨?_, ?_, ?_, ?_⟩ <;>
    simp [copyK8sFields, ifPresent, metadataOf, Metadata.lookup, getString, Map.Get_Put,
      Map.Get_PutIf, Map.Get_ite, Get_putKindSpecificName_eq]

open openreports in
/-- The workload keys of the overlay, for the metadata `ProcessLogRecord`
builds with the workload `info`. -/
theorem Get_copyK8sFields_workload (lib : Lib) (t orig attrs : Map) (key : String)
    (hkey : key ∈ ["k8s.deployment.name", "k8s.statefulset.name", "k8s.daemonset.name",
      "k8s.workload.name", "k8s.workload.kind", "k8s.workload.namespace", "k8s.workload.uid"]) :
    Map.Get (copyK8sFields t orig (metadataOf lib attrs)) key =
      let info := extractWorkloadInfo lib attrs (attrString lib attrs "scope.name")
        (attrString lib attrs "scope.namespace")
      if key = "k8s.workload.uid" then
        (if info.uid ≠ "" then some (Value.str info.uid)
         else Map.Get (copyK8sRange t orig) key)
      else if key = "k8s.workload.namespace" then
        (if info.namespace_ ≠ "" then some (Value.str info.namespace_)
         else Map.Get (copyK8sRange t orig) key)
      else if info.name = "" then Map.Get (copyK8sRange t orig) key
      else if key = "k8s.workload.kind" then some (Value.str info.kind)
      else if key = "k8s.workload.name" then some (Value.str info.name)
      else if (info.kind = "Deployment" ∧ key = "k8s.deployment.name") ∨
          (info.kind = "StatefulSet" ∧ key = "k8s.statefulset.name") ∨
          (info.kind = "DaemonSet" ∧ key = "k8s.daemonset.name") then
        some (Value.str info.name)
      else Map.Get (copyK8sRange t orig) key := by
  simp only [List.mem_cons, List.mem_singleton, List.not_mem_nil, or_false] at hkey
  rcases hkey with rfl | rfl | rfl | rfl | rfl | rfl | rfl <;>
    simp [copyK8sFields, ifPresent, metadataOf, Metadata.lookup, getString, Map.Get_Put,
      Map.Get_PutIf, Map.Get_ite, Get_putKindSpecificName_eq] <;>
    split_ifs <;> simp_all

open openreports in
/-- C23. In every event returned by `ProcessLogRecord` the overlay wins over
the copy of the `k8s.*` attributes: k8s.pod.name is the scope.name of the
source record, k8s.namespace.name its scope.namespace, k8s.resource.kind its
scope.kind and k8s.resource.uid its scope.uid (each read as a string, empty
when the attribute is absent), whatever the source record holds at those four
keys. -/
theorem ProcessLogRecord_overlay_wins (lib : Lib) (config : openreports.Config)
    (r : LogRecord) (resource : Resource) (scopeLogs : ScopeLogs) (n : Nat)
    (events : List LogRecord)
    (h : (ProcessLogRecord lib config r resource scopeLogs n).1 = Except.ok events) :
    ∀ e ∈ events,
      Map.Get e.attributes "k8s.pod.name" =
        some (Value.str (attrString lib r.attributes "scope.name")) ∧
      Map.Get e.attributes "k8s.namespace.name" =
        some (Value.str (attrString lib r.attributes "scope.namespace")) ∧
      Map.Get e.attributes "k8s.resource.kind" =
        some (Value.str (attrString lib r.attributes "scope.kind")) ∧
      Map.Get e.attributes "k8s.resource.uid" =
        some (Value.str (attrString lib r.attributes "scope.uid")) := by
  intro e he
  obtain ⟨result, _, m, rfl⟩ := ProcessLogRecord_event lib config r resource scopeLogs n
    events h e he
  exact Get_copyK8sFields_scope lib _ r.attributes r.attributes

open openreports in
/-- Witness for C23: the report on the pod "web-1" carries the four overlay
keys with the value "other"; its event holds the scope fields. -/
theorem ProcessLogRecord_overlay_wins_witness :
    ∃ e, (ProcessLogRecord libDemo openConfig scopedReport demoResourceLogs.resource
        demoScope 0).1 = Except.ok [e] ∧
      Map.Get scopedReport.attributes "k8s.pod.name" = some (Value.str "other") ∧
      Map.Get scopedReport.attributes "k8s.namespace.name" = some (Value.str "other") ∧
      Map.Get e.attributes "k8s.pod.name" = some (Value.str "web-1") ∧
      Map.Get e.attributes "k8s.namespace.name" = some (Value.str "ns") ∧
      Map.Get e.attributes "k8s.resource.kind" = some (Value.str "Pod") ∧
      Map.Get e.attributes "k8s.resource.uid" = some (Value.str "u-1") := by
  have hrun : (ProcessLogRecord libDemo openConfig scopedReport demoResourceLogs.resource
      demoScope 0).1 = Except.ok [(transformToSecurityEvent libDemo (newRecordFrom scopedReport)
        failResult (metadataOf libDemo scopedReport.attributes) scopedReport.attributes 0).1] :=
    rfl
  have h := ProcessLogRecord_overlay_wins libDemo openConfig scopedReport
    demoResourceLogs.resource demoScope 0 _ hrun _ (List.mem_singleton_self _)
  exact ⟨_, hrun, rfl, rfl, h.1, h.2.1, h.2.2.1, h.2.2.2⟩

open openreports in
/-- C24. The workload overlay for the metadata `ProcessLogRecord` builds, with
the workload `workloadOf` resolved by `extractWorkloadInfo`: when the workload
name is not empty, k8s.workload.name is the name, k8s.workload.kind the kind,
and for the kinds Deployment, StatefulSet and DaemonSet the key
k8s.deployment.name, k8s.statefulset.name or k8s.daemonset.name is the name;
when the workload name is empty these five keys are as the copy of the source
attributes left them; k8s.workload.namespace is written exactly when the
workload namespace is not empty and k8s.workload.uid exactly when the workload
uid is not empty, both whatever the workload name. -/
theorem copyK8sFields_workload_overlay (lib : Lib) (t orig attrs : Map) :
    ((workloadOf lib attrs).name ≠ "" →
      Map.Get (copyK8sFields t orig (metadataOf lib attrs)) "k8s.workload.name" =
        some (Value.str (workloadOf lib attrs).name) ∧
      Map.Get (copyK8sFields t orig (metadataOf lib attrs)) "k8s.workload.kind" =
        some (Value.str (workloadOf lib attrs).kind) ∧
      ((workloadOf lib attrs).kind = "Deployment" →
        Map.Get (copyK8sFields t orig (metadataOf lib attrs)) "k8s.deployment.name" =
          some (Value.str (workloadOf lib attrs).name)) ∧
      ((workloadOf lib attrs).kind = "StatefulSet" →
        Map.Get (copyK8sFields t orig (metadataOf lib attrs)) "k8s.statefulset.name" =
          some (Value.str (workloadOf lib attrs).name)) ∧
      ((workloadOf lib attrs).kind = "DaemonSet" →
        Map.Get (copyK8sFields t orig (metadataOf lib attrs)) "k8s.daemonset.name" =
          some (Value.str (workloadOf lib attrs).name))) ∧
    ((workloadOf lib attrs).name = "" →
      ∀ key ∈ ["k8s.workload.name", "k8s.workload.kind", "k8s.deployment.name",
          "k8s.statefulset.name", "k8s.daemonset.name"],
        Map.Get (copyK8sFields t orig (metadataOf lib attrs)) key =
          Map.Get (copyK8sRange t orig) key) ∧
    Map.Get (copyK8sFields t orig (metadataOf lib attrs)) "k8s.workload.namespace" =
      (if (workloadOf lib attrs).namespace_ ≠ "" then
        some (Value.str (workloadOf lib attrs).namespace_)
       else Map.Get (copyK8sRange t orig) "k8s.workload.namespace") ∧
    Map.Get (copyK8sFields t orig (metadataOf lib attrs)) "k8s.workload.uid" =
      (if (workloadOf lib attrs).uid ≠ "" then some (Value.str (workloadOf lib attrs).uid)
       else Map.Get (copyK8sRange t orig) "k8s.workload.uid") := by
  have hw := fun key hkey => Get_copyK8sFields_workload lib t orig attrs key hkey
  simp only [] at hw
  refine ⟨?_, ?_, ?_, ?_⟩
  · intro hname
    have hname2 : (extractWorkloadInfo lib attrs (attrString lib attrs "scope.name")
        (attrString lib attrs "scope.namespace")).name ≠ "" := hname
    refine ⟨?_, ?_, ?_, ?_, ?_⟩
    · rw [hw _ (by decide)]; simp [hname2, workloadOf]
    · rw [hw _ (by decide)]; simp [hname2, workloadOf]
    · intro hk
      have hk2 : (extractWorkloadInfo lib attrs (attrString lib attrs "scope.name")
        (attrString lib attrs "scope.namespace")).kind = "Deployment" := hk
      rw [hw _ (by decide)]; simp [hname2, hk2, workloadOf]
    · intro hk
      have hk2 : (extractWorkloadInfo lib attrs (attrString lib attrs "scope.name")
        (attrString lib attrs "scope.namespace")).kind = "StatefulSet" := hk
      rw [hw _ (by decide)]; simp [hname2, hk2, workloadOf]
    · intro hk
      have hk2 : (extractWorkloadInfo lib attrs (attrString lib attrs "scope.name")
        (attrString lib attrs "scope.namespace")).kind = "DaemonSet" := hk
      rw [hw _ (by decide)]; simp [hname2, hk2, workloadOf]
  · intro hname key hkey
    have hname2 : (extractWorkloadInfo lib attrs (attrString lib attrs "scope.name")
        (attrString lib attrs "scope.namespace")).name = "" := hname
    simp only [List.mem_cons, List.mem_singleton, List.not_mem_nil, or_false] at hkey
    rcases hkey with rfl | rfl | rfl | rfl | rfl <;>
      (rw [hw _ (by decide)]; simp [hname2])
  · rw [hw _ (by decide)]; simp [workloadOf]
  · rw [hw _ (by decide)]; simp [workloadOf]

open openreports in
/-- Witness for C24: the report on a pod owned by the deployment "X" resolves
the workload name "X"; the overlay writes the name, the kind and
k8s.deployment.name. -/
theorem copyK8sFields_workload_overlay_witness :
    (workloadOf libOwner ownedReport.attributes).name = "X" ∧
    Map.Get (copyK8sFields [] ownedReport.attributes
        (metadataOf libOwner ownedReport.attributes)) "k8s.workload.name" =
      some (Value.str "X") ∧
    Map.Get (copyK8sFields [] ownedReport.attributes
        (metadataOf libOwner ownedReport.attributes)) "k8s.workload.kind" =
      some (Value.str "Deployment") ∧
    Map.Get (copyK8sFields [] ownedReport.attributes
        (metadataOf libOwner ownedReport.attributes)) "k8s.deployment.name" =
      some (Value.str "X") := by
  have h := (copyK8sFields_workload_overlay libOwner [] ownedReport.attributes
    ownedReport.attributes).1 (by decide)
  exact ⟨by decide, h.1, h.2.1, h.2.2.1 (by decide)⟩

open openreports in
/-- Counterexample to C24 as stated: the report with a scope namespace and
neither scope name nor owner resolves no workload name and carries no
k8s.workload.namespace, yet its event holds k8s.workload.namespace. -/
theorem workload_overlay_counterexample :
    (workloadOf libDemo namespaceOnlyReport.attributes).name = "" ∧
    Map.Get namespaceOnlyReport.attributes "k8s.workload.namespace" = none ∧
    ∃ e, (ProcessLogRecord libDemo openConfig namespaceOnlyReport demoResourceLogs.resource
        demoScope 0).1 = Except.ok [e] ∧
      Map.Get e.attributes "k8s.workload.name" = none ∧
      Map.Get e.attributes "k8s.workload.namespace" = some (Value.str "ns") := by
  refine ⟨by decide, rfl, _, rfl, ?_, ?_⟩ <;> rfl

/-! ### The copy of the `k8s.*` attributes -/

theorem Map.Get_ne_none_iff (m : Map) (key : String) :
    Map.Get m key ≠ none ↔ key ∈ Map.keys m := by
  induction m with
  | nil => simp [Map.Get, Map.keys]
  | cons e rest ih =>
    obtain ⟨k, v⟩ := e
    by_cases hk : k = key
    · simp [Map.Get, Map.keys, hk]
    · have ih2 : Map.Get rest key ≠ none ↔ key ∈ List.map Prod.fst rest := ih
      simp [Map.Get, Map.keys, hk, Ne.symm hk, ih2]

open openreports in
theorem startsWithK8s_of_isK8sKey (key : String) (h : isK8sKey key = true) :
    startsWithK8s key = true := by
  unfold isK8sKey at h
  unfold startsWithK8s
  split at h
  · next heq => rw [heq]; rfl
  · cases h

open openreports in
/-- A value of a kind the switch of `copyValue` handles is stored under the
key; a value of another kind leaves the map as it was. -/
theorem copyValue_eq (t : Map) (key : String) (v : Value) :
    copyValue t key v = if v.isCopied = true then Map.Put t key v else t := by
  cases v <;> rfl

open openreports in
/-- The loop over the source attributes: a key longer than "k8s." that starts
with it and occurs once, with a value `copyValue` handles, holds that value
afterwards. -/
theorem Get_copyK8sRange_mem (key : String) (v : Value) (hk : isK8sKey key = true)
    (hv : v.isCopied = true) :
    ∀ (orig t : Map), (Map.keys orig).Nodup → (key, v) ∈ orig →
      Map.Get (copyK8sRange t orig) key = some v := by
  have hnot : ∀ (orig t : Map), key ∉ Map.keys orig →
      Map.Get (copyK8sRange t orig) key = Map.Get t key := by
    intro orig
    induction orig with
    | nil => intro t _; rfl
    | cons e rest ih =>
      intro t hnk
      have hstep : copyK8sRange t (e :: rest)
          = copyK8sRange (if isK8sKey e.1 then copyValue t e.1 e.2 else t) rest := rfl
      have hne : e.1 ≠ key := by
        intro he
        exact hnk (by simp [Map.keys, he])
      have hrest : key ∉ Map.keys rest := by
        intro hr
        exact hnk (by simp only [Map.keys, List.map_cons, List.mem_cons]; exact Or.inr hr)
      rw [hstep, ih _ hrest]
      split
      · exact Get_copyValue_ne t e.1 key e.2 hne
      · rfl
  intro orig
  induction orig with
  | nil => intro t _ hmem; cases hmem
  | cons e rest ih =>
    intro t hnd hmem
    have hstep : copyK8sRange t (e :: rest)
        = copyK8sRange (if isK8sKey e.1 then copyValue t e.1 e.2 else t) rest := rfl
    have hnd2 : e.1 ∉ Map.keys rest ∧ (Map.keys rest).Nodup := by
      simpa [Map.keys] using hnd
    rcases List.mem_cons.1 hmem with heq | hin
    · subst heq
      rw [hstep, hnot rest _ hnd2.1]
      simp only [hk, if_true, copyValue_eq, hv]
      exact Map.Get_Put_self t key v
    · exact hstep ▸ ih _ hnd2.2 hin

open openreports in
/-- The loop reads only the source attributes whose key starts with "k8s.". -/
theorem copyK8sRange_filter (orig : Map) :
    ∀ t : Map, copyK8sRange t orig =
      copyK8sRange t (orig.filter (fun kv => startsWithK8s kv.1)) := by
  induction orig with
  | nil => intro t; rfl
  | cons e rest ih =>
    intro t
    have hstep : ∀ u : Map, copyK8sRange u (e :: rest)
        = copyK8sRange (if isK8sKey e.1 then copyValue u e.1 e.2 else u) rest := fun _ => rfl
    by_cases hs : startsWithK8s e.1 = true
    · rw [List.filter_cons_of_pos (by simpa using hs)]
      have hstep2 : copyK8sRange t (e :: rest.filter (fun kv => startsWithK8s kv.1))
          = copyK8sRange (if isK8sKey e.1 then copyValue t e.1 e.2 else t)
              (rest.filter (fun kv => startsWithK8s kv.1)) := rfl
      rw [hstep, hstep2, ih]
    · rw [List.filter_cons_of_neg (by simpa using hs)]
      have hk : isK8sKey e.1 = false := by
        cases h : isK8sKey e.1 with
        | false => rfl
        | true => exact absurd (startsWithK8s_of_isK8sKey _ h) hs
      rw [hstep, ← ih]
      simp [hk]

open openreports in
/-- The overlay writes only its own keys. -/
theorem Get_copyK8sFields_not_overlay (t orig : Map) (metadata : Metadata) (key : String)
    (h : key ∉ overlayKeys) :
    Map.Get (copyK8sFields t orig metadata) key = Map.Get (copyK8sRange t orig) key := by
  simp only [overlayKeys, List.mem_cons, List.mem_singleton, not_or, List.not_mem_nil,
    not_false_eq_true, and_true] at h
  obtain ⟨e1, e2, e3, e4, e5, e6, e7, e8, e9, e10, e11⟩ := h
  unfold copyK8sFields
  simp only []
  rw [Get_ifPresent, Get_ifPresent, Get_ifPresent, Get_ifPresent, Get_ifPresent, Get_ifPresent,
    Get_ifPresent]
  · intro x u; exact Map.Get_Put_ne _ _ _ _ (Ne.symm e1)
  · intro x u; exact Map.Get_Put_ne _ _ _ _ (Ne.symm e2)
  · intro x u
    rw [Map.Get_PutIf_ne _ _ _ _ _ (Ne.symm e1), Map.Get_Put_ne _ _ _ _ (Ne.symm e3)]
  · intro x u; exact Map.Get_Put_ne _ _ _ _ (Ne.symm e4)
  · intro x u
    split
    · rw [Map.Get_Put_ne _ _ _ _ (Ne.symm e9), Map.Get_Put_ne _ _ _ _ (Ne.symm e8),
        Get_putKindSpecificName_eq]
      simp [Ne.symm e5, Ne.symm e6, Ne.symm e7]
    · rfl
  · intro x u; exact Map.Get_PutIf_ne _ _ _ _ _ (Ne.symm e10)
  · intro x u; exact Map.Get_PutIf_ne _ _ _ _ _ (Ne.symm e11)

open openreports in
/-- C21. For every source attribute whose key is longer than "k8s.", starts
with it and is not one of the overlay keys, and whose value is of a kind
`copyValue` handles (the keys of the source being distinct), the produced event
holds that key with the same value; the event is the one produced from the
source attributes whose key starts with "k8s." alone, so no other source
attribute is copied; and the lookup of a key that does not start with "k8s."
does not depend on the source attributes. -/
theorem transformToSecurityEvent_k8s_copy (lib : Lib) (logRecord : LogRecord)
    (result : Result) (metadata : Metadata) (originalAttrs : Map) (n : Nat) :
    (∀ key v, (Map.keys originalAttrs).Nodup → (key, v) ∈ originalAttrs →
      startsWithK8s key = true → key ≠ "k8s." → key ∉ overlayKeys → v.isCopied = true →
      Map.Get (transformToSecurityEvent lib logRecord result metadata originalAttrs
        n).1.attributes key = some v) ∧
    transformToSecurityEvent lib logRecord result metadata originalAttrs n =
      transformToSecurityEvent lib logRecord result metadata
        (originalAttrs.filter (fun kv => startsWithK8s kv.1)) n ∧
    (∀ key, startsWithK8s key = false → ∀ other : Map,
      Map.Get (transformToSecurityEvent lib logRecord result metadata originalAttrs
        n).1.attributes key =
      Map.Get (transformToSecurityEvent lib logRecord result metadata other
        n).1.attributes key) := by
  refine ⟨?_, ?_, ?_⟩
  · intro key v hnd hmem hs hne hover hv
    have hk : isK8sKey key = true := by
      unfold startsWithK8s at hs
      unfold isK8sKey
      split at hs
      · next rest heq =>
        cases rest with
        | nil =>
          exfalso
          apply hne
          have : key = String.mk key.data := rfl
          rw [this, heq]
        | cons c cs => rw [heq]; rfl
      · cases hs
    unfold transformToSecurityEvent
    simp only []
    rw [Get_copyK8sFields_not_overlay _ _ _ _ hover]
    exact Get_copyK8sRange_mem key v hk hv originalAttrs _ hnd hmem
  · unfold transformToSecurityEvent copyK8sFields
    simp only []
    rw [← copyK8sRange_filter]
  · intro key hs other
    have hk : isK8sKey key = false := by
      cases h : isK8sKey key with
      | false => rfl
      | true => rw [startsWithK8s_of_isK8sKey _ h] at hs; cases hs
    unfold transformToSecurityEvent
    simp only []
    rw [Get_copyK8sFields _ _ _ _ hk, Get_copyK8sFields _ _ _ _ hk]

open openreports in
/-- Witness for C21: the event of the report on the pod "web-1" holds the
cluster name of the source, and the source attribute "scope.uid" is not in the
event. -/
theorem transformToSecurityEvent_k8s_copy_witness :
    (Map.keys scopedReport.attributes).Nodup ∧
    ("k8s.cluster.name", Value.str "c") ∈ scopedReport.attributes ∧
    Map.Get (transformToSecurityEvent libDemo (newRecordFrom scopedReport) failResult
      (metadataOf libDemo scopedReport.attributes) scopedReport.attributes 0).1.attributes
      "k8s.cluster.name" = some (Value.str "c") ∧
    Map.Get (transformToSecurityEvent libDemo (newRecordFrom scopedReport) failResult
      (metadataOf libDemo scopedReport.attributes) scopedReport.attributes 0).1.attributes
      "scope.uid" = none := by
  have hnd : (Map.keys scopedReport.attributes).Nodup := by decide
  have hmem : ("k8s.cluster.name", Value.str "c") ∈ scopedReport.attributes := by
    simp [scopedReport, reportWith]
  refine ⟨hnd, hmem, ?_, rfl⟩
  exact (transformToSecurityEvent_k8s_copy libDemo (newRecordFrom scopedReport) failResult
    (metadataOf libDemo scopedReport.attributes) scopedReport.attributes 0).1
    "k8s.cluster.name" (Value.str "c") hnd hmem (by decide) (by decide) (by decide) rfl

open openreports in
/-- Counterexample to C21 as stated: the source attribute with the key "k8s."
itself, which starts with "k8s." and is no overlay key, is not in the event. -/
theorem k8s_copy_counterexample :
    startsWithK8s "k8s." = true ∧ "k8s." ∉ overlayKeys ∧
    Map.Get (transformToSecurityEvent libDemo (newRecordFrom podRecord) failResult []
      [("k8s.", Value.str "v")] 0).1.attributes "k8s." = none := by
  refine ⟨by decide, by decide, rfl⟩

open openreports in
/-- C22. The switch of `copyValue` has a case for the kinds string, int64,
double, bool, list and map, and for a value of one of them the target holds a
value equal to the original at the key afterwards; it has no case for bytes
(nor for the empty value), so a bytes value leaves the target as it was: after
copying bytes into an empty map the key is absent. -/
theorem copyValue_kinds (t : Map) (key : String) (v : Value) :
    (v.isCopied = true → Map.Get (copyValue t key v) key = some v) ∧
    (v.isCopied = false → copyValue t key v = t) ∧
    (∀ b : List Nat, copyValue t key (Value.bytes b) = t) ∧
    Map.Get (copyValue [] "k" (Value.bytes [1, 2])) "k" = none ∧
    Map.Get (transformToSecurityEvent libDemo (newRecordFrom podRecord) failResult []
      [("k8s.blob", Value.bytes [1, 2])] 0).1.attributes "k8s.blob" = none := by
  refine ⟨?_, ?_, fun _ => rfl, rfl, rfl⟩
  · intro hv
    rw [copyValue_eq, if_pos hv]
    exact Map.Get_Put_self t key v
  · intro hv
    rw [copyValue_eq, if_neg (by simp [hv])]

open openreports in
/-- C28. Every attribute key of the event `transformToSecurityEvent` produces
is a key of the fixed schema, or starts with "k8s.", or was a key of the record
passed in; on the fresh record `ProcessLogRecord` passes, every key is in the
schema or starts with "k8s.". The constant fields are always event.version =
"1.309", event.category = "COMPLIANCE", event.name = "Compliance finding
event", event.type = "COMPLIANCE_FINDING" and finding.url = "". -/
theorem transformToSecurityEvent_schema (lib : Lib) (logRecord : LogRecord)
    (result : Result) (metadata : Metadata) (originalAttrs : Map) (n : Nat) :
    (∀ key ∈ Map.keys (transformToSecurityEvent lib logRecord result metadata originalAttrs
        n).1.attributes,
      key ∈ schemaKeys ∨ startsWithK8s key = true ∨ key ∈ Map.keys logRecord.attributes) ∧
    (∀ key ∈ Map.keys (transformToSecurityEvent lib (newRecordFrom logRecord) result metadata
        originalAttrs n).1.attributes,
      key ∈ schemaKeys ∨ startsWithK8s key = true) ∧
    Map.Get (transformToSecurityEvent lib logRecord result metadata originalAttrs
      n).1.attributes "event.version" = some (Value.str "1.309") ∧
    Map.Get (transformToSecurityEvent lib logRecord result metadata originalAttrs
      n).1.attributes "event.category" = some (Value.str "COMPLIANCE") ∧
    Map.Get (transformToSecurityEvent lib logRecord result metadata originalAttrs
      n).1.attributes "event.name" = some (Value.str "Compliance finding event") ∧
    Map.Get (transformToSecurityEvent lib logRecord result metadata originalAttrs
      n).1.attributes "event.type" = some (Value.str "COMPLIANCE_FINDING") ∧
    Map.Get (transformToSecurityEvent lib logRecord result metadata originalAttrs
      n).1.attributes "finding.url" = some (Value.str "") := by
  have hkeys : ∀ (r : LogRecord), ∀ key ∈ Map.keys (transformToSecurityEvent lib r result
      metadata originalAttrs n).1.attributes,
      key ∈ schemaKeys ∨ startsWithK8s key = true ∨ key ∈ Map.keys r.attributes := by
    intro r key hkey
    by_cases hs : key ∈ schemaKeys
    · exact Or.inl hs
    · cases hk : isK8sKey key with
      | true => exact Or.inr (Or.inl (startsWithK8s_of_isK8sKey key hk))
      | false =>
        refine Or.inr (Or.inr ?_)
        rw [← Map.Get_ne_none_iff] at hkey ⊢
        rwa [Get_transformToSecurityEvent lib r result metadata originalAttrs n key hk hs]
          at hkey
  have hconst : ∀ key, isK8sKey key = false →
      Map.Get (transformToSecurityEvent lib logRecord result metadata originalAttrs
        n).1.attributes key =
      Map.Get (securityEventAttrs lib logRecord.attributes result metadata n) key := by
    intro key hk
    unfold transformToSecurityEvent
    simp only []
    rw [Get_copyK8sFields _ _ _ _ hk]
  refine ⟨hkeys logRecord, ?_, ?_, ?_, ?_, ?_, ?_⟩
  · intro key hkey
    rcases hkeys (newRecordFrom logRecord) key hkey with h | h | h
    · exact Or.inl h
    · exact Or.inr h
    · simp [newRecordFrom, NewLogRecord, Map.keys] at h
  all_goals
    rw [hconst _ (by decide)]
    simp [securityEventAttrs, Map.Get_Put, Map.Get_PutIf]

/-! ### The groups of a batch -/

theorem rewriteScopes_frame {σ : Type} (lib : Lib) (openReports : Option (Transform σ))
    (resource : Resource) :
    ∀ (sls : List ScopeLogs) (s : σ),
      (rewriteScopes lib openReports resource sls s).map ScopeLogs.frame =
        sls.map ScopeLogs.frame := by
  intro sls
  induction sls with
  | nil => intro s; rfl
  | cons sl rest ih =>
    intro s
    simp only [rewriteScopes, List.map_cons, ih]
    rfl

theorem rewriteResources_frame {σ : Type} (lib : Lib) (openReports : Option (Transform σ)) :
    ∀ (rls : List ResourceLogs) (s : σ),
      (rewriteResources lib openReports rls s).map ResourceLogs.frame =
        rls.map ResourceLogs.frame := by
  intro rls
  induction rls with
  | nil => intro s; rfl
  | cons rl rest ih =>
    intro s
    simp only [rewriteResources, List.map_cons, ih, ResourceLogs.frame, rewriteScopes_frame]

/-- C31. `processLogs` never changes the number, the order or the own data of
the resource groups and scope groups of a batch: with every record sequence
emptied, the output batch is the input batch; so the output has as many
resource groups, with the same resources in the same order, and within the
i-th resource group as many scope groups as the input, in the same order. Only
the record sequences inside scope groups can differ. -/
theorem processLogs_frame {σ : Type} (lib : Lib) (openReports : Option (Transform σ))
    (ld : Logs) (rand : σ) :
    (processLogs lib openReports ld rand).1.frame = ld.frame ∧
    (processLogs lib openReports ld rand).1.resourceLogs.length = ld.resourceLogs.length ∧
    (processLogs lib openReports ld rand).1.resourceLogs.map (fun rl => rl.resource) =
      ld.resourceLogs.map (fun rl => rl.resource) ∧
    (processLogs lib openReports ld rand).1.resourceLogs.map
        (fun rl => rl.scopeLogs.map ScopeLogs.frame) =
      ld.resourceLogs.map (fun rl => rl.scopeLogs.map ScopeLogs.frame) ∧
    (run libDemo demoConfig groupedLogs 0).1.frame = groupedLogs.frame ∧
    (run libDemo demoConfig groupedLogs 0).1 ≠ groupedLogs := by
  have hframe : (processLogs lib openReports ld rand).1.frame = ld.frame := by
    rw [processLogs_eq]
    simp only [Logs.frame, rewriteResources_frame]
  have hmap : (processLogs lib openReports ld rand).1.resourceLogs.map ResourceLogs.frame =
      ld.resourceLogs.map ResourceLogs.frame := by
    have := congrArg Logs.resourceLogs hframe
    simpa [Logs.frame] using this
  refine ⟨hframe, ?_, ?_, ?_, rfl, ?_⟩
  · have := congrArg List.length hmap
    simpa using this
  · have := congrArg (List.map (fun rl : ResourceLogs => rl.resource)) hmap
    simpa [List.map_map, Function.comp_def, ResourceLogs.frame] using this
  · have := congrArg (List.map (fun rl : ResourceLogs => rl.scopeLogs)) hmap
    simpa [List.map_map, Function.comp_def, ResourceLogs.frame] using this
  · intro h
    have h2 := congrArg (fun l : Logs =>
      (l.resourceLogs.map (fun rl => rl.scopeLogs.map (fun sl => sl.logRecords.length)))) h
    revert h2
    decide

/-! ### The namespace of the workload -/

open openreports in
theorem scanOwnerRefs_namespace (lib : Lib) :
    ∀ (refs : List String) (info : workloadInfo),
      (scanOwnerRefs lib refs info).namespace_ = info.namespace_ := by
  intro refs
  induction refs with
  | nil => intro info; rfl
  | cons a rest ih =>
    intro info
    simp only [scanOwnerRefs]
    split
    · split
      · split
        · split <;> split <;> rfl
        · exact ih info
      · exact ih info
    · exact ih info

open openreports in
/-- C32. For every input of `extractWorkloadInfo` the returned namespace is the
namespace argument, whether the workload comes from an owner reference, from
the pod name, or is not resolved. -/
theorem extractWorkloadInfo_namespace (lib : Lib) (attrs : Map) (podName namespace_ : String) :
    (extractWorkloadInfo lib attrs podName namespace_).namespace_ = namespace_ ∧
    (extractWorkloadInfo libOwner ownerAttrs "X-89fd4b8f9-t9xlf" "ns").name = "X" ∧
    (extractWorkloadInfo libOwner ownerAttrs "X-89fd4b8f9-t9xlf" "ns").namespace_ = "ns" ∧
    (extractWorkloadInfo libDemo [] "web-89fd4b8f9-t9xlf" "ns").name = "web" ∧
    (extractWorkloadInfo libDemo [] "web-89fd4b8f9-t9xlf" "ns").namespace_ = "ns" ∧
    (extractWorkloadInfo libDemo [] "" "ns").name = "" ∧
    (extractWorkloadInfo libDemo [] "" "ns").namespace_ = "ns" := by
  refine ⟨?_, by decide, by decide, by decide, by decide, by decide, by decide⟩
  rw [extractWorkloadInfo_eq]
  split
  · exact scanOwnerRefs_namespace lib _ _
  · exact scanOwnerRefs_namespace lib _ _

/-! ### The risk score of the event -/

open openreports in
/-- The risk score written by `transformToSecurityEvent`. -/
theorem Get_event_riskScore (lib : Lib) (logRecord : LogRecord) (result : Result)
    (metadata : Metadata) (originalAttrs : Map) (n : Nat) :
    Map.Get (transformToSecurityEvent lib logRecord result metadata originalAttrs n).1.attributes
      "dt.security.risk.score" =
      some (Value.double (calculateRiskScore (mapSeverityToRiskLevel result.Severity))) := by
  unfold transformToSecurityEvent
  simp only []
  rw [Get_copyK8sFields _ _ _ _ (by decide)]
  simp [securityEventAttrs, Map.Get_Put, Map.Get_PutIf]

open openreports in
/-- C33. The risk score the program computes from the severity of a result,
`calculateRiskScore (mapSeverityToRiskLevel severity)`, is 10.0 for "critical",
8.9 for "high", 6.9 for "medium", 3.9 for "low", and 6.9 for every other
severity, "unknown" and the empty string included; it is the value the event
carries at dt.security.risk.score. -/
theorem riskScore_of_severity (lib : Lib) (logRecord : LogRecord) (result : Result)
    (metadata : Metadata) (originalAttrs : Map) (n : Nat) (severity : String) :
    calculateRiskScore (mapSeverityToRiskLevel "critical") = f64_10_0 ∧
    calculateRiskScore (mapSeverityToRiskLevel "high") = f64_8_9 ∧
    calculateRiskScore (mapSeverityToRiskLevel "medium") = f64_6_9 ∧
    calculateRiskScore (mapSeverityToRiskLevel "low") = f64_3_9 ∧
    (severity ∉ ["critical", "high", "medium", "low"] →
      calculateRiskScore (mapSeverityToRiskLevel severity) = f64_6_9) ∧
    calculateRiskScore (mapSeverityToRiskLevel "unknown") = f64_6_9 ∧
    calculateRiskScore (mapSeverityToRiskLevel "") = f64_6_9 ∧
    f64_10_0.bits = 0x4024000000000000 ∧ f64_8_9.bits = 0x4021CCCCCCCCCCCD ∧
    f64_6_9.bits = 0x401B99999999999A ∧ f64_3_9.bits = 0x400F333333333333 ∧
    Map.Get (transformToSecurityEvent lib logRecord result metadata originalAttrs
      n).1.attributes "dt.security.risk.score" =
      some (Value.double (calculateRiskScore (mapSeverityToRiskLevel result.Severity))) := by
  refine ⟨by decide, by decide, by decide, by decide, ?_, by decide, by decide, rfl, rfl, rfl,
    rfl, Get_event_riskScore lib logRecord result metadata originalAttrs n⟩
  intro h
  simp only [List.mem_cons, List.mem_singleton, List.not_mem_nil, or_false, not_or] at h
  obtain ⟨h1, h2, h3, h4⟩ := h
  have hm : mapSeverityToRiskLevel severity = "MEDIUM" := by
    simp [mapSeverityToRiskLevel, h1, h2, h3, h4]
  rw [hm]
  decide

open openreports in
/-- Counterexample to C33 as stated: for the severities "unknown" and "" the
score is 6.9, not 0.0, and the event of a result with severity "unknown"
carries 6.9 at dt.security.risk.score. -/
theorem riskScore_unknown_counterexample :
    calculateRiskScore (mapSeverityToRiskLevel "unknown") = f64_6_9 ∧
    calculateRiskScore (mapSeverityToRiskLevel "") = f64_6_9 ∧
    calculateRiskScore (mapSeverityToRiskLevel "unknown") ≠ f64_0_0 ∧
    calculateRiskScore (mapSeverityToRiskLevel "") ≠ f64_0_0 ∧
    f64_6_9.bits = 0x401B99999999999A ∧ f64_0_0.bits = 0 ∧
    Map.Get (transformToSecurityEvent libDemo NewLogRecord (demoResult "fail" "unknown" 0 0)
      [] [] 0).1.attributes "dt.security.risk.score" = some (Value.double f64_6_9) ∧
    Map.Get (transformToSecurityEvent libDemo NewLogRecord (demoResult "fail" "" 0 0)
      [] [] 0).1.attributes "dt.security.risk.score" = some (Value.double f64_6_9) := by
  refine ⟨by decide, by decide, by decide, by decide, rfl, rfl, ?_, ?_⟩
  · rw [Get_event_riskScore]; rfl
  · rw [Get_event_riskScore]; rfl

open openreports in
/-- C34. The table of `mapResultToComplianceStatus` maps the four canonical
statuses "pass", "fail", "error" and "skip" to "PASSED", "FAILED", "MANUAL" and
"NOT_RELEVANT" respectively, and the event of a result carries the value of the
table for the status of the result. -/
theorem complianceStatus_table (lib : Lib) (logRecord : LogRecord) (result : Result)
    (metadata : Metadata) (originalAttrs : Map) (n : Nat) :
    [mapResultToComplianceStatus "pass", mapResultToComplianceStatus "fail",
      mapResultToComplianceStatus "error", mapResultToComplianceStatus "skip"] =
      ["PASSED", "FAILED", "MANUAL", "NOT_RELEVANT"] ∧
    Map.Get (transformToSecurityEvent lib logRecord result metadata originalAttrs
      n).1.attributes "compliance.status" =
      some (Value.str (mapResultToComplianceStatus result.Result)) := by
  refine ⟨by decide, ?_⟩
  unfold transformToSecurityEvent
  simp only []
  rw [Get_copyK8sFields _ _ _ _ (by decide)]
  simp [securityEventAttrs, Map.Get_Put, Map.Get_PutIf]

open openreports in
/-- Counterexample to C34 as stated: the status "skip" is not mapped to
"MANUAL". -/
theorem complianceStatus_skip_counterexample :
    mapResultToComplianceStatus "skip" = "NOT_RELEVANT" ∧
    ¬ ([mapResultToComplianceStatus "pass", mapResultToComplianceStatus "fail",
      mapResultToComplianceStatus "error", mapResultToComplianceStatus "skip"] =
      ["PASSED", "FAILED", "MANUAL", "MANUAL"]) := by
  refine ⟨by decide, by decide⟩

open openreports in
/-- C38. The value written to dt.security.risk.score is
`calculateRiskScore (mapSeverityToRiskLevel severity)` for the severity of the
result, and it is always one of 10.0, 8.9, 6.9 and 3.9, never the 0.0 of the
default of `calculateRiskScore`; a severity other than "critical", "high",
"medium" and "low", such as "unknown" or the empty string, gives the risk level
"MEDIUM" and the score 6.9. -/
theorem event_riskScore_spec (lib : Lib) (logRecord : LogRecord) (result : Result)
    (metadata : Metadata) (originalAttrs : Map) (n : Nat) :
    Map.Get (transformToSecurityEvent lib logRecord result metadata originalAttrs
      n).1.attributes "dt.security.risk.score" =
      some (Value.double (calculateRiskScore (mapSeverityToRiskLevel result.Severity))) ∧
    calculateRiskScore (mapSeverityToRiskLevel result.Severity) ∈
      [f64_10_0, f64_8_9, f64_6_9, f64_3_9] ∧
    calculateRiskScore (mapSeverityToRiskLevel result.Severity) ≠ f64_0_0 ∧
    (result.Severity ∉ ["critical", "high", "medium", "low"] →
      mapSeverityToRiskLevel result.Severity = "MEDIUM" ∧
      calculateRiskScore (mapSeverityToRiskLevel result.Severity) = f64_6_9 ∧
      Map.Get (transformToSecurityEvent lib logRecord result metadata originalAttrs
        n).1.attributes "dt.security.risk.level" = some (Value.str "MEDIUM")) ∧
    mapSeverityToRiskLevel "unknown" = "MEDIUM" ∧ mapSeverityToRiskLevel "" = "MEDIUM" ∧
    calculateRiskScore (mapSeverityToRiskLevel "unknown") = f64_6_9 ∧
    calculateRiskScore (mapSeverityToRiskLevel "") = f64_6_9 := by
  have hcases : mapSeverityToRiskLevel result.Severity = "CRITICAL" ∨
      mapSeverityToRiskLevel result.Severity = "HIGH" ∨
      mapSeverityToRiskLevel result.Severity = "MEDIUM" ∨
      mapSeverityToRiskLevel result.Severity = "LOW" := by
    unfold mapSeverityToRiskLevel
    split_ifs <;> simp
  refine ⟨Get_event_riskScore lib logRecord result metadata originalAttrs n, ?_, ?_, ?_,
    by decide, by decide, by decide, by decide⟩
  · rcases hcases with h | h | h | h <;> rw [h] <;> decide
  · rcases hcases with h | h | h | h <;> rw [h] <;> decide
  · intro h
    simp only [List.mem_cons, List.mem_singleton, List.not_mem_nil, or_false, not_or] at h
    obtain ⟨h1, h2, h3, h4⟩ := h
    have hm : mapSeverityToRiskLevel result.Severity = "MEDIUM" := by
      simp [mapSeverityToRiskLevel, h1, h2, h3, h4]
    refine ⟨hm, ?_, ?_⟩
    · rw [hm]; decide
    · rw [Get_event_riskLevel, hm]

/-! ### The error branch is never taken -/

open openreports in
/-- The group that stands for a record in the output of the processor as
constructed: the record itself, or the non-empty list of events that
`ProcessLogRecord` returns for it. -/
theorem emit_outcomeOf_run (lib : Lib) (config : Config) (resource : Resource)
    (scopeLog : ScopeLogs) (r : LogRecord) (n : Nat) :
    emit (r, (outcomeOf lib (newOpenReports lib config) resource scopeLog r n).1) = [r] ∨
    (emit (r, (outcomeOf lib (newOpenReports lib config) resource scopeLog r n).1) ≠ [] ∧
      isOpenReportsLog lib r = true ∧
      (ProcessLogRecord lib config.Processors.OpenReports r resource scopeLog n).1 =
        Except.ok (emit (r, (outcomeOf lib (newOpenReports lib config) resource scopeLog
          r n).1))) := by
  by_cases he : config.Processors.OpenReports.Enabled = true
  · by_cases hd : isOpenReportsLog lib r = true
    · by_cases hsel : selectedResults lib config.Processors.OpenReports
          (rawResults lib r.attributes) = []
      · rw [outcomeOf_run_empty lib config resource scopeLog r n hsel]
        exact Or.inl rfl
      · rw [outcomeOf_run_expanded lib config resource scopeLog r n he hd hsel]
        refine Or.inr ⟨?_, hd, ?_⟩
        · intro h
          have hl := congrArg List.length h
          simp only [emit, eventsFor_length, List.length_nil] at hl
          exact hsel (List.length_eq_zero.1 hl)
        · rw [ProcessLogRecord_detected lib _ r resource scopeLog n hd]
          rfl
    · rw [outcomeOf_not_detected lib _ resource scopeLog r n (by simpa using hd)]
      exact Or.inl rfl
  · rw [outcomeOf_run_disabled lib config resource scopeLog r n (by simpa using he)]
    exact Or.inl rfl

open openreports in
/-- The groups of a scope, record by record, for the processor as constructed. -/
theorem scopeTrace_run_groups (lib : Lib) (config : Config) (resource : Resource)
    (scopeLog : ScopeLogs) :
    ∀ (rs : List LogRecord) (n : Nat),
      List.Forall₂
        (fun r g => g = [r] ∨ (g ≠ [] ∧ isOpenReportsLog lib r = true ∧
          ∃ m, (ProcessLogRecord lib config.Processors.OpenReports r resource scopeLog m).1 =
            Except.ok g))
        rs ((scopeTrace lib (newOpenReports lib config) resource scopeLog rs n).map emit) := by
  intro rs
  induction rs with
  | nil => intro n; exact List.Forall₂.nil
  | cons r rest ih =>
    intro n
    simp only [scopeTrace, List.map_cons]
    refine List.Forall₂.cons ?_ (ih _)
    rcases emit_outcomeOf_run lib config resource scopeLog r n with h | ⟨h1, h2, h3⟩
    · exact Or.inl h
    · exact Or.inr ⟨h1, h2, n, h3⟩

open openreports in
/-- C36. `ProcessLogRecord` returns no error, for every record and
configuration; so in the processor as constructed the dropped counter and the
error counter are 0 for every batch, no record of the batch has the outcome of
the error branch, and every scope of the output is the concatenation of one
group per input record, in order, each group being the record itself,
unchanged, or the non-empty list of events `ProcessLogRecord` returns for
it. -/
theorem run_never_drops (lib : Lib) (config : Config) (ld : Logs) (n : Nat) :
    (∀ (cfg : openreports.Config) (r : LogRecord) (resource : Resource)
      (scopeLogs : ScopeLogs) (m : Nat),
      ∃ records, (ProcessLogRecord lib cfg r resource scopeLogs m).1 = Except.ok records) ∧
    (run lib config ld n).2.1.droppedCount = 0 ∧
    (run lib config ld n).2.1.processingErrors = 0 ∧
    (∀ e ∈ resourcesTrace lib (newOpenReports lib config) ld.resourceLogs n,
      e.2.isFailed = false) ∧
    (∀ (i j : Nat) (rl : ResourceLogs) (sl : ScopeLogs),
      ld.resourceLogs[i]? = some rl → rl.scopeLogs[j]? = some sl →
      ∃ (groups : List (List LogRecord)) (rl1 : ResourceLogs) (sl1 : ScopeLogs),
        (run lib config ld n).1.resourceLogs[i]? = some rl1 ∧
        rl1.scopeLogs[j]? = some sl1 ∧
        sl1.logRecords = groups.flatten ∧
        List.Forall₂
          (fun r g => g = [r] ∨ (g ≠ [] ∧ isOpenReportsLog lib r = true ∧
            ∃ m, (ProcessLogRecord lib config.Processors.OpenReports r rl.resource sl m).1 =
              Except.ok g))
          sl.logRecords groups) := by
  have hnf : ∀ e ∈ resourcesTrace lib (newOpenReports lib config) ld.resourceLogs n,
      e.2.isFailed = false := by
    intro e he
    obtain ⟨rl, _, sl, _, _, s1, hs⟩ := resourcesTrace_mem lib _ ld.resourceLogs n e he
    rw [hs]
    exact outcomeOf_run_not_failed lib config rl.resource sl e.1 s1
  have hz := failedCount_eq_zero _ hnf
  refine ⟨?_, ?_, ?_, hnf, ?_⟩
  · intro cfg r resource scopeLogs m
    cases hd : isOpenReportsLog lib r with
    | false =>
      exact ⟨_, by rw [ProcessLogRecord_not_detected lib cfg r resource scopeLogs m hd]⟩
    | true =>
      exact ⟨_, by rw [ProcessLogRecord_detected lib cfg r resource scopeLogs m hd]⟩
  · unfold run
    rw [(processLogs_counts lib _ ld n).2.1, hz]
  · unfold run
    rw [processLogs_eq]
    simp [countsAfter, zeroCounts, hz]
  · intro i j rl sl hi hj
    obtain ⟨s, rl1, h1, _, h2⟩ :=
      processLogs_scope lib (newOpenReports lib config) ld n i j rl sl hi hj
    exact ⟨_, rl1, _, h1, h2, rfl,
      scopeTrace_run_groups lib config rl.resource sl sl.logRecords s⟩

/-! ### The two detection checks -/

open openreports in
/-- `ProcessLogRecord`, read on its two detection checks and the part after
them. -/
theorem ProcessLogRecord_eq_guard (lib : Lib) (config : openreports.Config) (r : LogRecord)
    (resource : Resource) (scopeLogs : ScopeLogs) (n : Nat) :
    ProcessLogRecord lib config r resource scopeLogs n =
      if nonMatchReturn lib r = true then (Except.ok [], n)
      else afterDetection lib config r n := by
  unfold ProcessLogRecord nonMatchReturn afterDetection
  simp only []
  cases Map.Get r.attributes "kind" with
  | none => rfl
  | some kv =>
    by_cases h1 : kv.AsString lib = "Report"
    · cases Map.Get r.attributes "apiVersion" with
      | none => simp [h1]
      | some av =>
        by_cases h2 : av.AsString lib = "openreports.io/v1alpha1"
        · simp only [h1, h2, ne_eq, not_true_eq_false, if_false, Bool.false_eq_true]
        · simp [h1, h2]
    · simp [h1]

theorem nonMatchReturn_iff (lib : Lib) (r : LogRecord) :
    nonMatchReturn lib r = true ↔ isOpenReportsLog lib r = false := by
  unfold nonMatchReturn isOpenReportsLog
  cases Map.Get r.attributes "kind" with
  | none => simp
  | some kv =>
    simp only []
    by_cases h1 : kv.AsString lib = "Report"
    · cases Map.Get r.attributes "apiVersion" with
      | none => simp [h1]
      | some av =>
        by_cases h2 : av.AsString lib = "openreports.io/v1alpha1" <;> simp [h1, h2]
    · simp [h1]

open openreports in
/-- C37. The two detection checks agree: `ProcessLogRecord` leaves at one of its
two non-match returns exactly when `isOpenReportsLog` returns false for the
record; `processLogs` does not call the transformation for such a record (its
first-pass step is the pass-through step whatever the transformation is), so
on the records for which `processLogs` calls `ProcessLogRecord` neither
non-match return is taken and the result is the one of the part after the
checks. -/
theorem detection_checks_agree (lib : Lib) (config : openreports.Config) (r : LogRecord)
    (resource : Resource) (scopeLogs : ScopeLogs) (n : Nat) :
    ProcessLogRecord lib config r resource scopeLogs n =
      (if nonMatchReturn lib r = true then (Except.ok [], n)
       else afterDetection lib config r n) ∧
    (nonMatchReturn lib r = true ↔ isOpenReportsLog lib r = false) ∧
    (isOpenReportsLog lib r = false →
      ∀ (proc : Transform Nat) (k : Nat) (st : FirstPass Nat),
        firstPassStep lib (some proc) resource scopeLogs k r st =
          { st with counts := { st.counts with
              incomingCount := st.counts.incomingCount + 1,
              outgoingCount := st.counts.outgoingCount + 1 } }) ∧
    (isOpenReportsLog lib r = true →
      nonMatchReturn lib r = false ∧
      ProcessLogRecord lib config r resource scopeLogs n = afterDetection lib config r n) ∧
    nonMatchReturn libDemo podRecord = true ∧ isOpenReportsLog libDemo podRecord = false ∧
    nonMatchReturn libDemo wrongVersionRecord = true ∧
    isOpenReportsLog libDemo wrongVersionRecord = false ∧
    nonMatchReturn libDemo (reportRecord (Value.slice [Value.str "fail"])) = false ∧
    isOpenReportsLog libDemo (reportRecord (Value.slice [Value.str "fail"])) = true := by
  have hg := ProcessLogRecord_eq_guard lib config r resource scopeLogs n
  have hiff := nonMatchReturn_iff lib r
  refine ⟨hg, hiff, ?_, ?_, by decide, by decide, by decide, by decide, by decide, by decide⟩
  · intro hd proc k st
    simp [firstPassStep, hd]
  · intro hd
    have hn : nonMatchReturn lib r = false := by
      cases h : nonMatchReturn lib r with
      | false => rfl
      | true => rw [hiff.1 h] at hd; cases hd
    refine ⟨hn, ?_⟩
    rw [hg, hn]
    simp

/-! ### Monotonicity of the status filter -/

open openreports in
/-- C39. The status filter is monotone on non-empty filters and maximal when
empty: for every record, when the filter of `cF` is not empty and each of its
entries is in the filter of `cG`, the results selected under `cF` form a
subsequence of those selected under `cG`; and for every `cF` the results
selected under `cF` form a subsequence of those selected under an empty filter.
The selected results are those `ProcessLogRecord` builds its events from. -/
theorem selectedResults_monotone (lib : Lib) (cF cG : openreports.Config) (r : LogRecord)
    (resource : Resource) (scopeLogs : ScopeLogs) (n : Nat) :
    (cF.StatusFilter ≠ [] → cG.StatusFilter ≠ [] →
      (∀ s ∈ cF.StatusFilter, s ∈ cG.StatusFilter) →
      List.Sublist (selectedResults lib cF (rawResults lib r.attributes))
        (selectedResults lib cG (rawResults lib r.attributes))) ∧
    (cG.StatusFilter = [] →
      List.Sublist (selectedResults lib cF (rawResults lib r.attributes))
        (selectedResults lib cG (rawResults lib r.attributes))) ∧
    (isOpenReportsLog lib r = true →
      (ProcessLogRecord lib cF r resource scopeLogs n).1 =
        Except.ok (eventsFor lib r (selectedResults lib cF (rawResults lib r.attributes)) n) ∧
      (ProcessLogRecord lib cG r resource scopeLogs n).1 =
        Except.ok (eventsFor lib r (selectedResults lib cG (rawResults lib r.attributes)) n)) := by
  have hmono : (∀ s, isStatusAllowed cF s = true → isStatusAllowed cG s = true) →
      List.Sublist (selectedResults lib cF (rawResults lib r.attributes))
        (selectedResults lib cG (rawResults lib r.attributes)) := by
    intro h
    unfold selectedResults
    exact List.monotone_filter_right _ (fun x hx => h x.Result hx)
  refine ⟨?_, ?_, ?_⟩
  · intro hF _ hsub
    apply hmono
    intro s hs
    rw [isStatusAllowed_iff_mem] at hs ⊢
    rcases hs with hs | hs
    · exact absurd hs hF
    · exact Or.inr (hsub s hs)
  · intro hG
    apply hmono
    intro s _
    rw [isStatusAllowed_iff_mem]
    exact Or.inl hG
  · intro hd
    rw [ProcessLogRecord_detected lib cF r resource scopeLogs n hd,
      ProcessLogRecord_detected lib cG r resource scopeLogs n hd]
    exact ⟨rfl, rfl⟩

open openreports in
/-- Witness for C39: for the report with the results "fail", "pass", "fail" the
filter ["fail"] selects two results, the filter ["pass", "fail"] and the empty
filter select all three. -/
theorem selectedResults_monotone_witness :
    (selectedResults libDemo failOnlyConfig (rawResults libDemo (reportRecord
      (Value.slice [Value.str "fail", Value.str "pass", Value.str "fail"])).attributes)).length
      = 2 ∧
    (selectedResults libDemo passFailConfig (rawResults libDemo (reportRecord
      (Value.slice [Value.str "fail", Value.str "pass", Value.str "fail"])).attributes)).length
      = 3 ∧
    List.Sublist
      (selectedResults libDemo failOnlyConfig (rawResults libDemo (reportRecord
        (Value.slice [Value.str "fail", Value.str "pass", Value.str "fail"])).attributes))
      (selectedResults libDemo passFailConfig (rawResults libDemo (reportRecord
        (Value.slice [Value.str "fail", Value.str "pass", Value.str "fail"])).attributes)) ∧
    List.Sublist
      (selectedResults libDemo passFailConfig (rawResults libDemo (reportRecord
        (Value.slice [Value.str "fail", Value.str "pass", Value.str "fail"])).attributes))
      (selectedResults libDemo openConfig (rawResults libDemo (reportRecord
        (Value.slice [Value.str "fail", Value.str "pass", Value.str "fail"])).attributes)) := by
  refine ⟨rfl, rfl, ?_, ?_⟩
  · exact (selectedResults_monotone libDemo failOnlyConfig passFailConfig
      (reportRecord (Value.slice [Value.str "fail", Value.str "pass", Value.str "fail"]))
      demoResourceLogs.resource demoScope 0).1 (by decide) (by decide) (by decide)
  · exact (selectedResults_monotone libDemo passFailConfig openConfig
      (reportRecord (Value.slice [Value.str "fail", Value.str "pass", Value.str "fail"]))
      demoResourceLogs.resource demoScope 0).2.1 rfl

/-! ### The tokens of a pod name -/

theorem runsAfter_nil (cur : List Char) :
    runsAfter cur [] = if cur = [] then [] else [cur] := by
  cases cur <;> simp [runsAfter, List.splitOn, List.splitOnP_nil, List.modifyHead]

theorem runsAfter_hyphen (cur rest : List Char) :
    runsAfter cur ('-' :: rest) = (if cur = [] then [] else [cur]) ++ runsAfter [] rest := by
  have h : ('-' :: rest).splitOn '-' = [] :: rest.splitOn '-' := by
    simp [List.splitOn, List.splitOnP_cons]
  have hid : (rest.splitOn '-').modifyHead (fun t => [] ++ t) = rest.splitOn '-' := by
    cases rest.splitOn '-' <;> simp [List.modifyHead]
  have e1 : runsAfter [] rest = (rest.splitOn '-').filter (fun t => !t.isEmpty) := by
    unfold runsAfter
    rw [hid]
  have e2 : ∀ (f : List Char → List Char) (a : List Char) (l : List (List Char)),
      (a :: l).modifyHead f = f a :: l := fun _ _ _ => rfl
  rw [e1]
  unfold runsAfter
  rw [h, e2]
  cases cur <;> simp

theorem runsAfter_char (cur rest : List Char) (c : Char) (hc : c ≠ '-') :
    runsAfter cur (c :: rest) = runsAfter (cur ++ [c]) rest := by
  have h : (c :: rest).splitOn '-' = (rest.splitOn '-').modifyHead (List.cons c) := by
    simp [List.splitOn, List.splitOnP_cons, hc]
  unfold runsAfter
  rw [h]
  cases rest.splitOn '-' <;> simp [List.modifyHead]

theorem hyphenFreeRuns_eq (cs : List Char) : hyphenFreeRuns cs = runsAfter [] cs := by
  unfold hyphenFreeRuns runsAfter
  cases cs.splitOn '-' <;> simp [List.modifyHead]

theorem String.ne_empty_iff (s : String) : s ≠ "" ↔ s.data ≠ [] := by
  rw [Ne, String.ext_iff]

open openreports in
/-- The loop of `splitPodName`, read on the runs of the remaining characters. -/
theorem splitPodNameLoop_eq : ∀ (cs : List Char) (parts : List String) (current : String),
    (if (splitPodNameLoop cs parts current).2 ≠ "" then
      (splitPodNameLoop cs parts current).1 ++ [(splitPodNameLoop cs parts current).2]
     else (splitPodNameLoop cs parts current).1) =
      parts ++ (runsAfter current.data cs).map String.mk := by
  intro cs
  induction cs with
  | nil =>
    intro parts current
    simp only [splitPodNameLoop, runsAfter_nil]
    by_cases h : current = ""
    · subst h
      simp
    · have hd : current.data ≠ [] := (String.ne_empty_iff current).1 h
      simp [h, hd]
  | cons c rest ih =>
    intro parts current
    by_cases hc : c = '-'
    · subst hc
      rw [runsAfter_hyphen]
      by_cases h : current = ""
      · subst h
        simp only [splitPodNameLoop, if_true, ne_eq, not_true_eq_false, if_false]
        rw [ih]
        simp
      · have hd : current.data ≠ [] := (String.ne_empty_iff current).1 h
        simp only [splitPodNameLoop, if_true, ne_eq, h, not_false_eq_true]
        rw [ih]
        simp [hd]
    · simp only [splitPodNameLoop, hc, if_false]
      rw [ih, runsAfter_char _ _ _ hc]
      simp [String.data_push]

open openreports in
/-- The tokens `splitPodName` returns are the runs of the name. -/
theorem splitPodName_eq_runs (podName : String) :
    splitPodName podName = (hyphenFreeRuns podName.data).map String.mk := by
  unfold splitPodName
  simp only []
  rw [splitPodNameLoop_eq, hyphenFreeRuns_eq]
  rfl

/-- Every run is non-empty and holds no hyphen. -/
theorem runsAfter_mem : ∀ (cs cur : List Char), '-' ∉ cur →
    ∀ t ∈ runsAfter cur cs, t ≠ [] ∧ '-' ∉ t := by
  intro cs
  induction cs with
  | nil =>
    intro cur hcur t ht
    rw [runsAfter_nil] at ht
    by_cases h : cur = []
    · simp [h] at ht
    · simp only [h, if_false, List.mem_singleton] at ht
      subst ht
      exact ⟨h, hcur⟩
  | cons c rest ih =>
    intro cur hcur t ht
    by_cases hc : c = '-'
    · subst hc
      rw [runsAfter_hyphen] at ht
      rcases List.mem_append.1 ht with ht | ht
      · by_cases h : cur = []
        · simp [h] at ht
        · simp only [h, if_false, List.mem_singleton] at ht
          subst ht
          exact ⟨h, hcur⟩
      · exact ih [] (by simp) t ht
    · rw [runsAfter_char _ _ _ hc] at ht
      refine ih (cur ++ [c]) ?_ t ht
      simp only [List.mem_append, List.mem_singleton, not_or]
      exact ⟨hcur, Ne.symm hc⟩
theorem splitOn_hyphen_cons (rest : List Char) :
    ('-' :: rest).splitOn '-' = [] :: rest.splitOn '-' := by
  simp [List.splitOn, List.splitOnP_cons]

theorem splitOn_char_cons (c : Char) (rest : List Char) (hc : c ≠ '-') :
    (c :: rest).splitOn '-' = (rest.splitOn '-').modifyHead (List.cons c) := by
  simp [List.splitOn, List.splitOnP_cons, hc]

theorem splitOn_ne_nil (cs : List Char) : cs.splitOn '-' ≠ [] :=
  List.splitOnP_ne_nil _ cs

/-- The first piece of a sequence that does not start with a hyphen is not
empty. -/
theorem splitOn_head_ne_nil (cs : List Char) (hne : cs ≠ [])
    (hlead : cs.head? ≠ some '-') : ∀ hd tl, cs.splitOn '-' = hd :: tl → hd ≠ [] := by
  intro hd tl h
  cases cs with
  | nil => exact absurd rfl hne
  | cons c rest =>
    have hc : c ≠ '-' := by
      intro hc
      apply hlead
      rw [hc]
      rfl
    rw [splitOn_char_cons c rest hc] at h
    cases hr : rest.splitOn '-' with
    | nil => exact absurd hr (splitOn_ne_nil rest)
    | cons a l =>
      rw [hr] at h
      simp only [List.modifyHead, List.cons.injEq] at h
      rw [← h.1]
      exact List.cons_ne_nil _ _

/-- The pieces after the first are not empty when the sequence neither ends
with a hyphen nor holds two hyphens in a row. -/
theorem splitOn_tail_ne_nil : ∀ (cs : List Char), cs.getLast? ≠ some '-' →
    ¬ (['-', '-'] <:+: cs) → ∀ hd tl, cs.splitOn '-' = hd :: tl → ∀ t ∈ tl, t ≠ [] := by
  intro cs
  induction cs with
  | nil =>
    intro _ _ hd tl h t ht
    simp only [List.splitOn, List.splitOnP_nil, List.cons.injEq] at h
    rw [← h.2] at ht
    cases ht
  | cons c rest ih =>
    intro hlast hinf hd tl h t ht
    have hinf2 : ¬ (['-', '-'] <:+: rest) := fun hi => hinf (List.infix_cons hi)
    cases rest with
    | nil =>
      by_cases hc : c = '-'
      · subst hc
        exact absurd rfl hlast
      · rw [splitOn_char_cons c [] hc] at h
        simp only [List.splitOn, List.splitOnP_nil, List.modifyHead, List.cons.injEq] at h
        rw [← h.2] at ht
        cases ht
    | cons r rs =>
      have hlast2 : (r :: rs).getLast? ≠ some '-' := by
        rw [List.getLast?_cons_cons] at hlast
        exact hlast
      cases hr : (r :: rs).splitOn '-' with
      | nil => exact absurd hr (splitOn_ne_nil _)
      | cons a l =>
        by_cases hc : c = '-'
        · subst hc
          rw [splitOn_hyphen_cons, hr] at h
          simp only [List.cons.injEq] at h
          rw [← h.2] at ht
          rcases List.mem_cons.1 ht with rfl | ht
          · refine splitOn_head_ne_nil (r :: rs) (List.cons_ne_nil _ _) ?_ _ l hr
            intro hh
            apply hinf
            simp only [List.head?_cons, Option.some.injEq] at hh
            subst hh
            exact ⟨[], rs, rfl⟩
          · exact ih hlast2 hinf2 a l hr t ht
        · rw [splitOn_char_cons c _ hc, hr] at h
          simp only [List.modifyHead, List.cons.injEq] at h
          rw [← h.2] at ht
          exact ih hlast2 hinf2 a l hr t ht

theorem splitOn_pieces_ne_nil (cs : List Char) (hne : cs ≠ [])
    (hlead : cs.head? ≠ some '-') (hlast : cs.getLast? ≠ some '-')
    (hinf : ¬ (['-', '-'] <:+: cs)) : ∀ t ∈ cs.splitOn '-', t ≠ [] := by
  intro t ht
  cases h : cs.splitOn '-' with
  | nil => exact absurd h (splitOn_ne_nil cs)
  | cons hd tl =>
    rw [h] at ht
    rcases List.mem_cons.1 ht with rfl | ht
    · exact splitOn_head_ne_nil cs hne hlead _ tl h
    · exact splitOn_tail_ne_nil cs hlast hinf hd tl h t ht

theorem intercalate_go_mk : ∀ (tl : List (List Char)) (acc : String),
    String.intercalate.go acc "-" (tl.map String.mk) =
      String.mk (acc.data ++ (tl.map (fun t => '-' :: t)).flatten) := by
  intro tl
  induction tl with
  | nil => intro acc; simp [String.intercalate.go]
  | cons a rest ih =>
    intro acc
    simp only [List.map_cons, String.intercalate.go]
    rw [ih]
    simp [String.data_append]

theorem list_intercalate_cons : ∀ (tl : List (List Char)) (hd : List Char),
    List.intercalate ['-'] (hd :: tl) = hd ++ (tl.map (fun t => '-' :: t)).flatten := by
  intro tl
  induction tl with
  | nil => intro hd; simp [List.intercalate, List.intersperse]
  | cons a rest ih =>
    intro hd
    have h := ih a
    simp only [List.intercalate, List.intersperse, List.flatten_cons, List.map_cons] at h ⊢
    rw [h]
    simp

/-- Joining pieces with hyphens, on strings and on character sequences. -/
theorem intercalate_map_mk (pieces : List (List Char)) :
    String.intercalate "-" (pieces.map String.mk) =
      String.mk (List.intercalate ['-'] pieces) := by
  cases pieces with
  | nil => rfl
  | cons hd tl =>
    simp only [List.map_cons, String.intercalate]
    rw [intercalate_go_mk, list_intercalate_cons]
open openreports in
/-- C35. For every string, `splitPodName` returns, in order, exactly the
maximal non-empty hyphen-free runs of the string: the pieces between its
hyphens, the empty pieces left out (the pieces, joined by single hyphens, are
the string). No token is empty or holds a hyphen, so leading, trailing and
consecutive hyphens give no empty token. When the string is not empty, neither
starts nor ends with a hyphen and has no two hyphens in a row, joining the
tokens with "-" gives the string back. -/
theorem splitPodName_spec (podName : String) :
    splitPodName podName = (hyphenFreeRuns podName.data).map String.mk ∧
    List.intercalate ['-'] (podName.data.splitOn '-') = podName.data ∧
    (∀ t ∈ splitPodName podName, t ≠ "" ∧ '-' ∉ t.data) ∧
    (podName ≠ "" → podName.data.head? ≠ some '-' → podName.data.getLast? ≠ some '-' →
      ¬ (['-', '-'] <:+: podName.data) →
      String.intercalate "-" (splitPodName podName) = podName) ∧
    splitPodName "cert-manager-cainjector-89fd4b8f9-t9xlf" =
      ["cert", "manager", "cainjector", "89fd4b8f9", "t9xlf"] ∧
    splitPodName "pod" = ["pod"] ∧
    splitPodName "-a--b-" = ["a", "b"] ∧
    splitPodName "---" = [] ∧
    splitPodName "" = [] := by
  have heq := splitPodName_eq_runs podName
  refine ⟨heq, List.intercalate_splitOn podName.data '-', ?_, ?_, by decide, by decide, by decide,
    by decide, by decide⟩
  · intro t ht
    rw [heq, hyphenFreeRuns_eq] at ht
    obtain ⟨run, hrun, rfl⟩ := List.mem_map.1 ht
    obtain ⟨h1, h2⟩ := runsAfter_mem podName.data [] (by simp) run hrun
    refine ⟨?_, h2⟩
    rw [String.ne_empty_iff]
    exact h1
  · intro hne hlead hlast hinf
    have hd : podName.data ≠ [] := (String.ne_empty_iff podName).1 hne
    have hall := splitOn_pieces_ne_nil podName.data hd hlead hlast hinf
    have hfilter : hyphenFreeRuns podName.data = podName.data.splitOn '-' := by
      unfold hyphenFreeRuns
      rw [List.filter_eq_self]
      intro t ht
      have := hall t ht
      cases t with
      | nil => exact absurd rfl this
      | cons a l => rfl
    rw [heq, hfilter, intercalate_map_mk, List.intercalate_splitOn]

open openreports in
/-- Witness for C35: "simple-pod" is not empty, has no leading, trailing or
consecutive hyphens, and the tokens "simple" and "pod" join back to it. -/
theorem splitPodName_spec_witness :
    splitPodName "simple-pod" = ["simple", "pod"] ∧
    String.intercalate "-" (splitPodName "simple-pod") = "simple-pod" := by
  refine ⟨by decide, ?_⟩
  exact (splitPodName_spec "simple-pod").2.2.2.1 (by decide) (by decide) (by decide)
    (by decide)

end SecurityEvent
